import Mathlib

/-!
# libuv core: timers (src/timer.c), thread pool (src/threadpool.c), loop (src/unix/loop.c)

A shallow embedding of the timer service, of the thread pool (submission,
workers, cancellation, completion, the size of the pool) and of the loop
configuration, with the properties of the specification proved over it.

Conventions.
* A pointer to a `uv_timer_t` is a natural number (its address); the memory of
  timer handles is the function `uv_loop_t.timers`.
* `uint64_t` values are naturals below `2 ^ 64`; every C addition that can wrap
  is written with an explicit `% 2 ^ 64`.
* A function pointer is `Option Nat`: `none` is `NULL`, `some c` is the
  function with identity `c`.
* A queue of `queue.h` is the list of its members from head to tail.
* An execution of the pool (`pool_run`, `pool_reachable`) is a sequence of
  critical sections and of calls on the loop thread; `unsigned int` counters
  are naturals with an explicit `% 2 ^ 32`.
-/

namespace Libuv

/-! ## Error codes and limits -/

/-- Modelled from the spec: the INVALID_ARGUMENT error code. `uv/errno.h` is not
among the sources; the value is the negated Linux `EINVAL`. -/
def UV_EINVAL : Int := -22

/-- Modelled from the spec: the BUSY error code (`uv/errno.h` is not among the
sources; negated Linux `EBUSY`). -/
def UV_EBUSY : Int := -16

/-- Modelled from the spec: the CANCELLED status (`uv/errno.h` is not among the
sources; negated Linux `ECANCELED`). -/
def UV_ECANCELED : Int := -125

/-- The constant `INT_MAX` of `limits.h` for a 32-bit `int`. -/
def INT_MAX : Nat := 2147483647

/-- The value of `(uint64_t) -1`. -/
def UINT64_MAX : Nat := 2 ^ 64 - 1

/-! ## The binary min-heap (heap-inl.h) -/

/-- Modelled from the spec: `heap-inl.h` is not among the sources. The parent
slot of slot `i` in a binary heap kept in level order. -/
def heap_parent (i : Nat) : Nat := (i - 1) / 2

/-- Modelled from the spec: `heap-inl.h` is not among the sources. The node in
slot `i` of the heap (`0` when the slot does not exist). -/
def heap_get (h : List Nat) (i : Nat) : Nat := h.getD i 0

/-- Modelled from the spec: `heap-inl.h` is not among the sources. Exchange the
nodes in slots `i` and `j` (`heap_node_swap`). -/
def heap_swap (h : List Nat) (i j : Nat) : List Nat :=
  (h.set i (heap_get h j)).set j (heap_get h i)

/-- Modelled from the spec: `heap-inl.h` is not among the sources. Walk a node
up from slot `i` while it is smaller than its parent. The first argument
bounds the number of steps; `i` steps always suffice. -/
def heap_sift_up (less_than : Nat → Nat → Bool) : Nat → List Nat → Nat → List Nat
  | 0, h, _ => h
  | fuel + 1, h, i =>
    if i = 0 then h
    else if less_than (heap_get h i) (heap_get h (heap_parent i)) then
      heap_sift_up less_than fuel (heap_swap h i (heap_parent i)) (heap_parent i)
    else h

/-- Modelled from the spec: `heap-inl.h` is not among the sources. The slot
holding the smallest of node `i` and its children, the left child being
looked at first. -/
def heap_smallest (less_than : Nat → Nat → Bool) (h : List Nat) (i : Nat) : Nat :=
  let s := if 2 * i + 1 < h.length ∧ less_than (heap_get h (2 * i + 1)) (heap_get h i) = true
    then 2 * i + 1 else i
  if 2 * i + 2 < h.length ∧ less_than (heap_get h (2 * i + 2)) (heap_get h s) = true
    then 2 * i + 2 else s

/-- Modelled from the spec: `heap-inl.h` is not among the sources. Walk a node
down from slot `i` while one of its children is smaller; returns the heap and
the slot where the node came to rest. -/
def heap_sift_down (less_than : Nat → Nat → Bool) : Nat → List Nat → Nat → List Nat × Nat
  | 0, h, i => (h, i)
  | fuel + 1, h, i =>
    if heap_smallest less_than h i = i then (h, i)
    else heap_sift_down less_than fuel (heap_swap h i (heap_smallest less_than h i))
      (heap_smallest less_than h i)

/-- Modelled from the spec: `heap-inl.h` is not among the sources. `heap_min`:
peek the smallest node, `none` for the empty heap. -/
def heap_min (h : List Nat) : Option Nat := h.head?

/-- Modelled from the spec: `heap-inl.h` is not among the sources.
`heap_insert`: put the node in the first free slot of the bottom row and walk
it up. -/
def heap_insert (less_than : Nat → Nat → Bool) (h : List Nat) (node : Nat) : List Nat :=
  heap_sift_up less_than h.length (h ++ [node]) h.length

/-- Modelled from the spec: `heap-inl.h` is not among the sources.
`heap_remove`: unlink the last node of the bottom row; unless it is the node to
remove, put it in that node's slot, walk it down and then up. -/
def heap_remove (less_than : Nat → Nat → Bool) (h : List Nat) (node : Nat) : List Nat :=
  if h.length = 0 then h
  else if heap_get h (h.length - 1) = node then h.dropLast
  else
    let r := heap_sift_down less_than h.length
      (h.dropLast.set (h.indexOf node) (heap_get h (h.length - 1))) (h.indexOf node)
    heap_sift_up less_than r.2 r.1 r.2

/-- The heap property: no node is smaller than its parent. -/
def heap_ordered (less_than : Nat → Nat → Bool) (h : List Nat) : Prop :=
  ∀ i, i < h.length → 0 < i → less_than (heap_get h i) (heap_get h (heap_parent i)) = false

instance (less_than : Nat → Nat → Bool) (h : List Nat) : Decidable (heap_ordered less_than h) := by
  unfold heap_ordered; infer_instance

/-- Every pair of a node and its parent is in order, except possibly the pair below slot `i`;
the children of slot `i` are in order with the parent of slot `i`. -/
def heap_up_ok (k : Nat → Nat) (h : List Nat) (i : Nat) : Prop :=
  (∀ q, q < h.length → 0 < q → q ≠ i → k (heap_get h (heap_parent q)) ≤ k (heap_get h q)) ∧
  (∀ q, q < h.length → 0 < q → heap_parent q = i → 0 < i →
    k (heap_get h (heap_parent i)) ≤ k (heap_get h q))

/-- Every pair of a node and its parent is in order, except possibly the pairs whose parent
is slot `i`; the children of slot `i` are in order with the parent of slot `i`. -/
def heap_down_ok (k : Nat → Nat) (h : List Nat) (i : Nat) : Prop :=
  (∀ q, q < h.length → 0 < q → heap_parent q ≠ i →
    k (heap_get h (heap_parent q)) ≤ k (heap_get h q)) ∧
  (∀ q, q < h.length → 0 < q → heap_parent q = i → 0 < i →
    k (heap_get h (heap_parent i)) ≤ k (heap_get h q))

/-- The slot `j` levels above slot `n` on the way to the root. -/
def heap_anc (n : Nat) : Nat → Nat
  | 0 => n
  | j + 1 => heap_parent (heap_anc n j)

/-- The heap `h` with the node `x` put in the first free slot and exchanged with its parent
`j` times: the lists that `heap_insert` goes through. -/
def heap_lifted (h : List Nat) (x : Nat) : Nat → List Nat
  | 0 => h ++ [x]
  | j + 1 => heap_swap (heap_lifted h x j) (heap_anc h.length j) (heap_anc h.length (j + 1))

/-! ## Timer handles and the loop (uv.h, uv-common.h, timer.c) -/

/-- The fields of `uv_timer_t` that timer.c reads or writes. The three flag
bits are `UV_HANDLE_CLOSING | UV_HANDLE_CLOSED`, `UV_HANDLE_ACTIVE` and
`UV_HANDLE_REF` of `handle->flags`. The embedded `heap_node` is the slot of the
handle in `uv_loop_t.timer_heap`. -/
structure uv_timer_t where
  closing : Bool
  active : Bool
  ref : Bool
  timer_cb : Option Nat
  timeout : Nat
  repeat_ms : Nat
  start_id : Nat
deriving DecidableEq, Repr

/-- The fields of `uv_loop_t` used by timer.c, and the memory of the timer
handles that belong to the loop. -/
structure uv_loop_t where
  time : Nat
  timer_counter : Nat
  timer_heap : List Nat
  active_handles : Nat
  handle_queue : List Nat
  timers : Nat → uv_timer_t

/-- `timer_less_than` of timer.c, on the two timers themselves. -/
def timer_less_than (a b : uv_timer_t) : Bool :=
  if a.timeout < b.timeout then true
  else if b.timeout < a.timeout then false
  else if a.start_id < b.start_id then true
  else if b.start_id < a.start_id then false
  else false

/-- The comparison handed to the heap: `timer_less_than` on the timers two heap
nodes are embedded in (`container_of`). -/
def timer_less (timers : Nat → uv_timer_t) (ha hb : Nat) : Bool :=
  timer_less_than (timers ha) (timers hb)

/-- Write one timer handle. -/
def set_timer (loop : uv_loop_t) (handle : Nat) (t : uv_timer_t) : uv_loop_t :=
  { loop with timers := Function.update loop.timers handle t }

/-- Modelled from the spec: the macro `uv__is_active` of uv-common.h is not
among the sources. -/
def uv__is_active (loop : uv_loop_t) (handle : Nat) : Bool :=
  (loop.timers handle).active

/-- Modelled from the spec: the macro `uv__is_closing` of uv-common.h is not
among the sources. -/
def uv__is_closing (loop : uv_loop_t) (handle : Nat) : Bool :=
  (loop.timers handle).closing

/-- Modelled from the spec: the macro `uv__handle_start` of uv-common.h is not
among the sources. Marks the handle active; a referenced handle is counted in
`active_handles` (an `unsigned int`). -/
def uv__handle_start (loop : uv_loop_t) (handle : Nat) : uv_loop_t :=
  if (loop.timers handle).active then loop
  else
    let l1 := set_timer loop handle { loop.timers handle with active := true }
    if (loop.timers handle).ref then
      { l1 with active_handles := (l1.active_handles + 1) % 2 ^ 32 }
    else l1

/-- Modelled from the spec: the macro `uv__handle_stop` of uv-common.h is not
among the sources. -/
def uv__handle_stop (loop : uv_loop_t) (handle : Nat) : uv_loop_t :=
  if (loop.timers handle).active then
    let l1 := set_timer loop handle { loop.timers handle with active := false }
    if (loop.timers handle).ref then
      { l1 with active_handles := (l1.active_handles + 2 ^ 32 - 1) % 2 ^ 32 }
    else l1
  else loop

/-- Modelled from the spec: the macro `uv__handle_init` of uv-common.h is not
among the sources. The handle gets the flags `UV_HANDLE_REF` and joins the
handle queue of the loop. -/
def uv__handle_init (loop : uv_loop_t) (handle : Nat) : uv_loop_t :=
  let l1 := set_timer loop handle
    { loop.timers handle with closing := false, active := false, ref := true }
  { l1 with handle_queue := l1.handle_queue ++ [handle] }

/-- `uv_timer_init` of timer.c. -/
def uv_timer_init (loop : uv_loop_t) (handle : Nat) : uv_loop_t :=
  let l1 := uv__handle_init loop handle
  set_timer l1 handle { l1.timers handle with timer_cb := none, repeat_ms := 0 }

/-- `uv_timer_stop` of timer.c (it always returns 0). -/
def uv_timer_stop (loop : uv_loop_t) (handle : Nat) : uv_loop_t :=
  if !uv__is_active loop handle then loop
  else
    let l1 := { loop with
      timer_heap := heap_remove (timer_less loop.timers) loop.timer_heap handle }
    uv__handle_stop l1 handle

/-- The deadline computed by `uv_timer_start`: the 64-bit sum, replaced by
`(uint64_t) -1` when the wrapped sum is below `timeout`. -/
def clamped_timeout (time timeout : Nat) : Nat :=
  if (time + timeout) % 2 ^ 64 < timeout then UINT64_MAX else (time + timeout) % 2 ^ 64

/-- `uv_timer_start` of timer.c: the return value and the loop afterwards. -/
def uv_timer_start (loop : uv_loop_t) (handle : Nat) (cb : Option Nat)
    (timeout repeat_ms : Nat) : Int × uv_loop_t :=
  if uv__is_closing loop handle || cb.isNone then (UV_EINVAL, loop)
  else
    let l1 := if uv__is_active loop handle then uv_timer_stop loop handle else loop
    let l2 := set_timer l1 handle { l1.timers handle with
      timer_cb := cb
      timeout := clamped_timeout l1.time timeout
      repeat_ms := repeat_ms
      start_id := l1.timer_counter }
    let l3 := { l2 with timer_counter := (l1.timer_counter + 1) % 2 ^ 64 }
    let l4 := { l3 with
      timer_heap := heap_insert (timer_less l3.timers) l3.timer_heap handle }
    (0, uv__handle_start l4 handle)

/-- `uv_timer_again` of timer.c: the return value and the loop afterwards. -/
def uv_timer_again (loop : uv_loop_t) (handle : Nat) : Int × uv_loop_t :=
  if (loop.timers handle).timer_cb = none then (UV_EINVAL, loop)
  else if (loop.timers handle).repeat_ms ≠ 0 then
    let l1 := uv_timer_stop loop handle
    (0, (uv_timer_start l1 handle (l1.timers handle).timer_cb
      (l1.timers handle).repeat_ms (l1.timers handle).repeat_ms).2)
  else (0, loop)

/-- `uv_timer_set_repeat` of timer.c. -/
def uv_timer_set_repeat (loop : uv_loop_t) (handle : Nat) (repeat_ms : Nat) : uv_loop_t :=
  set_timer loop handle { loop.timers handle with repeat_ms := repeat_ms }

/-- `uv__next_timeout` of timer.c. -/
def uv__next_timeout (loop : uv_loop_t) : Int :=
  match heap_min loop.timer_heap with
  | none => -1
  | some handle =>
    if (loop.timers handle).timeout ≤ loop.time then 0
    else
      let diff := (loop.timers handle).timeout - loop.time
      if diff > INT_MAX then (INT_MAX : Int) else (diff : Int)

/-- `uv__timer_close` of timer.c. -/
def uv__timer_close (loop : uv_loop_t) (handle : Nat) : uv_loop_t :=
  uv_timer_stop loop handle

/-! ## Callbacks and `uv__run_timers` -/

/-- The calls of the timer interface a timer callback can make. -/
inductive timer_op where
  | start (handle : Nat) (cb : Option Nat) (timeout repeat_ms : Nat)
  | stop (handle : Nat)
  | again (handle : Nat)
  | set_repeat (handle : Nat) (repeat_ms : Nat)
deriving DecidableEq, Repr

/-- Run one call of the timer interface. -/
def run_timer_op (loop : uv_loop_t) : timer_op → uv_loop_t
  | .start handle cb timeout repeat_ms => (uv_timer_start loop handle cb timeout repeat_ms).2
  | .stop handle => uv_timer_stop loop handle
  | .again handle => (uv_timer_again loop handle).2
  | .set_repeat handle repeat_ms => uv_timer_set_repeat loop handle repeat_ms

/-- Run the calls a callback makes, in order. -/
def run_timer_ops (ops : List timer_op) (loop : uv_loop_t) : uv_loop_t :=
  ops.foldl run_timer_op loop

/-- The behaviour of the user callbacks: `cbs c handle loop` is the sequence of
timer calls that the callback with identity `c` makes when it is invoked on
`handle` in the loop state `loop`. A callback that does not touch the timers
makes no call. -/
abbrev timer_cbs := Nat → Nat → uv_loop_t → List timer_op

/-- `uv__run_timers` of timer.c. The `for (;;)` loop is bounded by the first
argument: `none` when the bound is reached before the loop exits (or when a
`NULL` callback would be called). The result is the loop afterwards and the
handles whose callback was invoked, in the order of invocation. -/
def uv__run_timers (cbs : timer_cbs) : Nat → uv_loop_t → Option (uv_loop_t × List Nat)
  | 0, _ => none
  | fuel + 1, loop =>
    match heap_min loop.timer_heap with
    | none => some (loop, [])
    | some handle =>
      if (loop.timers handle).timeout > loop.time then some (loop, [])
      else
        let l1 := uv_timer_stop loop handle
        let l2 := (uv_timer_again l1 handle).2
        match (l2.timers handle).timer_cb with
        | none => none
        | some c =>
          match uv__run_timers cbs fuel (run_timer_ops (cbs c handle l2) l2) with
          | none => none
          | some r => some (r.1, handle :: r.2)

/-- The timer part of `uv_loop_init` of unix/loop.c: an empty heap, counters at
zero and the loop time read from the clock. A timer handle that was never
initialised is zeroed memory. -/
def uv_loop_init (now : Nat) : uv_loop_t :=
  { time := now % 2 ^ 64
    timer_counter := 0
    timer_heap := []
    active_handles := 0
    handle_queue := []
    timers := fun _ =>
      { closing := false, active := false, ref := false, timer_cb := none,
        timeout := 0, repeat_ms := 0, start_id := 0 } }

/-- Modelled from the spec: `uv__update_time` is not among the sources. The
loop time is refreshed from the monotonic 64-bit millisecond clock. -/
def uv__update_time (loop : uv_loop_t) (now : Nat) : uv_loop_t :=
  { loop with time := now % 2 ^ 64 }

/-- Modelled from the spec: `uv_close` is not among the sources. Closing a timer
marks the handle as closing and calls `uv__timer_close`. -/
def uv_close (loop : uv_loop_t) (handle : Nat) : uv_loop_t :=
  uv__timer_close (set_timer loop handle { loop.timers handle with closing := true }) handle

/-- The loop states reachable from an initialised loop by the timer interface,
clock updates and passes of `uv__run_timers`. `uv_timer_init` is applied to
handles that are not active (fresh memory or a stopped handle). -/
inductive timer_reachable (cbs : timer_cbs) : uv_loop_t → Prop
  | init (now : Nat) : timer_reachable cbs (uv_loop_init now)
  | timer_init (loop : uv_loop_t) (handle : Nat) :
      timer_reachable cbs loop → uv__is_active loop handle = false →
      timer_reachable cbs (uv_timer_init loop handle)
  | start (loop : uv_loop_t) (handle : Nat) (cb : Option Nat) (timeout repeat_ms : Nat) :
      timer_reachable cbs loop →
      timer_reachable cbs (uv_timer_start loop handle cb timeout repeat_ms).2
  | stop (loop : uv_loop_t) (handle : Nat) :
      timer_reachable cbs loop → timer_reachable cbs (uv_timer_stop loop handle)
  | again (loop : uv_loop_t) (handle : Nat) :
      timer_reachable cbs loop → timer_reachable cbs (uv_timer_again loop handle).2
  | set_repeat (loop : uv_loop_t) (handle : Nat) (repeat_ms : Nat) :
      timer_reachable cbs loop →
      timer_reachable cbs (uv_timer_set_repeat loop handle repeat_ms)
  | update_time (loop : uv_loop_t) (now : Nat) :
      timer_reachable cbs loop → timer_reachable cbs (uv__update_time loop now)
  | run_timers (loop : uv_loop_t) (fuel : Nat) (r : uv_loop_t × List Nat) :
      timer_reachable cbs loop → uv__run_timers cbs fuel loop = some r →
      timer_reachable cbs r.1
  | close (loop : uv_loop_t) (handle : Nat) :
      timer_reachable cbs loop → timer_reachable cbs (uv_close loop handle)
  | timer_close (loop : uv_loop_t) (handle : Nat) :
      timer_reachable cbs loop → timer_reachable cbs (uv__timer_close loop handle)

/-- The key of a timer in the heap: the pair `(timeout, start_id)` in lexicographic order,
as one number. -/
def timer_key (t : uv_timer_t) : Nat := t.timeout * 2 ^ 64 + t.start_id

/-- The invariant of the timer part of a loop: the heap holds every active timer exactly
once and no other handle, it has the heap property for `timer_less_than`, an active timer
is not closing and has a callback, and `start_id` and `timer_counter` are 64-bit values. -/
structure timer_inv (loop : uv_loop_t) : Prop where
  nodup : loop.timer_heap.Nodup
  mem_iff : ∀ h, h ∈ loop.timer_heap ↔ (loop.timers h).active = true
  ordered : heap_ordered (timer_less loop.timers) loop.timer_heap
  usable : ∀ h, (loop.timers h).active = true →
    (loop.timers h).closing = false ∧ (loop.timers h).timer_cb ≠ none
  start_id_lt : ∀ h, (loop.timers h).start_id < 2 ^ 64
  counter_lt : loop.timer_counter < 2 ^ 64

/-! ## The thread pool (threadpool.c, uv/threadpool.h, queue.h) -/

/-- The values of the field `work` of `struct uv__work`: `NULL`, the marker
`uv__cancelled`, or a work function with an identity. -/
inductive work_fn where
  | null
  | uv__cancelled
  | fn (id : Nat)
deriving DecidableEq, Repr

/-- `struct uv__work` of uv/threadpool.h. A pointer to a work item is a natural
number. The link `wq` is kept as the membership of the item in the queues of
`threadpool`, together with `wq_empty`, the value of `QUEUE_EMPTY(&w->wq)`:
the link points to itself. -/
structure uv__work where
  work : work_fn
  done : Option Nat
  loop : Nat
  wq_empty : Bool
deriving DecidableEq, Repr

/-- The nodes that can be linked into the queue `wq` of the pool: the two
static markers and the link of a work item. -/
inductive qnode where
  | exit_message
  | run_slow_work_message
  | work_req (w : Nat)
deriving DecidableEq, Repr

/-- Modelled from the spec: `queue.h` is not among the sources. A queue (a
circular doubly linked list identified by a head) is the list of its members
from head to tail. `QUEUE_EMPTY` of a queue head: the queue has no member. -/
def QUEUE_EMPTY {α : Type} (q : List α) : Bool := q.isEmpty

/-- Modelled from the spec: `queue.h` is not among the sources. `QUEUE_HEAD`:
the first member of the queue (`none` for the empty queue). -/
def QUEUE_HEAD {α : Type} (q : List α) : Option α := q.head?

/-- Modelled from the spec: `queue.h` is not among the sources.
`QUEUE_INSERT_TAIL`: the node becomes the last member of the queue. -/
def QUEUE_INSERT_TAIL {α : Type} (q : List α) (n : α) : List α := q ++ [n]

/-- Modelled from the spec: `queue.h` is not among the sources. `QUEUE_REMOVE`:
the node leaves the queue; the other members keep their order. -/
def QUEUE_REMOVE {α : Type} [DecidableEq α] (q : List α) (n : α) : List α := q.erase n

/-- The static variables of threadpool.c that the scheduling code uses, the
completion queue `loop->wq` and the pending wake-up `loop->wq_async` of every
loop, and the memory of the work items. `post` inserts the node it is given
into `wq` or `slow_io_pending_wq`, so these are lists of nodes; only links of
work items are inserted into `loop->wq`, which is a list of work items.
`run_slow_work_message_empty` is `QUEUE_EMPTY(&run_slow_work_message)`:
the link of the marker points to itself (it was initialised with `QUEUE_INIT`
and not inserted since). -/
structure threadpool where
  idle_threads : Nat
  slow_io_work_running : Nat
  nthreads : Nat
  wq : List qnode
  slow_io_pending_wq : List qnode
  run_slow_work_message_empty : Bool
  loop_wq : Nat → List Nat
  wq_async : Nat → Bool
  works : Nat → uv__work

/-- `slow_work_thread_threshold` of threadpool.c, in the arithmetic of
`unsigned int`. -/
def slow_work_thread_threshold (p : threadpool) : Nat := (p.nthreads + 1) % 2 ^ 32 / 2

/-- Write one work item. -/
def set_work (p : threadpool) (w : Nat) (v : uv__work) : threadpool :=
  { p with works := Function.update p.works w v }

/-- `QUEUE_REMOVE(&w->wq)`: the link of the work item leaves the queue it is
in, whichever it is. The link itself is not reset. -/
def queue_remove_work (p : threadpool) (w : Nat) : threadpool :=
  { p with
    wq := QUEUE_REMOVE p.wq (qnode.work_req w)
    slow_io_pending_wq := QUEUE_REMOVE p.slow_io_pending_wq (qnode.work_req w)
    loop_wq := fun l => QUEUE_REMOVE (p.loop_wq l) w }

/-- The test `!QUEUE_EMPTY(&w->wq) && w->work != NULL` of `uv__work_cancel`. -/
def work_cancellable (p : threadpool) (w : Nat) : Bool :=
  !(p.works w).wq_empty && (p.works w).work != work_fn.null

/-- The first critical section of `uv__work_cancel` (under `mutex` and
`w->loop->wq_mutex`): a cancellable item is unlinked. -/
def uv__work_cancel_unlink (p : threadpool) (w : Nat) : threadpool :=
  if work_cancellable p w then queue_remove_work p w else p

/-- `uv__work_cancel` of threadpool.c: the return value and the state
afterwards. The second critical section stores the marker `uv__cancelled`,
appends the item to `loop->wq` and wakes the loop (`uv_async_send`). -/
def uv__work_cancel (p : threadpool) (loop w : Nat) : Int × threadpool :=
  let p1 := uv__work_cancel_unlink p w
  if !work_cancellable p w then (UV_EBUSY, p1)
  else
    let p2 := set_work p1 w { p1.works w with work := work_fn.uv__cancelled }
    let p3 := set_work p2 w { p2.works w with wq_empty := false }
    (0, { p3 with
      loop_wq := Function.update p3.loop_wq loop (QUEUE_INSERT_TAIL (p3.loop_wq loop) w)
      wq_async := Function.update p3.wq_async loop true })

/-- The condition of the `while` loop of `worker` that makes it wait on the
condition variable: `wq` is empty, or the slow-I/O marker is the head of `wq`
and also its last member while the slow-I/O threshold is reached. -/
def worker_must_wait (p : threadpool) : Bool :=
  QUEUE_EMPTY p.wq ||
    (QUEUE_HEAD p.wq == some qnode.run_slow_work_message && p.wq.tail.isEmpty &&
      decide (p.slow_io_work_running ≥ slow_work_thread_threshold p))

/-- What a worker does after it has looked at the head of `wq`. -/
inductive worker_next where
  | wait
  | exit
  | again
  | run (w : Nat) (is_slow_work : Bool)
  | fault
deriving DecidableEq, Repr

/-- `QUEUE_INIT(q)` for a node: its link points to itself again. -/
def queue_init (p : threadpool) (q : qnode) : threadpool :=
  match q with
  | qnode.work_req w => set_work p w { p.works w with wq_empty := true }
  | qnode.run_slow_work_message => { p with run_slow_work_message_empty := true }
  | qnode.exit_message => p

/-- `QUEUE_DATA(q, struct uv__work, wq)` followed by the call `w->work(w)`: the
worker leaves with the work item whose link `q` is. A node that is the link of
no work item gives no work item to run (`fault`). -/
def worker_run (q : qnode) (is_slow_work : Bool) : worker_next :=
  match q with
  | qnode.work_req w => worker_next.run w is_slow_work
  | _ => worker_next.fault

/-- The part of the body of the `for (;;)` loop of `worker` that runs with
`mutex` held, from the `while` loop to `uv_mutex_unlock(&mutex)`. The worker
waits on the condition variable (`wait`; `idle_threads` is one higher while it
waits), exits on the exit message, which stays in `wq` (`exit`), starts the
loop over (`again`, the `continue` statements), or leaves with the node that
it has taken out of its queue (`run` when it is a work item). The counter
`slow_io_work_running` is an `unsigned int`. -/
def worker_take (p : threadpool) : worker_next × threadpool :=
  if worker_must_wait p then (worker_next.wait, p)
  else
    match QUEUE_HEAD p.wq with
    | none => (worker_next.wait, p)
    | some qnode.exit_message => (worker_next.exit, p)
    | some (qnode.work_req w) =>
      (worker_next.run w false,
        set_work { p with wq := QUEUE_REMOVE p.wq (qnode.work_req w) } w
          { p.works w with wq_empty := true })
    | some qnode.run_slow_work_message =>
      let p1 := { p with
        wq := QUEUE_REMOVE p.wq qnode.run_slow_work_message
        run_slow_work_message_empty := true }
      if p1.slow_io_work_running ≥ slow_work_thread_threshold p1 then
        (worker_next.again,
          { p1 with
            wq := QUEUE_INSERT_TAIL p1.wq qnode.run_slow_work_message
            run_slow_work_message_empty := false })
      else if QUEUE_EMPTY p1.slow_io_pending_wq then (worker_next.again, p1)
      else
        match QUEUE_HEAD p1.slow_io_pending_wq with
        | none => (worker_next.again, p1)
        | some q =>
          let p2 := queue_init
            { p1 with
              slow_io_work_running := (p1.slow_io_work_running + 1) % 2 ^ 32
              slow_io_pending_wq := QUEUE_REMOVE p1.slow_io_pending_wq q } q
          if !QUEUE_EMPTY p2.slow_io_pending_wq then
            (worker_run q true,
              { p2 with
                wq := QUEUE_INSERT_TAIL p2.wq qnode.run_slow_work_message
                run_slow_work_message_empty := false })
          else (worker_run q true, p2)

/-- The critical section of `worker` under `w->loop->wq_mutex`, after the work
function has returned: `w->work = NULL`, the item is appended to the completion
queue of its loop and the loop is woken (`uv_async_send`). -/
def worker_done (p : threadpool) (w : Nat) : threadpool :=
  let p1 := set_work p w { p.works w with work := work_fn.null, wq_empty := false }
  { p1 with
    loop_wq := Function.update p1.loop_wq (p.works w).loop
      (QUEUE_INSERT_TAIL (p1.loop_wq (p.works w).loop) w)
    wq_async := Function.update p1.wq_async (p.works w).loop true }

/-- The end of the loop body of `worker`: with `mutex` held again, a worker
that ran slow I/O work decrements `slow_io_work_running` (an `unsigned int`). -/
def worker_relock (p : threadpool) (is_slow_work : Bool) : threadpool :=
  if is_slow_work then
    { p with slow_io_work_running := (p.slow_io_work_running + 2 ^ 32 - 1) % 2 ^ 32 }
  else p

/-- The work item is linked into one of the queues: `wq`, `slow_io_pending_wq`
or the completion queue of a loop. -/
def work_queued (p : threadpool) (w : Nat) : Prop :=
  qnode.work_req w ∈ p.wq ∨ qnode.work_req w ∈ p.slow_io_pending_wq ∨ ∃ l, w ∈ p.loop_wq l

/-- The links of the work item are sound: the link of `w` points to itself
exactly when `w` is in no queue, and `w` is not linked twice into a queue. -/
structure work_link_ok (p : threadpool) (w : Nat) : Prop where
  linked_iff : (p.works w).wq_empty = false ↔ work_queued p w
  wq_once : p.wq.count (qnode.work_req w) ≤ 1
  slow_once : p.slow_io_pending_wq.count (qnode.work_req w) ≤ 1
  loop_once : ∀ l, (p.loop_wq l).count w ≤ 1

/-- The loop state at the moment `uv__run_timers` invokes the callback of `handle`: the
timer has been stopped and, when it repeats, started again. -/
def timer_fire (loop : uv_loop_t) (handle : Nat) : uv_loop_t :=
  (uv_timer_again (uv_timer_stop loop handle) handle).2

/-- The handles whose callback a pass of `uv__run_timers` invokes, in order. -/
def timers_fired (cbs : timer_cbs) (fuel : Nat) (loop : uv_loop_t) : Option (List Nat) :=
  (uv__run_timers cbs fuel loop).map (fun r => r.2)

/-- The keys `(timeout, start_id)` of the timers in the heap are pairwise different, as
they are as long as `timer_counter` has not wrapped around. -/
def timer_keys_distinct (loop : uv_loop_t) : Prop :=
  ∀ a ∈ loop.timer_heap, ∀ b ∈ loop.timer_heap, a ≠ b →
    timer_key (loop.timers a) ≠ timer_key (loop.timers b)

instance (loop : uv_loop_t) : Decidable (timer_keys_distinct loop) := by
  unfold timer_keys_distinct; infer_instance

/-- The `start_id`s of the timers in the heap were allocated from `timer_counter` without a
wrap-around: they are below the counter and pairwise different. -/
def timer_ids_fresh (loop : uv_loop_t) : Prop :=
  (∀ a ∈ loop.timer_heap, (loop.timers a).start_id < loop.timer_counter) ∧
  (∀ a ∈ loop.timer_heap, ∀ b ∈ loop.timer_heap, a ≠ b →
    (loop.timers a).start_id ≠ (loop.timers b).start_id)

/-- Modelled from the spec: the error codes are defined in uv/errno.h, which is not among
the sources. `UV_ENOSYS` is `-ENOSYS`. -/
def UV_ENOSYS : Int := -38

/-- `enum uv__work_kind` of uv-common.h, which is not among the sources; threadpool.c
names the three kinds. -/
inductive uv__work_kind where
  | UV__WORK_CPU
  | UV__WORK_FAST_IO
  | UV__WORK_SLOW_IO
deriving DecidableEq, Repr

/-- The link of a node after `QUEUE_INSERT_TAIL` has put it into a queue: it no longer
points to itself. -/
def queue_linked (p : threadpool) (q : qnode) : threadpool :=
  match q with
  | qnode.work_req w => set_work p w { p.works w with wq_empty := false }
  | qnode.run_slow_work_message => { p with run_slow_work_message_empty := false }
  | qnode.exit_message => p

/-- `post` of threadpool.c, the critical section under `mutex`. A node of kind
`UV__WORK_SLOW_IO` goes to the tail of `slow_io_pending_wq`, and the marker
`run_slow_work_message` takes its place in `wq` unless the marker is linked already; any
other node goes to the tail of `wq`. The signal on the condition variable changes no
variable of the pool. -/
def post (p : threadpool) (q : qnode) (kind : uv__work_kind) : threadpool :=
  if kind = uv__work_kind.UV__WORK_SLOW_IO then
    let p1 := queue_linked
      { p with slow_io_pending_wq := QUEUE_INSERT_TAIL p.slow_io_pending_wq q } q
    if !p1.run_slow_work_message_empty then p1
    else
      queue_linked
        { p1 with wq := QUEUE_INSERT_TAIL p1.wq qnode.run_slow_work_message }
        qnode.run_slow_work_message
  else
    queue_linked { p with wq := QUEUE_INSERT_TAIL p.wq q } q

/-- `uv__work_submit` of threadpool.c for a pool that `init_threads` has set up (the call
of `uv_once` does nothing then): the three fields of the item are stored and its link is
posted. -/
def uv__work_submit (p : threadpool) (loop w : Nat) (kind : uv__work_kind) (work : work_fn)
    (done : Option Nat) : threadpool :=
  let p1 := set_work p w { p.works w with loop := loop }
  let p2 := set_work p1 w { p1.works w with work := work }
  let p3 := set_work p2 w { p2.works w with done := done }
  post p3 (qnode.work_req w) kind

/-- The effect of the calls `w->done(w, err)` on the pool, by work item and status. -/
abbrev work_done_cbs := Nat → Int → threadpool → threadpool

/-- The `done` callbacks that leave the pool and the queues alone. -/
def idle_done_cbs : work_done_cbs := fun _ _ p => p

/-- The `while` loop of `uv__work_done` over the local queue `wq`: the head is removed, the
status is `UV_ECANCELED` when `w->work` is `uv__cancelled` and 0 otherwise, and `w->done` is
called. The second component lists the calls of `done` in order. `QUEUE_REMOVE` does not
reset the link of the item. -/
def uv__work_done_loop (cbs : work_done_cbs) :
    List Nat → threadpool → threadpool × List (Nat × Int)
  | [], p => (p, [])
  | w :: wq, p =>
    let err := if (p.works w).work = work_fn.uv__cancelled then UV_ECANCELED else 0
    let r := uv__work_done_loop cbs wq (cbs w err p)
    (r.1, (w, err) :: r.2)

/-- `uv__work_done` of threadpool.c for the loop that owns the async handle: `QUEUE_MOVE`
takes the members of `loop->wq` to a local queue and leaves `loop->wq` empty; then the
local queue is worked off. -/
def uv__work_done (cbs : work_done_cbs) (p : threadpool) (loop : Nat) :
    threadpool × List (Nat × Int) :=
  uv__work_done_loop cbs (p.loop_wq loop)
    { p with loop_wq := Function.update p.loop_wq loop [] }

/-- `MAX_THREADPOOL_SIZE` of threadpool.c. -/
def MAX_THREADPOOL_SIZE : Nat := 1024

/-- `ARRAY_SIZE(default_threads)` of threadpool.c. -/
def default_threads_size : Nat := 4

/-- The decimal digits at the front of the characters, read from left to right. -/
def atoi_digits : List Char → Nat → Nat
  | [], acc => acc
  | c :: cs, acc =>
    if 48 ≤ c.toNat ∧ c.toNat ≤ 57 then atoi_digits cs (acc * 10 + (c.toNat - 48)) else acc

/-- The characters that `isspace` of the C library accepts. -/
def atoi_space (c : Char) : Bool := c.toNat = 32 || (9 ≤ c.toNat && c.toNat ≤ 13)

/-- Modelled from the spec: `atoi` belongs to the C library and is not among the sources.
White space is skipped, a sign is read, then decimal digits as far as they go; a text
without digits at that place gives 0. The value is the number read; for a number that an
`int` cannot hold the C function is undefined. -/
def atoi (s : String) : Int :=
  match s.toList.dropWhile atoi_space with
  | [] => 0
  | c :: cs =>
    if c.toNat = 45 then - (atoi_digits cs 0 : Int)
    else if c.toNat = 43 then (atoi_digits cs 0 : Int)
    else (atoi_digits (c :: cs) 0 : Int)

/-- The conversion of an `int` to `unsigned int`. -/
def to_unsigned (n : Int) : Nat := (n % 2 ^ 32).toNat

/-- The value that `init_threads` of threadpool.c leaves in `nthreads`, an `unsigned int`.
The first argument is the result of `getenv("UV_THREADPOOL_SIZE")` (`none` for `NULL`), the
second tells whether `uv__malloc` succeeds. -/
def init_threads_nthreads (val : Option String) (malloc_ok : Bool) : Nat :=
  let n0 := default_threads_size
  let n1 := match val with
    | none => n0
    | some v => to_unsigned (atoi v)
  let n2 := if n1 = 0 then 1 else n1
  let n3 := if n2 > MAX_THREADPOOL_SIZE then MAX_THREADPOOL_SIZE else n2
  if n3 > default_threads_size then
    if malloc_ok then n3 else default_threads_size
  else n3

/-- `init_threads` of threadpool.c on the static variables of the pool: `nthreads` is
chosen and the three queue heads are initialised. The counters `idle_threads` and
`slow_io_work_running` are not written. -/
def init_threads (val : Option String) (malloc_ok : Bool) (p : threadpool) : threadpool :=
  { p with
    nthreads := init_threads_nthreads val malloc_ok
    wq := []
    slow_io_pending_wq := []
    run_slow_work_message_empty := true }

/-- `UV_LOOP_BLOCK_SIGNAL` of `uv_loop_option` in uv.h, which is not among the sources. -/
def UV_LOOP_BLOCK_SIGNAL : Int := 0

/-- `SIGPROF` of signal.h. -/
def SIGPROF : Int := 27

/-- `UV_LOOP_BLOCK_SIGPROF` of unix/internal.h, which is not among the sources. -/
def UV_LOOP_BLOCK_SIGPROF : Nat := 1

/-- `uv__loop_configure` of unix/loop.c on `loop->flags`, the only field it uses. The
argument `ap` is the `int` that `va_arg` reads. The result is the return value and the
flags afterwards. -/
def uv__loop_configure (flags : Nat) (option : Int) (ap : Int) : Int × Nat :=
  if option ≠ UV_LOOP_BLOCK_SIGNAL then (UV_ENOSYS, flags)
  else if ap ≠ SIGPROF then (UV_EINVAL, flags)
  else (0, flags ||| UV_LOOP_BLOCK_SIGPROF)

/-- The text holds a number for `atoi`: after the white space, and after a sign if there is
one, a decimal digit follows. -/
def atoi_numeric (s : String) : Bool :=
  match s.toList.dropWhile atoi_space with
  | [] => false
  | c :: cs =>
    if c.toNat = 45 ∨ c.toNat = 43 then
      match cs with
      | [] => false
      | d :: _ => decide (48 ≤ d.toNat ∧ d.toNat ≤ 57)
    else decide (48 ≤ c.toNat ∧ c.toNat ≤ 57)

/-- The static variables of the pool when the program starts, before `init_threads`: the
counters are zero. The completion queue of every loop is empty. -/
def pool_static (works : Nat → uv__work) : threadpool :=
  { idle_threads := 0
    slow_io_work_running := 0
    nthreads := 0
    wq := []
    slow_io_pending_wq := []
    run_slow_work_message_empty := true
    loop_wq := fun _ => []
    wq_async := fun _ => false
    works := works }

/-- The work items whose links are in a queue of nodes, in queue order. -/
def queue_items (q : List qnode) : List Nat :=
  q.filterMap (fun n =>
    match n with
    | qnode.work_req w => some w
    | _ => none)

/-- An execution of the pool: the variables of the pool together with what the threads
hold and a record of what has happened. `running` lists the work items that workers have
taken and not yet completed, with the `is_slow_work` of the worker; `relocking` counts the
workers that have completed a slow item and have not yet taken `mutex` again. The other
fields record the items submitted to `wq` and to `slow_io_pending_wq`, the items that
workers took from either queue, the items for which `uv__work_cancel` returned 0, and the
calls of `done`, each in the order of the events. -/
structure pool_run where
  pool : threadpool
  running : List (Nat × Bool)
  relocking : Nat
  wq_submitted : List Nat
  slow_submitted : List Nat
  wq_dispatched : List Nat
  slow_dispatched : List Nat
  cancelled : List Nat
  done_calls : List (Nat × Int)

/-- The pool after `init_threads`, before any submission. -/
def pool_boot (val : Option String) (malloc_ok : Bool) (works : Nat → uv__work) : pool_run :=
  { pool := init_threads val malloc_ok (pool_static works)
    running := []
    relocking := 0
    wq_submitted := []
    slow_submitted := []
    wq_dispatched := []
    slow_dispatched := []
    cancelled := []
    done_calls := [] }

/-- A submission: `uv__work_submit` with a work function that is not `NULL`. -/
def run_submit (s : pool_run) (loop w : Nat) (kind : uv__work_kind) (work : Nat)
    (done : Option Nat) : pool_run :=
  { s with
    pool := uv__work_submit s.pool loop w kind (work_fn.fn work) done
    wq_submitted :=
      if kind = uv__work_kind.UV__WORK_SLOW_IO then s.wq_submitted else s.wq_submitted ++ [w]
    slow_submitted :=
      if kind = uv__work_kind.UV__WORK_SLOW_IO then s.slow_submitted ++ [w]
      else s.slow_submitted }

/-- A worker step: one pass of a worker through the critical section `worker_take`. A
worker that leaves with a work item runs it. -/
def run_worker (s : pool_run) : pool_run :=
  match (worker_take s.pool).1 with
  | worker_next.run w is_slow_work =>
    { s with
      pool := (worker_take s.pool).2
      running := (w, is_slow_work) :: s.running
      wq_dispatched := if is_slow_work then s.wq_dispatched else s.wq_dispatched ++ [w]
      slow_dispatched := if is_slow_work then s.slow_dispatched ++ [w] else s.slow_dispatched }
  | _ => { s with pool := (worker_take s.pool).2 }

/-- A completion step: the work function of a running item has returned and its worker
passes through `worker_done`. -/
def run_complete (s : pool_run) (w : Nat) (is_slow_work : Bool) : pool_run :=
  { s with
    pool := worker_done s.pool w
    running := s.running.erase (w, is_slow_work)
    relocking := if is_slow_work then s.relocking + 1 else s.relocking }

/-- A worker that has completed a slow item takes `mutex` again and decrements the
counter. -/
def run_relock (s : pool_run) : pool_run :=
  { s with
    pool := worker_relock s.pool true
    relocking := s.relocking - 1 }

/-- A cancellation: `uv_cancel` calls `uv__work_cancel` with the loop of the request, the
one that the submission stored in the item. -/
def run_cancel (s : pool_run) (w : Nat) : pool_run :=
  { s with
    pool := (uv__work_cancel s.pool (s.pool.works w).loop w).2
    cancelled :=
      if (uv__work_cancel s.pool (s.pool.works w).loop w).1 = 0 then w :: s.cancelled
      else s.cancelled }

/-- A completion drain: `uv__work_done` on a loop, with `done` callbacks that leave the
pool alone. -/
def run_drain (s : pool_run) (loop : Nat) : pool_run :=
  { s with
    pool := (uv__work_done idle_done_cbs s.pool loop).1
    done_calls := s.done_calls ++ (uv__work_done idle_done_cbs s.pool loop).2 }

/-- The item has been submitted in this execution. -/
def submitted (s : pool_run) (w : Nat) : Prop :=
  w ∈ s.wq_submitted ∨ w ∈ s.slow_submitted

/-- The number of workers that run the item. -/
def run_count (s : pool_run) (w : Nat) : Nat := (s.running.map Prod.fst).count w

/-- The number of calls of `done` for the item. -/
def done_count (s : pool_run) (w : Nat) : Nat := (s.done_calls.map Prod.fst).count w

/-- The number of workers that run a slow item. -/
def slow_running (s : pool_run) : Nat := (s.running.filter (fun r => r.2)).length

/-- The executions of the pool: from the initialised pool by submissions of items not
submitted before (an item stands for one submission), worker steps, completions of running
items, cancellations of submitted items whose `done` has not been called, and completion
drains. Every step is one critical section, or one call on the loop thread. -/
inductive pool_reachable : pool_run → Prop where
  | init (val : Option String) (malloc_ok : Bool) (works : Nat → uv__work) :
      pool_reachable (pool_boot val malloc_ok works)
  | submit (s : pool_run) (loop w : Nat) (kind : uv__work_kind) (work : Nat) (done : Option Nat) :
      pool_reachable s → ¬ submitted s w → pool_reachable (run_submit s loop w kind work done)
  | worker (s : pool_run) : pool_reachable s → pool_reachable (run_worker s)
  | complete (s : pool_run) (w : Nat) (is_slow_work : Bool) :
      pool_reachable s → (w, is_slow_work) ∈ s.running →
      pool_reachable (run_complete s w is_slow_work)
  | relock (s : pool_run) : pool_reachable s → 0 < s.relocking → pool_reachable (run_relock s)
  | cancel (s : pool_run) (w : Nat) :
      pool_reachable s → submitted s w → done_count s w = 0 → pool_reachable (run_cancel s w)
  | drain (s : pool_run) (loop : Nat) : pool_reachable s → pool_reachable (run_drain s loop)

/-- The marker `run_slow_work_message` in the queues of the pool: it is at most once in
`wq`, `slow_io_pending_wq` holds links of work items only, the link of the marker tells
whether it is in `wq`, and it is in `wq` whenever `slow_io_pending_wq` has a member. -/
structure marker_inv (p : threadpool) : Prop where
  once : p.wq.count qnode.run_slow_work_message ≤ 1
  slow_items : ∀ q ∈ p.slow_io_pending_wq, ∃ w, q = qnode.work_req w
  linked_iff : p.run_slow_work_message_empty = false ↔ qnode.run_slow_work_message ∈ p.wq
  scheduled : p.slow_io_pending_wq ≠ [] → qnode.run_slow_work_message ∈ p.wq

/-- The counter `slow_io_work_running` counts the workers that run a slow item or have
not yet decremented the counter after one, and it is within the threshold. -/
structure slow_inv (s : pool_run) : Prop where
  nthreads_pos : 1 ≤ s.pool.nthreads
  nthreads_le : s.pool.nthreads ≤ MAX_THREADPOOL_SIZE
  counted : s.pool.slow_io_work_running = slow_running s + s.relocking
  bounded : s.pool.slow_io_work_running ≤ slow_work_thread_threshold s.pool

/-- How often the link of the item is in `wq`. -/
def wq_count (s : pool_run) (w : Nat) : Nat := s.pool.wq.count (qnode.work_req w)

/-- How often the link of the item is in `slow_io_pending_wq`. -/
def slow_count (s : pool_run) (w : Nat) : Nat :=
  s.pool.slow_io_pending_wq.count (qnode.work_req w)

/-- How often the item is in the completion queue of the loop. -/
def loop_count (s : pool_run) (l w : Nat) : Nat := (s.pool.loop_wq l).count w

/-- Where the work items are: an item that was not submitted is nowhere; a submitted item
is in one place (a queue of the pool, a worker, the completion queue of its loop, or with
`done` called); an item is in no completion queue but that of its own loop; the link of
an item tells whether it is in a queue; an item that a worker took runs or has `work` set
to `NULL`. -/
structure life_inv (s : pool_run) : Prop where
  fresh : ∀ w, ¬ submitted s w →
    wq_count s w = 0 ∧ slow_count s w = 0 ∧ run_count s w = 0 ∧
    (∀ l, loop_count s l w = 0) ∧ done_count s w = 0
  one_place : ∀ w, submitted s w →
    wq_count s w + slow_count s w + run_count s w +
      loop_count s (s.pool.works w).loop w + done_count s w = 1
  own_loop : ∀ w l, l ≠ (s.pool.works w).loop → loop_count s l w = 0
  running_unlinked : ∀ w, 0 < run_count s w → (s.pool.works w).wq_empty = true
  queued_linked : ∀ w,
    0 < wq_count s w + slow_count s w + loop_count s (s.pool.works w).loop w →
    (s.pool.works w).wq_empty = false
  nodup : (s.wq_submitted ++ s.slow_submitted).Nodup
  cancelled_sub : ∀ w ∈ s.cancelled, submitted s w
  dispatched_sub : ∀ w, w ∈ s.wq_dispatched ∨ w ∈ s.slow_dispatched → submitted s w
  dispatched_done : ∀ w, w ∈ s.wq_dispatched ∨ w ∈ s.slow_dispatched →
    0 < run_count s w ∨ (s.pool.works w).work = work_fn.null

/-- The order of the queues: the items that workers took from a queue, followed by the
items that wait in it, are the items submitted to it that were not cancelled, in the
order of submission. A marker in `wq` stands for waiting slow items unless a cancellation
took them away. -/
structure fifo_inv (s : pool_run) : Prop where
  wq_order : s.wq_dispatched ++ queue_items s.pool.wq =
    s.wq_submitted.filter (fun w => decide (w ∉ s.cancelled))
  slow_order : s.slow_dispatched ++ queue_items s.pool.slow_io_pending_wq =
    s.slow_submitted.filter (fun w => decide (w ∉ s.cancelled))
  marker_cause : qnode.run_slow_work_message ∈ s.pool.wq →
    s.pool.slow_io_pending_wq ≠ [] ∨ ∃ w ∈ s.cancelled, w ∈ s.slow_submitted

/-- The invariant of the executions of the pool. -/
structure pool_inv (s : pool_run) : Prop where
  marker : marker_inv s.pool
  slow : slow_inv s
  life : life_inv s
  fifo : fifo_inv s

/-- The part of `cleanup` of threadpool.c before the threads are joined: nothing when
`nthreads` is 0, otherwise the exit message is posted. After the joins `cleanup` frees the
thread array and sets `nthreads` to 0. -/
def cleanup_post (p : threadpool) : threadpool :=
  if p.nthreads = 0 then p else post p qnode.exit_message uv__work_kind.UV__WORK_CPU

/-- One critical section of the pool, or one call on the loop thread, whoever takes it: a
submission, a pass of a worker through `worker_take`, the completion of an item, a worker
taking `mutex` again, a cancellation, a completion drain. -/
inductive pool_step : threadpool → threadpool → Prop where
  | submit (p : threadpool) (loop w : Nat) (kind : uv__work_kind) (work : work_fn)
      (done : Option Nat) : pool_step p (uv__work_submit p loop w kind work done)
  | take (p : threadpool) : pool_step p (worker_take p).2
  | done (p : threadpool) (w : Nat) : pool_step p (worker_done p w)
  | relock (p : threadpool) (is_slow_work : Bool) : pool_step p (worker_relock p is_slow_work)
  | cancel (p : threadpool) (loop w : Nat) : pool_step p (uv__work_cancel p loop w).2
  | drain (p : threadpool) (loop : Nat) : pool_step p (uv__work_done idle_done_cbs p loop).1

/-- The exit message is in the queue and the link of the work item is not in front of
it: the item is not in the queue, or every place it has there is behind the exit
message. -/
def behind_exit (q : List qnode) (w : Nat) : Prop :=
  qnode.exit_message ∈ q ∧
    qnode.work_req w ∉ q.takeWhile (fun n => n != qnode.exit_message)

instance (q : List qnode) (w : Nat) : Decidable (behind_exit q w) := by
  unfold behind_exit; infer_instance

/-- The timers in the heap whose deadline is at or before the loop time. -/
def due_timers (loop : uv_loop_t) : Finset Nat :=
  loop.timer_heap.toFinset.filter (fun h => (loop.timers h).timeout ≤ loop.time)

/-! ## Concrete loop states used as test inputs -/

/-- A loop at time 0 with the single timer 7 started with timeout 10. -/
def loop_one_timer : uv_loop_t :=
  (uv_timer_start (uv_timer_init (uv_loop_init 0) 7) 7 (some 1) 10 0).2

/-- The callbacks that make no timer call. -/
def idle_cbs : timer_cbs := fun _ _ _ => []

/-- A pool of four threads with work item 1 waiting in `wq`, work item 2 waiting in
`slow_io_pending_wq` behind the marker, and work item 3 taken by a worker. -/
def pool_three_items : threadpool :=
  { idle_threads := 3
    slow_io_work_running := 0
    nthreads := 4
    wq := [qnode.work_req 1, qnode.run_slow_work_message]
    slow_io_pending_wq := [qnode.work_req 2]
    run_slow_work_message_empty := false
    loop_wq := fun _ => []
    wq_async := fun _ => false
    works := fun w =>
      if w = 1 then { work := work_fn.fn 10, done := some 20, loop := 0, wq_empty := false }
      else if w = 2 then { work := work_fn.fn 11, done := some 21, loop := 0, wq_empty := false }
      else { work := work_fn.fn 12, done := some 22, loop := 0, wq_empty := true } }

/-- Timers 1, 2 and 3 started in that order with timeout 10 and timer 4 started with
timeout 20, all at loop time 0. -/
def loop_four_started : uv_loop_t :=
  (uv_timer_start
    (uv_timer_start
      (uv_timer_start
        (uv_timer_start
          (uv_timer_init (uv_timer_init (uv_timer_init (uv_timer_init (uv_loop_init 0) 1) 2) 3) 4)
          1 (some 1) 10 0).2
        2 (some 1) 10 0).2
      3 (some 1) 10 0).2
    4 (some 1) 20 0).2

/-- The loop `loop_four_started` when the loop time has become 10. -/
def loop_four_timers : uv_loop_t := uv__update_time loop_four_started 10

/-- Timer 1 started at loop time 0 with timeout 5 and repeat 7; the loop time is then 5. -/
def loop_repeat_timer : uv_loop_t :=
  uv__update_time (uv_timer_start (uv_timer_init (uv_loop_init 0) 1) 1 (some 1) 5 7).2 5

/-- The callbacks of a loop in which the callback of timer `m` stops the timer and the
other callbacks make no timer call. -/
def stop_self_cbs (m : Nat) : timer_cbs :=
  fun _ handle _ => if handle = m then [timer_op.stop m] else []

/-- Work items in zeroed memory. -/
def work_memory_zero : Nat → uv__work :=
  fun _ => { work := work_fn.null, done := none, loop := 0, wq_empty := false }

/-- A pool in which the completion queue of loop 0 holds the work items 3, 1 and 2; item 1
has been cancelled, the other two have been run by workers. -/
def pool_completed : threadpool :=
  { idle_threads := 4
    slow_io_work_running := 0
    nthreads := 4
    wq := []
    slow_io_pending_wq := []
    run_slow_work_message_empty := true
    loop_wq := fun l => if l = 0 then [3, 1, 2] else []
    wq_async := fun l => decide (l = 0)
    works := fun w =>
      if w = 1 then
        { work := work_fn.uv__cancelled, done := some 21, loop := 0, wq_empty := false }
      else { work := work_fn.null, done := some 20, loop := 0, wq_empty := false } }

/-- The pool after `init_threads` with the environment variable unset: four threads. -/
def run_boot : pool_run := pool_boot none true work_memory_zero

/-- The slow items 1 and 2 have been submitted. -/
def run_two_slow : pool_run :=
  run_submit (run_submit run_boot 0 1 uv__work_kind.UV__WORK_SLOW_IO 10 (some 20))
    0 2 uv__work_kind.UV__WORK_SLOW_IO 11 (some 21)

/-- The slow items 1 and 2 have been submitted and a worker has taken item 1. -/
def run_slow_taken : pool_run := run_worker run_two_slow

/-- The slow item 1 has been submitted and cancelled. -/
def run_slow_cancelled : pool_run :=
  run_cancel (run_submit run_boot 0 1 uv__work_kind.UV__WORK_SLOW_IO 10 (some 20)) 1

/-- The items 1, 2 and 3 have been submitted to `wq` in that order, item 2 has been
cancelled, and workers have taken two items. -/
def run_three_fast : pool_run :=
  run_worker (run_worker (run_cancel
    (run_submit
      (run_submit (run_submit run_boot 0 1 uv__work_kind.UV__WORK_CPU 10 (some 20))
        0 2 uv__work_kind.UV__WORK_FAST_IO 11 (some 21))
      0 3 uv__work_kind.UV__WORK_CPU 12 (some 22)) 2))

/-- The item 1 has been submitted, taken and completed by a worker, and the completion
queue of its loop has been drained. -/
def run_one_done : pool_run :=
  run_drain (run_complete
    (run_worker (run_submit run_boot 0 1 uv__work_kind.UV__WORK_CPU 10 (some 20))) 1 false) 0

/-- Timer 1 (timeout 10, no repeat), timer 2 (timeout 10, repeat 7) and timer 3 (timeout 20,
repeat 4) started in that order at loop time 0; the loop time is then 10. -/
def loop_mixed_timers : uv_loop_t :=
  uv__update_time
    (uv_timer_start
      (uv_timer_start
        (uv_timer_start
          (uv_timer_init (uv_timer_init (uv_timer_init (uv_loop_init 0) 1) 2) 3)
          1 (some 1) 10 0).2
        2 (some 2) 10 7).2
      3 (some 3) 20 4).2
    10

/-- A pool of four threads at the slow-I/O threshold: two slow items run, the marker is at
the head of `wq` in front of the work items 1 and 2, and item 5 waits in
`slow_io_pending_wq`. -/
def pool_at_threshold : threadpool :=
  { idle_threads := 0
    slow_io_work_running := 2
    nthreads := 4
    wq := [qnode.run_slow_work_message, qnode.work_req 1, qnode.work_req 2]
    slow_io_pending_wq := [qnode.work_req 5]
    run_slow_work_message_empty := false
    loop_wq := fun _ => []
    wq_async := fun _ => false
    works := fun w => { work := work_fn.fn (10 + w), done := some 20, loop := 0,
                        wq_empty := decide (w ≠ 1 ∧ w ≠ 2 ∧ w ≠ 5) } }

/-- A pool of four threads with the exit message at the head of `wq` and work item 1
behind it. -/
def pool_exiting : threadpool :=
  { idle_threads := 0
    slow_io_work_running := 0
    nthreads := 4
    wq := [qnode.exit_message, qnode.work_req 1]
    slow_io_pending_wq := []
    run_slow_work_message_empty := true
    loop_wq := fun _ => []
    wq_async := fun _ => false
    works := fun w => { work := work_fn.fn (10 + w), done := some 20, loop := 0,
                        wq_empty := decide (w ≠ 1) } }

/-! ## Lemmas on the binary heap -/

theorem heap_get_lt {h : List Nat} {i : Nat} (hi : i < h.length) :
    h[i]? = some (heap_get h i) := by
  unfold heap_get
  rw [List.getD_eq_getElem?_getD, List.getElem?_eq_getElem hi]; rfl

theorem heap_get_ge {h : List Nat} {i : Nat} (hi : h.length ≤ i) : heap_get h i = 0 := by
  unfold heap_get
  rw [List.getD_eq_getElem?_getD, List.getElem?_eq_none hi]; rfl

theorem heap_get_set (h : List Nat) (i q v : Nat) :
    heap_get (h.set i v) q = if q = i ∧ i < h.length then v else heap_get h q := by
  unfold heap_get
  simp only [List.getD_eq_getElem?_getD, List.getElem?_set]
  by_cases hq : i = q
  · subst hq
    by_cases hi : i < h.length
    · simp [hi]
    · simp [hi, List.getElem?_eq_none (Nat.le_of_not_lt hi)]
  · have : ¬ q = i := fun e => hq e.symm
    simp [hq, this]

theorem heap_swap_length (h : List Nat) (i j : Nat) : (heap_swap h i j).length = h.length := by
  simp [heap_swap]

theorem heap_get_swap (h : List Nat) {i j : Nat} (hi : i < h.length) (hj : j < h.length)
    (q : Nat) :
    heap_get (heap_swap h i j) q =
      if q = j then heap_get h i else if q = i then heap_get h j else heap_get h q := by
  unfold heap_swap
  rw [heap_get_set, heap_get_set]
  simp only [List.length_set, hi, hj, and_true]

theorem heap_mem_iff (h : List Nat) (x : Nat) :
    x ∈ h ↔ ∃ q, q < h.length ∧ heap_get h q = x := by
  rw [List.mem_iff_getElem]
  constructor
  · rintro ⟨n, hn, e⟩
    refine ⟨n, hn, ?_⟩
    have := heap_get_lt hn
    rw [List.getElem?_eq_getElem hn] at this
    injection this with this
    rw [← this, e]
  · rintro ⟨q, hq, e⟩
    refine ⟨q, hq, ?_⟩
    have := heap_get_lt hq
    rw [List.getElem?_eq_getElem hq] at this
    injection this with this
    rw [this, e]

theorem heap_nodup_iff (h : List Nat) :
    h.Nodup ↔ ∀ p q, p < h.length → q < h.length → heap_get h p = heap_get h q → p = q := by
  rw [List.nodup_iff_injective_getElem]
  constructor
  · intro inj p q hp hq e
    have e1 := heap_get_lt hp
    have e2 := heap_get_lt hq
    rw [List.getElem?_eq_getElem hp] at e1
    rw [List.getElem?_eq_getElem hq] at e2
    injection e1 with e1
    injection e2 with e2
    have := @inj ⟨p, hp⟩ ⟨q, hq⟩ (by simp only; rw [e1, e2, e])
    exact congrArg Fin.val this
  · intro H a b e
    have e1 := heap_get_lt a.2
    have e2 := heap_get_lt b.2
    rw [List.getElem?_eq_getElem a.2] at e1
    rw [List.getElem?_eq_getElem b.2] at e2
    injection e1 with e1
    injection e2 with e2
    apply Fin.ext
    apply H _ _ a.2 b.2
    rw [← e1, ← e2]; exact e

theorem heap_mem_swap (h : List Nat) {i j : Nat} (hi : i < h.length) (hj : j < h.length)
    (x : Nat) : x ∈ heap_swap h i j ↔ x ∈ h := by
  rw [heap_mem_iff, heap_mem_iff, heap_swap_length]
  constructor
  · rintro ⟨q, hq, e⟩
    rw [heap_get_swap h hi hj] at e
    by_cases h1 : q = j
    · rw [if_pos h1] at e; exact ⟨i, hi, e⟩
    · rw [if_neg h1] at e
      by_cases h2 : q = i
      · rw [if_pos h2] at e; exact ⟨j, hj, e⟩
      · rw [if_neg h2] at e; exact ⟨q, hq, e⟩
  · rintro ⟨q, hq, e⟩
    by_cases h1 : q = i
    · refine ⟨j, hj, ?_⟩
      rw [heap_get_swap h hi hj, if_pos rfl, ← h1, e]
    · by_cases h2 : q = j
      · refine ⟨i, hi, ?_⟩
        rw [heap_get_swap h hi hj]
        by_cases h3 : i = j
        · rw [if_pos h3, ← e, h2, h3]
        · rw [if_neg h3, if_pos rfl, ← e, h2]
      · refine ⟨q, hq, ?_⟩
        rw [heap_get_swap h hi hj, if_neg h2, if_neg h1, e]

theorem heap_get_swap_perm (h : List Nat) {i j : Nat} (hi : i < h.length) (hj : j < h.length)
    (q : Nat) :
    heap_get (heap_swap h i j) q =
      heap_get h (if q = j then i else if q = i then j else q) := by
  rw [heap_get_swap h hi hj]
  split_ifs <;> rfl

theorem heap_nodup_swap (h : List Nat) {i j : Nat} (hi : i < h.length) (hj : j < h.length)
    (hn : h.Nodup) : (heap_swap h i j).Nodup := by
  rw [heap_nodup_iff] at hn ⊢
  intro p q hp hq e
  rw [heap_swap_length] at hp hq
  rw [heap_get_swap_perm h hi hj, heap_get_swap_perm h hi hj] at e
  have := hn _ _ (by split_ifs <;> omega) (by split_ifs <;> omega) e
  split_ifs at this <;> omega


section order
variable {lt : Nat → Nat → Bool} {k : Nat → Nat} (hk : ∀ a b, lt a b = true ↔ k a < k b)
include hk

theorem heap_lt_false (a b : Nat) : lt a b = false ↔ k b ≤ k a := by
  have := hk a b
  cases h : lt a b
  · simp only [true_iff]
    rw [h] at this
    simp at this
    exact this
  · rw [h] at this
    simp only [true_iff] at this
    simp
    exact this

theorem heap_ordered_iff (h : List Nat) :
    heap_ordered lt h ↔
      ∀ i, i < h.length → 0 < i → k (heap_get h (heap_parent i)) ≤ k (heap_get h i) := by
  unfold heap_ordered
  simp only [heap_lt_false hk]

theorem heap_sift_up_ordered (fuel : Nat) : ∀ (h : List Nat) (i : Nat),
    i < h.length → i ≤ fuel → heap_up_ok k h i → heap_ordered lt (heap_sift_up lt fuel h i) := by
  induction fuel with
  | zero =>
    intro h i _ hf hup
    have : i = 0 := by omega
    subst this
    rw [heap_sift_up, heap_ordered_iff hk]
    intro q hq hq0
    exact hup.1 q hq hq0 (by omega)
  | succ fuel ih =>
    intro h i hi hf hup
    rw [heap_sift_up]
    by_cases h0 : i = 0
    · rw [if_pos h0, heap_ordered_iff hk]
      intro q hq hq0
      exact hup.1 q hq hq0 (by omega)
    · rw [if_neg h0]
      have hp : heap_parent i < i := by unfold heap_parent; omega
      by_cases hl : lt (heap_get h i) (heap_get h (heap_parent i)) = true
      · rw [if_pos hl]
        have hlk := (hk _ _).1 hl
        apply ih _ _ (by rw [heap_swap_length]; omega) (by omega)
        have hpl : heap_parent i < h.length := by omega
        constructor
        · intro q hq hq0 hqp
          rw [heap_swap_length] at hq
          rw [heap_get_swap h hi hpl, heap_get_swap h hi hpl]
          have hqq : heap_parent q < q := by unfold heap_parent; omega
          by_cases e1 : q = i
          · subst e1
            simp only [if_true, if_neg h0, if_neg hqp]
            omega
          · simp only [if_neg hqp, if_neg e1]
            by_cases e2 : heap_parent q = heap_parent i
            · rw [if_pos e2]
              have := hup.1 q hq hq0 e1
              rw [e2] at this
              omega
            · rw [if_neg e2]
              by_cases e3 : heap_parent q = i
              · rw [if_pos e3]
                exact hup.2 q hq hq0 e3 (by omega)
              · rw [if_neg e3]
                exact hup.1 q hq hq0 e1
        · intro q hq hq0 hqp hp0
          rw [heap_swap_length] at hq
          rw [heap_get_swap h hi hpl, heap_get_swap h hi hpl]
          have hpp : heap_parent (heap_parent i) < heap_parent i := by
            unfold heap_parent at hp0 ⊢; omega
          have e1 : ¬ heap_parent (heap_parent i) = heap_parent i := by omega
          have e2 : ¬ heap_parent (heap_parent i) = i := by omega
          have e3 : ¬ q = heap_parent i := by
            have : heap_parent q < q := by unfold heap_parent; omega
            omega
          simp only [if_neg e1, if_neg e2, if_neg e3]
          have := hup.1 (heap_parent i) hpl hp0 (by omega)
          by_cases e4 : q = i
          · rw [if_pos e4]; exact this
          · rw [if_neg e4]
            have := hup.1 q hq hq0 e4
            rw [hqp] at this
            omega
      · rw [if_neg hl, heap_ordered_iff hk]
        have hlk : k (heap_get h (heap_parent i)) ≤ k (heap_get h i) := by
          rw [← heap_lt_false hk]
          simpa using hl
        intro q hq hq0
        by_cases e : q = i
        · subst e; exact hlk
        · exact hup.1 q hq hq0 e

/-- The slot chosen by `heap_smallest`: slot `i` itself or one of its children, holding a
node that is not larger than node `i` and its children. -/
theorem heap_smallest_spec (h : List Nat) (i : Nat) :
    (heap_smallest lt h i = i ∨
      (heap_smallest lt h i = 2 * i + 1 ∧ 2 * i + 1 < h.length) ∨
      (heap_smallest lt h i = 2 * i + 2 ∧ 2 * i + 2 < h.length)) ∧
    (heap_smallest lt h i ≠ i → k (heap_get h (heap_smallest lt h i)) < k (heap_get h i)) ∧
    (2 * i + 1 < h.length →
      k (heap_get h (heap_smallest lt h i)) ≤ k (heap_get h (2 * i + 1))) ∧
    (2 * i + 2 < h.length →
      k (heap_get h (heap_smallest lt h i)) ≤ k (heap_get h (2 * i + 2))) ∧
    k (heap_get h (heap_smallest lt h i)) ≤ k (heap_get h i) := by
  simp only [heap_smallest, hk]
  split_ifs with h1 h2 h3 <;>
    refine ⟨?_, ?_, ?_, ?_, ?_⟩ <;> (try intros) <;> omega

theorem heap_sift_down_ordered (fuel : Nat) : ∀ (h : List Nat) (i : Nat),
    i < h.length → h.length ≤ fuel + i → heap_down_ok k h i →
    heap_ordered lt (heap_sift_down lt fuel h i).1 := by
  induction fuel with
  | zero => intro h i hi hf _; omega
  | succ fuel ih =>
    intro h i hi hf hd
    rw [heap_sift_down]
    obtain ⟨hs, hs1, hs2, hs3, hs4⟩ := heap_smallest_spec hk h i
    by_cases e : heap_smallest lt h i = i
    · rw [if_pos e, heap_ordered_iff hk]
      rw [e] at hs2 hs3
      intro q hq hq0
      by_cases e1 : heap_parent q = i
      · rw [e1]
        have : q = 2 * i + 1 ∨ q = 2 * i + 2 := by unfold heap_parent at e1; omega
        rcases this with rfl | rfl
        · exact hs2 hq
        · exact hs3 hq
      · exact hd.1 q hq hq0 e1
    · rw [if_neg e]
      have hs1 := hs1 e
      generalize heap_smallest lt h i = s at *
      have hsl : s < h.length := by omega
      have hps : heap_parent s = i := by unfold heap_parent; omega
      apply ih _ _ (by rw [heap_swap_length]; exact hsl) (by rw [heap_swap_length]; omega)
      constructor
      · intro q hq hq0 hqp
        rw [heap_swap_length] at hq
        rw [heap_get_swap h hi hsl, heap_get_swap h hi hsl]
        have hqq : heap_parent q < q := by unfold heap_parent; omega
        simp only [if_neg hqp]
        by_cases e1 : heap_parent q = i
        · rw [if_pos e1]
          have : q = 2 * i + 1 ∨ q = 2 * i + 2 := by unfold heap_parent at e1; omega
          by_cases e2 : q = s
          · rw [if_pos e2]; omega
          · rw [if_neg e2, if_neg (by omega)]
            rcases this with rfl | rfl
            · exact hs2 hq
            · exact hs3 hq
        · rw [if_neg e1]
          have e2 : ¬ q = s := by intro e2; rw [e2] at e1; exact e1 hps
          rw [if_neg e2]
          by_cases e3 : q = i
          · rw [if_pos e3]
            have := hd.2 s hsl (by omega) hps (by omega)
            rw [← e3] at this
            exact this
          · rw [if_neg e3]
            exact hd.1 q hq hq0 e1
      · intro q hq hq0 hqp _
        rw [heap_swap_length] at hq
        rw [heap_get_swap h hi hsl, heap_get_swap h hi hsl]
        have hqq : heap_parent q < q := by unfold heap_parent; omega
        rw [hps]
        simp only [if_neg e, if_true]
        rw [if_neg (by omega), if_neg (by omega), if_neg (by omega)]
        have := hd.1 q hq hq0 (by omega)
        rw [hqp] at this
        exact this

end order

theorem heap_sift_up_length (lt : Nat → Nat → Bool) (fuel : Nat) : ∀ (h : List Nat) (i : Nat),
    (heap_sift_up lt fuel h i).length = h.length := by
  induction fuel with
  | zero => intro h i; rfl
  | succ fuel ih =>
    intro h i
    rw [heap_sift_up]
    split_ifs
    · rfl
    · rw [ih, heap_swap_length]
    · rfl

theorem heap_sift_up_mem (lt : Nat → Nat → Bool) (fuel : Nat) : ∀ (h : List Nat) (i : Nat),
    i < h.length → ∀ x, x ∈ heap_sift_up lt fuel h i ↔ x ∈ h := by
  induction fuel with
  | zero => intro h i _ x; rfl
  | succ fuel ih =>
    intro h i hi x
    rw [heap_sift_up]
    have hp : heap_parent i < h.length := by unfold heap_parent; omega
    split_ifs
    · rfl
    · rw [ih _ _ (by rw [heap_swap_length]; exact hp), heap_mem_swap h hi hp]
    · rfl

theorem heap_sift_up_nodup (lt : Nat → Nat → Bool) (fuel : Nat) : ∀ (h : List Nat) (i : Nat),
    i < h.length → h.Nodup → (heap_sift_up lt fuel h i).Nodup := by
  induction fuel with
  | zero => intro h i _ hn; exact hn
  | succ fuel ih =>
    intro h i hi hn
    rw [heap_sift_up]
    have hp : heap_parent i < h.length := by unfold heap_parent; omega
    split_ifs
    · exact hn
    · exact ih _ _ (by rw [heap_swap_length]; exact hp) (heap_nodup_swap h hi hp hn)
    · exact hn

theorem heap_smallest_lt (lt : Nat → Nat → Bool) (h : List Nat) (i : Nat) (hi : i < h.length) :
    heap_smallest lt h i < h.length ∧ i ≤ heap_smallest lt h i := by
  simp only [heap_smallest]
  split_ifs <;> omega

theorem heap_sift_down_length (lt : Nat → Nat → Bool) (fuel : Nat) : ∀ (h : List Nat) (i : Nat),
    i < h.length → (heap_sift_down lt fuel h i).1.length = h.length ∧
      (heap_sift_down lt fuel h i).2 < h.length := by
  induction fuel with
  | zero => intro h i hi; exact ⟨rfl, hi⟩
  | succ fuel ih =>
    intro h i hi
    rw [heap_sift_down]
    have hs := (heap_smallest_lt lt h i hi).1
    split_ifs
    · exact ⟨rfl, hi⟩
    · have := ih (heap_swap h i (heap_smallest lt h i)) (heap_smallest lt h i)
        (by rw [heap_swap_length]; exact hs)
      rw [heap_swap_length] at this
      exact this

theorem heap_sift_down_mem (lt : Nat → Nat → Bool) (fuel : Nat) : ∀ (h : List Nat) (i : Nat),
    i < h.length → ∀ x, x ∈ (heap_sift_down lt fuel h i).1 ↔ x ∈ h := by
  induction fuel with
  | zero => intro h i _ x; rfl
  | succ fuel ih =>
    intro h i hi x
    rw [heap_sift_down]
    have hs := (heap_smallest_lt lt h i hi).1
    split_ifs
    · rfl
    · rw [ih _ _ (by rw [heap_swap_length]; exact hs), heap_mem_swap h hi hs]

theorem heap_sift_down_nodup (lt : Nat → Nat → Bool) (fuel : Nat) : ∀ (h : List Nat) (i : Nat),
    i < h.length → h.Nodup → (heap_sift_down lt fuel h i).1.Nodup := by
  induction fuel with
  | zero => intro h i _ hn; exact hn
  | succ fuel ih =>
    intro h i hi hn
    rw [heap_sift_down]
    have hs := (heap_smallest_lt lt h i hi).1
    split_ifs
    · exact hn
    · exact ih _ _ (by rw [heap_swap_length]; exact hs) (heap_nodup_swap h hi hs hn)

/-! ### `heap_insert` -/

theorem heap_insert_length (lt : Nat → Nat → Bool) (h : List Nat) (x : Nat) :
    (heap_insert lt h x).length = h.length + 1 := by
  unfold heap_insert
  rw [heap_sift_up_length]; simp

theorem heap_insert_mem (lt : Nat → Nat → Bool) (h : List Nat) (x y : Nat) :
    y ∈ heap_insert lt h x ↔ y = x ∨ y ∈ h := by
  unfold heap_insert
  rw [heap_sift_up_mem _ _ _ _ (by simp)]
  simp [or_comm]

theorem heap_insert_nodup (lt : Nat → Nat → Bool) (h : List Nat) (x : Nat)
    (hn : h.Nodup) (hx : x ∉ h) : (heap_insert lt h x).Nodup := by
  unfold heap_insert
  apply heap_sift_up_nodup _ _ _ _ (by simp)
  rw [List.nodup_append]
  refine ⟨hn, List.nodup_singleton x, ?_⟩
  intro a ha hb
  simp at hb
  subst hb
  exact hx ha

theorem heap_get_append_left (h : List Nat) (x : Nat) {q : Nat} (hq : q < h.length) :
    heap_get (h ++ [x]) q = heap_get h q := by
  unfold heap_get
  simp only [List.getD_eq_getElem?_getD]
  rw [List.getElem?_append, if_pos hq]

theorem heap_get_append_right (h : List Nat) (x : Nat) :
    heap_get (h ++ [x]) h.length = x := by
  unfold heap_get
  simp only [List.getD_eq_getElem?_getD]
  rw [List.getElem?_append, if_neg (by omega)]
  simp

theorem heap_get_dropLast (h : List Nat) {q : Nat} (hq : q < h.length - 1) :
    heap_get h.dropLast q = heap_get h q := by
  unfold heap_get
  simp only [List.getD_eq_getElem?_getD]
  rw [List.getElem?_dropLast, if_pos hq]

section order
variable {lt : Nat → Nat → Bool} {k : Nat → Nat} (hk : ∀ a b, lt a b = true ↔ k a < k b)
include hk

theorem heap_insert_ordered (h : List Nat) (x : Nat) (ho : heap_ordered lt h) :
    heap_ordered lt (heap_insert lt h x) := by
  unfold heap_insert
  apply heap_sift_up_ordered hk _ _ _ (by simp) (le_refl _)
  rw [heap_ordered_iff hk] at ho
  constructor
  · intro q hq hq0 hqn
    simp at hq
    have hq' : q < h.length := by omega
    have hp : heap_parent q < h.length := by unfold heap_parent; omega
    rw [heap_get_append_left h x hq', heap_get_append_left h x hp]
    exact ho q hq' hq0
  · intro q hq _ hqp _
    simp at hq
    have : heap_parent q < q := by unfold heap_parent; omega
    omega

theorem heap_ordered_dropLast (h : List Nat) (ho : heap_ordered lt h) :
    heap_ordered lt h.dropLast := by
  rw [heap_ordered_iff hk] at ho ⊢
  intro q hq hq0
  rw [List.length_dropLast] at hq
  have hp : heap_parent q < h.length - 1 := by unfold heap_parent; omega
  rw [heap_get_dropLast h hq, heap_get_dropLast h hp]
  exact ho q (by omega) hq0

/-- In an ordered heap the root is not larger than any node. -/
theorem heap_root_le (h : List Nat) (ho : heap_ordered lt h) :
    ∀ q, q < h.length → k (heap_get h 0) ≤ k (heap_get h q) := by
  rw [heap_ordered_iff hk] at ho
  intro q
  induction q using Nat.strong_induction_on with
  | _ q ih =>
    intro hq
    by_cases h0 : q = 0
    · subst h0; exact le_refl _
    · have hp : heap_parent q < q := by unfold heap_parent; omega
      have := ih _ hp (by omega)
      have := ho q hq (by omega)
      omega

theorem heap_min_le (h : List Nat) (ho : heap_ordered lt h) (m : Nat)
    (hm : heap_min h = some m) : ∀ y, y ∈ h → k m ≤ k y := by
  intro y hy
  rw [heap_mem_iff] at hy
  obtain ⟨q, hq, e⟩ := hy
  have := heap_root_le hk h ho q hq
  rw [e] at this
  unfold heap_min at hm
  rw [List.head?_eq_getElem?, heap_get_lt (by omega : 0 < h.length)] at hm
  injection hm with hm
  rw [← hm]; exact this

end order
theorem heap_get_indexOf (h : List Nat) (x : Nat) (hx : x ∈ h) :
    h.indexOf x < h.length ∧ heap_get h (h.indexOf x) = x := by
  have hl := List.indexOf_lt_length.2 hx
  refine ⟨hl, ?_⟩
  have := heap_get_lt hl
  rw [List.getElem?_eq_getElem hl, List.getElem_indexOf hl] at this
  injection this with this
  exact this.symm

/-- The list that `heap_remove` walks down: the heap without its last node, the last node
standing in the slot of the removed node. -/
theorem heap_remove_aux (h : List Nat) (x : Nat) (_hn : h.Nodup) (hx : x ∈ h)
    (hl : heap_get h (h.length - 1) ≠ x) :
    h.indexOf x < h.length - 1 ∧
    (h.dropLast.set (h.indexOf x) (heap_get h (h.length - 1))).length = h.length - 1 ∧
    (∀ q, q < h.length - 1 →
      heap_get (h.dropLast.set (h.indexOf x) (heap_get h (h.length - 1))) q =
        if q = h.indexOf x then heap_get h (h.length - 1) else heap_get h q) := by
  obtain ⟨h1, h2⟩ := heap_get_indexOf h x hx
  have h3 : h.indexOf x < h.length - 1 := by
    by_contra hc
    have : h.indexOf x = h.length - 1 := by omega
    rw [this] at h2
    exact hl h2
  refine ⟨h3, by simp, ?_⟩
  intro q hq
  rw [heap_get_set, List.length_dropLast]
  by_cases e : q = h.indexOf x
  · rw [if_pos ⟨e, h3⟩, if_pos e]
  · rw [if_neg (fun c => e c.1), if_neg e, heap_get_dropLast h hq]

theorem heap_remove_aux_mem (h : List Nat) (x : Nat) (hn : h.Nodup) (hx : x ∈ h)
    (hl : heap_get h (h.length - 1) ≠ x) (y : Nat) :
    y ∈ h.dropLast.set (h.indexOf x) (heap_get h (h.length - 1)) ↔ (y ∈ h ∧ y ≠ x) := by
  obtain ⟨h1, h2⟩ := heap_get_indexOf h x hx
  obtain ⟨h3, h4, h5⟩ := heap_remove_aux h x hn hx hl
  have hnn := (heap_nodup_iff h).1 hn
  rw [heap_mem_iff, heap_mem_iff, h4]
  constructor
  · rintro ⟨q, hq, e⟩
    rw [h5 q hq] at e
    by_cases e1 : q = h.indexOf x
    · rw [if_pos e1] at e
      refine ⟨⟨_, by omega, e⟩, ?_⟩
      rw [← e]; exact hl
    · rw [if_neg e1] at e
      refine ⟨⟨q, by omega, e⟩, ?_⟩
      intro c
      rw [c, ← h2] at e
      exact e1 (hnn _ _ (by omega) h1 e)
  · rintro ⟨⟨q, hq, e⟩, hne⟩
    by_cases e1 : q = h.length - 1
    · refine ⟨h.indexOf x, h3, ?_⟩
      rw [h5 _ h3, if_pos rfl, ← e1, e]
    · refine ⟨q, by omega, ?_⟩
      rw [h5 _ (by omega)]
      have : ¬ q = h.indexOf x := by
        intro c; rw [c, h2] at e; exact hne e.symm
      rw [if_neg this, e]

theorem heap_remove_aux_nodup (h : List Nat) (x : Nat) (hn : h.Nodup) (hx : x ∈ h)
    (hl : heap_get h (h.length - 1) ≠ x) :
    (h.dropLast.set (h.indexOf x) (heap_get h (h.length - 1))).Nodup := by
  obtain ⟨h1, h2⟩ := heap_get_indexOf h x hx
  obtain ⟨h3, h4, h5⟩ := heap_remove_aux h x hn hx hl
  have hnn := (heap_nodup_iff h).1 hn
  rw [heap_nodup_iff, h4]
  intro p q hp hq e
  rw [h5 p hp, h5 q hq] at e
  by_cases e1 : p = h.indexOf x <;> by_cases e2 : q = h.indexOf x
  · omega
  · rw [if_pos e1, if_neg e2] at e
    have := hnn _ _ (by omega) (by omega) e
    omega
  · rw [if_neg e1, if_pos e2] at e
    have := hnn _ _ (by omega) (by omega) e
    omega
  · rw [if_neg e1, if_neg e2] at e
    exact hnn _ _ (by omega) (by omega) e

theorem heap_dropLast_mem (h : List Nat) (hn : h.Nodup) (_h0 : h.length ≠ 0) (y : Nat) :
    y ∈ h.dropLast ↔ (y ∈ h ∧ y ≠ heap_get h (h.length - 1)) := by
  have hnn := (heap_nodup_iff h).1 hn
  rw [heap_mem_iff, heap_mem_iff, List.length_dropLast]
  constructor
  · rintro ⟨q, hq, e⟩
    rw [heap_get_dropLast h hq] at e
    refine ⟨⟨q, by omega, e⟩, ?_⟩
    intro c
    rw [c] at e
    have := hnn _ _ (by omega) (by omega) e
    omega
  · rintro ⟨⟨q, hq, e⟩, hne⟩
    have : q ≠ h.length - 1 := by
      intro c; rw [c] at e; exact hne e.symm
    refine ⟨q, by omega, ?_⟩
    rw [heap_get_dropLast h (by omega), e]

theorem heap_dropLast_nodup (h : List Nat) (hn : h.Nodup) : h.dropLast.Nodup := by
  rw [List.dropLast_eq_take]
  exact List.Nodup.sublist (List.take_sublist _ _) hn

theorem heap_remove_length (lt : Nat → Nat → Bool) (h : List Nat) (x : Nat)
    (hn : h.Nodup) (hx : x ∈ h) : (heap_remove lt h x).length = h.length - 1 := by
  unfold heap_remove
  have h0 : h.length ≠ 0 := by
    intro c; rw [List.length_eq_zero] at c; subst c; simp at hx
  rw [if_neg h0]
  by_cases hl : heap_get h (h.length - 1) = x
  · rw [if_pos hl, List.length_dropLast]
  · rw [if_neg hl]
    obtain ⟨h3, h4, _⟩ := heap_remove_aux h x hn hx hl
    simp only
    rw [heap_sift_up_length, (heap_sift_down_length lt _ _ _ (by rw [h4]; exact h3)).1, h4]

theorem heap_remove_mem (lt : Nat → Nat → Bool) (h : List Nat) (x : Nat)
    (hn : h.Nodup) (hx : x ∈ h) (y : Nat) :
    y ∈ heap_remove lt h x ↔ (y ∈ h ∧ y ≠ x) := by
  unfold heap_remove
  have h0 : h.length ≠ 0 := by
    intro c; rw [List.length_eq_zero] at c; subst c; simp at hx
  rw [if_neg h0]
  by_cases hl : heap_get h (h.length - 1) = x
  · rw [if_pos hl, heap_dropLast_mem h hn h0, hl]
  · rw [if_neg hl]
    obtain ⟨h3, h4, _⟩ := heap_remove_aux h x hn hx hl
    simp only
    have hd := heap_sift_down_length lt h.length _ _ (by rw [h4]; exact h3)
    rw [heap_sift_up_mem _ _ _ _ (by rw [hd.1]; exact hd.2),
      heap_sift_down_mem _ _ _ _ (by rw [h4]; exact h3), heap_remove_aux_mem h x hn hx hl]

theorem heap_remove_nodup (lt : Nat → Nat → Bool) (h : List Nat) (x : Nat)
    (hn : h.Nodup) (hx : x ∈ h) : (heap_remove lt h x).Nodup := by
  unfold heap_remove
  have h0 : h.length ≠ 0 := by
    intro c; rw [List.length_eq_zero] at c; subst c; simp at hx
  rw [if_neg h0]
  by_cases hl : heap_get h (h.length - 1) = x
  · rw [if_pos hl]; exact heap_dropLast_nodup h hn
  · rw [if_neg hl]
    obtain ⟨h3, h4, _⟩ := heap_remove_aux h x hn hx hl
    simp only
    have hd := heap_sift_down_length lt h.length _ _ (by rw [h4]; exact h3)
    apply heap_sift_up_nodup _ _ _ _ (by rw [hd.1]; exact hd.2)
    apply heap_sift_down_nodup _ _ _ _ (by rw [h4]; exact h3)
    exact heap_remove_aux_nodup h x hn hx hl

section order
variable {lt : Nat → Nat → Bool} {k : Nat → Nat} (hk : ∀ a b, lt a b = true ↔ k a < k b)
include hk

theorem heap_ordered_up_ok (h : List Nat) (i : Nat) (ho : heap_ordered lt h) :
    heap_up_ok k h i := by
  rw [heap_ordered_iff hk] at ho
  constructor
  · intro q hq hq0 _
    exact ho q hq hq0
  · intro q hq hq0 hqp hi0
    have hp : heap_parent q < q := by unfold heap_parent; omega
    have h1 := ho q hq hq0
    have h2 := ho i (by omega) hi0
    rw [hqp] at h1
    omega

theorem heap_remove_ordered (h : List Nat) (x : Nat) (hn : h.Nodup) (hx : x ∈ h)
    (ho : heap_ordered lt h) : heap_ordered lt (heap_remove lt h x) := by
  unfold heap_remove
  have h0 : h.length ≠ 0 := by
    intro c; rw [List.length_eq_zero] at c; subst c; simp at hx
  rw [if_neg h0]
  by_cases hl : heap_get h (h.length - 1) = x
  · rw [if_pos hl]; exact heap_ordered_dropLast hk h ho
  · rw [if_neg hl]
    obtain ⟨h3, h4, h5⟩ := heap_remove_aux h x hn hx hl
    simp only
    have hd := heap_sift_down_length lt h.length _ _ (by rw [h4]; exact h3)
    have hoo := (heap_ordered_iff hk h).1 ho
    generalize hi : h.indexOf x = i at *
    generalize hv : heap_get h (h.length - 1) = v at *
    generalize hg : h.dropLast.set i v = g at *
    by_cases hc : 0 < i ∧ k v < k (heap_get h (heap_parent i))
    · -- the moved node is smaller than the parent of the slot: it can only go up
      have hpi : heap_parent i < i := by unfold heap_parent; omega
      have hsm : heap_smallest lt g i = i := by
        simp only [heap_smallest, hk, h4]
        have hii := hoo i (by omega) hc.1
        have e1 : ¬ (2 * i + 1 < h.length - 1 ∧ k (heap_get g (2 * i + 1)) < k (heap_get g i)) := by
          rintro ⟨c1, c2⟩
          rw [h5 _ c1, h5 _ h3, if_pos rfl, if_neg (by omega)] at c2
          have := hoo (2 * i + 1) (by omega) (by omega)
          have e : heap_parent (2 * i + 1) = i := by unfold heap_parent; omega
          rw [e] at this
          omega
        rw [if_neg e1]
        have e2 : ¬ (2 * i + 2 < h.length - 1 ∧ k (heap_get g (2 * i + 2)) < k (heap_get g i)) := by
          rintro ⟨c1, c2⟩
          rw [h5 _ c1, h5 _ h3, if_pos rfl, if_neg (by omega)] at c2
          have := hoo (2 * i + 2) (by omega) (by omega)
          have e : heap_parent (2 * i + 2) = i := by unfold heap_parent; omega
          rw [e] at this
          omega
        rw [if_neg e2]
      have hsd : heap_sift_down lt h.length g i = (g, i) := by
        cases hlen : h.length with
        | zero => rfl
        | succ m => rw [heap_sift_down, if_pos hsm]
      rw [hsd]
      dsimp only
      apply heap_sift_up_ordered hk _ _ _ (by rw [h4]; exact h3) (le_refl _)
      constructor
      · intro q hq hq0 hqi
        rw [h4] at hq
        have hpq : heap_parent q < q := by unfold heap_parent; omega
        rw [h5 _ hq, h5 _ (by omega), if_neg hqi]
        have := hoo q (by omega) hq0
        by_cases e : heap_parent q = i
        · rw [if_pos e]
          rw [e] at this
          have := hoo i (by omega) hc.1
          omega
        · rw [if_neg e]; exact this
      · intro q hq hq0 hqp _
        rw [h4] at hq
        have hpq : heap_parent q < q := by unfold heap_parent; omega
        rw [h5 _ hq, h5 _ (by omega), if_neg (by omega), if_neg (by omega)]
        have := hoo q (by omega) hq0
        rw [hqp] at this
        have := hoo i (by omega) hc.1
        omega
    · -- otherwise it can only go down
      have hdo : heap_ordered lt (heap_sift_down lt h.length g i).1 := by
        apply heap_sift_down_ordered hk _ _ _ (by rw [h4]; exact h3) (by rw [h4]; omega)
        constructor
        · intro q hq hq0 hqp
          rw [h4] at hq
          have hpq : heap_parent q < q := by unfold heap_parent; omega
          rw [h5 _ hq, h5 _ (by omega), if_neg hqp]
          have := hoo q (by omega) hq0
          by_cases e : q = i
          · rw [if_pos e]
            rw [e] at hq0 ⊢
            have : ¬ k v < k (heap_get h (heap_parent i)) := fun c => hc ⟨hq0, c⟩
            omega
          · rw [if_neg e]; exact this
        · intro q hq hq0 hqp hi0
          rw [h4] at hq
          have hpq : heap_parent q < q := by unfold heap_parent; omega
          have hpi : heap_parent i < i := by unfold heap_parent; omega
          rw [h5 _ hq, h5 _ (by omega), if_neg (by omega), if_neg (by omega)]
          have := hoo q (by omega) hq0
          rw [hqp] at this
          have := hoo i (by omega) hi0
          omega
      apply heap_sift_up_ordered hk _ _ _ (by rw [hd.1]; exact hd.2) (le_refl _)
      exact heap_ordered_up_ok hk _ _ hdo

end order
/-! ## Lemmas on the timer interface -/

theorem timer_less_than_iff (a b : uv_timer_t) (ha : a.start_id < 2 ^ 64)
    (hb : b.start_id < 2 ^ 64) :
    timer_less_than a b = true ↔ timer_key a < timer_key b := by
  unfold timer_less_than timer_key
  norm_num at ha hb ⊢
  omega

theorem timer_less_iff (timers : Nat → uv_timer_t) (hb : ∀ h, (timers h).start_id < 2 ^ 64) :
    ∀ a b, timer_less timers a b = true ↔ timer_key (timers a) < timer_key (timers b) :=
  fun a b => timer_less_than_iff _ _ (hb a) (hb b)

theorem heap_ordered_congr (t1 t2 : Nat → uv_timer_t) (h : List Nat)
    (he : ∀ x, x ∈ h → (t1 x).timeout = (t2 x).timeout ∧ (t1 x).start_id = (t2 x).start_id) :
    heap_ordered (timer_less t1) h ↔ heap_ordered (timer_less t2) h := by
  unfold heap_ordered
  have key : ∀ i, i < h.length →
      timer_less t1 (heap_get h i) (heap_get h (heap_parent i)) =
        timer_less t2 (heap_get h i) (heap_get h (heap_parent i)) := by
    intro i hi
    have hp : heap_parent i < h.length := by unfold heap_parent; omega
    have m1 : heap_get h i ∈ h := (heap_mem_iff h _).2 ⟨i, hi, rfl⟩
    have m2 : heap_get h (heap_parent i) ∈ h := (heap_mem_iff h _).2 ⟨_, hp, rfl⟩
    unfold timer_less timer_less_than
    rw [(he _ m1).1, (he _ m1).2, (he _ m2).1, (he _ m2).2]
  constructor
  · intro H i hi hi0; rw [← key i hi]; exact H i hi hi0
  · intro H i hi hi0; rw [key i hi]; exact H i hi hi0

theorem timer_inv_init (now : Nat) : timer_inv (uv_loop_init now) := by
  refine ⟨List.nodup_nil, ?_, ?_, ?_, ?_, ?_⟩
  · intro h; simp [uv_loop_init]
  · intro i hi; simp [uv_loop_init] at hi
  · intro h hh; simp [uv_loop_init] at hh
  · intro h; simp [uv_loop_init]
  · simp [uv_loop_init]

/-- What `uv_timer_stop` does to an active timer. -/
theorem uv_timer_stop_active (loop : uv_loop_t) (handle : Nat)
    (ha : (loop.timers handle).active = true) :
    (uv_timer_stop loop handle).timer_heap =
        heap_remove (timer_less loop.timers) loop.timer_heap handle ∧
    (uv_timer_stop loop handle).timers =
        Function.update loop.timers handle { loop.timers handle with active := false } ∧
    (uv_timer_stop loop handle).time = loop.time ∧
    (uv_timer_stop loop handle).timer_counter = loop.timer_counter ∧
    (uv_timer_stop loop handle).handle_queue = loop.handle_queue := by
  unfold uv_timer_stop uv__is_active uv__handle_stop set_timer
  simp only [ha, Bool.not_true, Bool.false_eq_true, if_false, if_true]
  split_ifs <;> simp

theorem uv_timer_stop_inactive (loop : uv_loop_t) (handle : Nat)
    (ha : (loop.timers handle).active = false) : uv_timer_stop loop handle = loop := by
  unfold uv_timer_stop uv__is_active
  simp [ha]

theorem timer_inv_stop (loop : uv_loop_t) (handle : Nat) (hi : timer_inv loop) :
    timer_inv (uv_timer_stop loop handle) := by
  cases ha : (loop.timers handle).active
  · rw [uv_timer_stop_inactive loop handle ha]; exact hi
  · obtain ⟨e1, e2, e3, e4, e5⟩ := uv_timer_stop_active loop handle ha
    have hm : handle ∈ loop.timer_heap := (hi.mem_iff handle).2 ha
    have hk := timer_less_iff loop.timers hi.start_id_lt
    refine ⟨?_, ?_, ?_, ?_, ?_, ?_⟩
    · rw [e1]; exact heap_remove_nodup _ _ _ hi.nodup hm
    · intro h
      rw [e1, e2, heap_remove_mem _ _ _ hi.nodup hm, hi.mem_iff]
      by_cases e : h = handle
      · subst e; simp
      · simp [Function.update_noteq e, e]
    · rw [e1, e2]
      rw [heap_ordered_congr _ loop.timers]
      · exact heap_remove_ordered hk _ _ hi.nodup hm hi.ordered
      · intro x _
        by_cases e : x = handle
        · subst e; simp
        · simp [Function.update_noteq e]
    · intro h
      rw [e2]
      by_cases e : h = handle
      · subst e; simp
      · simp only [Function.update_noteq e]; exact hi.usable h
    · intro h
      rw [e2]
      by_cases e : h = handle
      · subst e; simp; exact hi.start_id_lt h
      · simp only [Function.update_noteq e]; exact hi.start_id_lt h
    · rw [e4]; exact hi.counter_lt

theorem uv_timer_stop_flags (loop : uv_loop_t) (handle h : Nat) :
    ((uv_timer_stop loop handle).timers h).closing = (loop.timers h).closing ∧
    ((uv_timer_stop loop handle).timers h).timer_cb = (loop.timers h).timer_cb ∧
    ((uv_timer_stop loop handle).timers h).repeat_ms = (loop.timers h).repeat_ms ∧
    ((uv_timer_stop loop handle).timers h).timeout = (loop.timers h).timeout ∧
    ((uv_timer_stop loop handle).timers h).start_id = (loop.timers h).start_id ∧
    ((uv_timer_stop loop handle).timers h).ref = (loop.timers h).ref := by
  cases ha : (loop.timers handle).active
  · rw [uv_timer_stop_inactive loop handle ha]; simp
  · rw [(uv_timer_stop_active loop handle ha).2.1]
    by_cases e : h = handle
    · subst e; simp
    · simp [Function.update_noteq e]

theorem uv_timer_stop_is_inactive (loop : uv_loop_t) (handle : Nat) :
    ((uv_timer_stop loop handle).timers handle).active = false := by
  cases ha : (loop.timers handle).active
  · rw [uv_timer_stop_inactive loop handle ha]; exact ha
  · rw [(uv_timer_stop_active loop handle ha).2.1]; simp

theorem uv_timer_start_einval (loop : uv_loop_t) (handle : Nat) (cb : Option Nat)
    (timeout repeat_ms : Nat) (h : (loop.timers handle).closing = true ∨ cb = none) :
    uv_timer_start loop handle cb timeout repeat_ms = (UV_EINVAL, loop) := by
  unfold uv_timer_start uv__is_closing
  rcases h with h | h
  · simp [h]
  · simp [h]

/-- `uv_timer_start` on a handle that is not closing, with a callback: starting is stopping
and then starting. -/
theorem uv_timer_start_stop_start (loop : uv_loop_t) (handle : Nat) (cb : Option Nat)
    (timeout repeat_ms : Nat) (hc : (loop.timers handle).closing = false) (hcb : cb ≠ none) :
    uv_timer_start loop handle cb timeout repeat_ms =
      uv_timer_start (uv_timer_stop loop handle) handle cb timeout repeat_ms := by
  cases ha : (loop.timers handle).active
  · rw [uv_timer_stop_inactive loop handle ha]
  · have h1 := (uv_timer_stop_flags loop handle handle).1
    have h2 := uv_timer_stop_is_inactive loop handle
    have h3 := uv_timer_stop_inactive _ _ h2
    obtain ⟨c, rfl⟩ := Option.ne_none_iff_exists'.1 hcb
    unfold uv_timer_start uv__is_closing uv__is_active
    rw [h1, hc, ha, h2]
    simp only [if_true, Bool.false_eq_true, if_false, Option.isNone_some, Bool.or_self]

/-- What a successful `uv_timer_start` does to a handle that is not active. -/
theorem uv_timer_start_inactive (loop : uv_loop_t) (handle : Nat) (c : Nat)
    (timeout repeat_ms : Nat) (hc : (loop.timers handle).closing = false)
    (ha : (loop.timers handle).active = false) :
    (uv_timer_start loop handle (some c) timeout repeat_ms).1 = 0 ∧
    (uv_timer_start loop handle (some c) timeout repeat_ms).2.timer_heap =
      heap_insert (timer_less (Function.update loop.timers handle
        { loop.timers handle with
          timer_cb := some c
          timeout := clamped_timeout loop.time timeout
          repeat_ms := repeat_ms
          start_id := loop.timer_counter })) loop.timer_heap handle ∧
    (uv_timer_start loop handle (some c) timeout repeat_ms).2.timers =
      Function.update loop.timers handle
        { loop.timers handle with
          timer_cb := some c
          timeout := clamped_timeout loop.time timeout
          repeat_ms := repeat_ms
          start_id := loop.timer_counter
          active := true } ∧
    (uv_timer_start loop handle (some c) timeout repeat_ms).2.time = loop.time ∧
    (uv_timer_start loop handle (some c) timeout repeat_ms).2.timer_counter =
      (loop.timer_counter + 1) % 2 ^ 64 ∧
    (uv_timer_start loop handle (some c) timeout repeat_ms).2.handle_queue =
      loop.handle_queue := by
  unfold uv_timer_start uv__is_closing uv__is_active uv__handle_start set_timer
  simp only [hc, ha, Option.isNone_some, Bool.or_self, Bool.false_eq_true, if_false,
    Function.update_same]
  split_ifs <;> simp

theorem timer_inv_start_inactive (loop : uv_loop_t) (handle : Nat) (c : Nat)
    (timeout repeat_ms : Nat) (hi : timer_inv loop)
    (hc : (loop.timers handle).closing = false)
    (ha : (loop.timers handle).active = false) :
    timer_inv (uv_timer_start loop handle (some c) timeout repeat_ms).2 := by
  obtain ⟨_, e1, e2, e3, e4, e5⟩ := uv_timer_start_inactive loop handle c timeout repeat_ms hc ha
  have hnm : handle ∉ loop.timer_heap := by
    rw [hi.mem_iff, ha]; simp
  have hb : ∀ h, ((Function.update loop.timers handle
        { loop.timers handle with
          timer_cb := some c
          timeout := clamped_timeout loop.time timeout
          repeat_ms := repeat_ms
          start_id := loop.timer_counter }) h).start_id < 2 ^ 64 := by
    intro h
    by_cases e : h = handle
    · subst e; simp; exact hi.counter_lt
    · simp only [Function.update_noteq e]; exact hi.start_id_lt h
  have hk := timer_less_iff _ hb
  refine ⟨?_, ?_, ?_, ?_, ?_, ?_⟩
  · rw [e1]; exact heap_insert_nodup _ _ _ hi.nodup hnm
  · intro h
    rw [e1, e2, heap_insert_mem, hi.mem_iff]
    by_cases e : h = handle
    · subst e; simp
    · simp [Function.update_noteq e, e]
  · rw [e1, e2]
    rw [heap_ordered_congr _ (Function.update loop.timers handle
        { loop.timers handle with
          timer_cb := some c
          timeout := clamped_timeout loop.time timeout
          repeat_ms := repeat_ms
          start_id := loop.timer_counter })]
    · apply heap_insert_ordered hk
      rw [heap_ordered_congr _ loop.timers]
      · exact hi.ordered
      · intro x hx
        have : x ≠ handle := fun c => hnm (c ▸ hx)
        simp [Function.update_noteq this]
    · intro x _
      by_cases e : x = handle
      · subst e; simp
      · simp [Function.update_noteq e]
  · intro h
    rw [e2]
    by_cases e : h = handle
    · subst e; simp [hc]
    · simp only [Function.update_noteq e]; exact hi.usable h
  · intro h
    rw [e2]
    by_cases e : h = handle
    · subst e; simp; exact hi.counter_lt
    · simp only [Function.update_noteq e]; exact hi.start_id_lt h
  · rw [e4]; exact Nat.mod_lt _ (by norm_num)

theorem timer_inv_start (loop : uv_loop_t) (handle : Nat) (cb : Option Nat)
    (timeout repeat_ms : Nat) (hi : timer_inv loop) :
    timer_inv (uv_timer_start loop handle cb timeout repeat_ms).2 := by
  by_cases h : (loop.timers handle).closing = true ∨ cb = none
  · rw [uv_timer_start_einval _ _ _ _ _ h]; exact hi
  · have hc : (loop.timers handle).closing = false := by
      cases hcl : (loop.timers handle).closing
      · rfl
      · exact absurd (Or.inl hcl) h
    have hcb : cb ≠ none := fun c => h (Or.inr c)
    obtain ⟨c, rfl⟩ := Option.ne_none_iff_exists'.1 hcb
    rw [uv_timer_start_stop_start _ _ _ _ _ hc hcb]
    apply timer_inv_start_inactive _ _ _ _ _ (timer_inv_stop _ _ hi)
    · rw [(uv_timer_stop_flags loop handle handle).1]; exact hc
    · exact uv_timer_stop_is_inactive loop handle

theorem timer_inv_again (loop : uv_loop_t) (handle : Nat) (hi : timer_inv loop) :
    timer_inv (uv_timer_again loop handle).2 := by
  unfold uv_timer_again
  split_ifs
  · exact hi
  · exact timer_inv_start _ _ _ _ _ (timer_inv_stop _ _ hi)
  · exact hi

theorem timer_inv_set_repeat (loop : uv_loop_t) (handle : Nat) (r : Nat) (hi : timer_inv loop) :
    timer_inv (uv_timer_set_repeat loop handle r) := by
  unfold uv_timer_set_repeat set_timer
  refine ⟨hi.nodup, ?_, ?_, ?_, ?_, hi.counter_lt⟩
  · intro h
    by_cases e : h = handle
    · subst e; simp; exact hi.mem_iff h
    · simp only [Function.update_noteq e]; exact hi.mem_iff h
  · simp only
    rw [heap_ordered_congr _ loop.timers]
    · exact hi.ordered
    · intro x _
      by_cases e : x = handle
      · subst e; simp
      · simp [Function.update_noteq e]
  · intro h
    by_cases e : h = handle
    · subst e; simp; exact hi.usable h
    · simp only [Function.update_noteq e]; exact hi.usable h
  · intro h
    by_cases e : h = handle
    · subst e; simp; exact hi.start_id_lt h
    · simp only [Function.update_noteq e]; exact hi.start_id_lt h

theorem timer_inv_update_time (loop : uv_loop_t) (now : Nat) (hi : timer_inv loop) :
    timer_inv (uv__update_time loop now) :=
  ⟨hi.nodup, hi.mem_iff, hi.ordered, hi.usable, hi.start_id_lt, hi.counter_lt⟩

theorem timer_inv_timer_init (loop : uv_loop_t) (handle : Nat) (hi : timer_inv loop)
    (ha : (loop.timers handle).active = false) : timer_inv (uv_timer_init loop handle) := by
  unfold uv_timer_init uv__handle_init set_timer
  refine ⟨hi.nodup, ?_, ?_, ?_, ?_, hi.counter_lt⟩
  · intro h
    by_cases e : h = handle
    · subst e; simp; have := hi.mem_iff h; rw [ha] at this; simpa using this
    · simp only [Function.update_idem, Function.update_noteq e]; exact hi.mem_iff h
  · simp only
    rw [heap_ordered_congr _ loop.timers]
    · exact hi.ordered
    · intro x _
      by_cases e : x = handle
      · subst e; simp
      · simp [Function.update_noteq e]
  · intro h
    by_cases e : h = handle
    · subst e; simp
    · simp only [Function.update_idem, Function.update_noteq e]; exact hi.usable h
  · intro h
    by_cases e : h = handle
    · subst e; simp; exact hi.start_id_lt h
    · simp only [Function.update_idem, Function.update_noteq e]; exact hi.start_id_lt h

theorem timer_inv_close (loop : uv_loop_t) (handle : Nat) (hi : timer_inv loop) :
    timer_inv (uv_close loop handle) := by
  unfold uv_close uv__timer_close
  cases ha : (loop.timers handle).active
  · rw [uv_timer_stop_inactive _ _ (by simp [set_timer, ha])]
    unfold set_timer
    refine ⟨hi.nodup, ?_, ?_, ?_, ?_, hi.counter_lt⟩
    · intro h
      by_cases e : h = handle
      · subst e; simp; exact hi.mem_iff h
      · simp only [Function.update_noteq e]; exact hi.mem_iff h
    · simp only
      rw [heap_ordered_congr _ loop.timers]
      · exact hi.ordered
      · intro x _
        by_cases e : x = handle
        · subst e; simp
        · simp [Function.update_noteq e]
    · intro h
      by_cases e : h = handle
      · subst e; simp [ha]
      · simp only [Function.update_noteq e]; exact hi.usable h
    · intro h
      by_cases e : h = handle
      · subst e; simp; exact hi.start_id_lt h
      · simp only [Function.update_noteq e]; exact hi.start_id_lt h
  · have ha' : ((set_timer loop handle { loop.timers handle with closing := true }).timers
        handle).active = true := by simp [set_timer, ha]
    obtain ⟨e1, e2, e3, e4, e5⟩ := uv_timer_stop_active _ handle ha'
    have hm : handle ∈ loop.timer_heap := (hi.mem_iff handle).2 ha
    have hk := timer_less_iff loop.timers hi.start_id_lt
    have hless : timer_less (set_timer loop handle
        { loop.timers handle with closing := true }).timers = timer_less loop.timers := by
      funext a b
      simp only [timer_less, timer_less_than, set_timer, Function.update_apply]
      by_cases ea : a = handle <;> by_cases eb : b = handle <;> simp only [ea, eb, if_true, if_false]
    rw [hless] at e1
    have e1' : (uv_timer_stop (set_timer loop handle
        { loop.timers handle with closing := true }) handle).timer_heap =
        heap_remove (timer_less loop.timers) loop.timer_heap handle := e1
    have e2' : ∀ h, h ≠ handle → (uv_timer_stop (set_timer loop handle
        { loop.timers handle with closing := true }) handle).timers h = loop.timers h := by
      intro h e
      rw [e2]; simp [set_timer, Function.update_noteq e]
    have e2'' : (uv_timer_stop (set_timer loop handle
        { loop.timers handle with closing := true }) handle).timers handle =
        { loop.timers handle with closing := true, active := false } := by
      rw [e2]; simp [set_timer]
    refine ⟨?_, ?_, ?_, ?_, ?_, ?_⟩
    · rw [e1']; exact heap_remove_nodup _ _ _ hi.nodup hm
    · intro h
      rw [e1', heap_remove_mem _ _ _ hi.nodup hm, hi.mem_iff]
      by_cases e : h = handle
      · subst e; rw [e2'']; simp
      · rw [e2' h e]; simp [e]
    · rw [e1']
      rw [heap_ordered_congr _ loop.timers]
      · exact heap_remove_ordered hk _ _ hi.nodup hm hi.ordered
      · intro x _
        by_cases e : x = handle
        · subst e; rw [e2'']; simp
        · rw [e2' x e]; simp
    · intro h
      by_cases e : h = handle
      · subst e; rw [e2'']; simp
      · rw [e2' h e]; exact hi.usable h
    · intro h
      by_cases e : h = handle
      · subst e; rw [e2'']; exact hi.start_id_lt h
      · rw [e2' h e]; exact hi.start_id_lt h
    · rw [e4]; exact hi.counter_lt

theorem timer_inv_run_op (loop : uv_loop_t) (op : timer_op) (hi : timer_inv loop) :
    timer_inv (run_timer_op loop op) := by
  cases op with
  | start handle cb timeout repeat_ms => exact timer_inv_start _ _ _ _ _ hi
  | stop handle => exact timer_inv_stop _ _ hi
  | again handle => exact timer_inv_again _ _ hi
  | set_repeat handle r => exact timer_inv_set_repeat _ _ _ hi

theorem timer_inv_run_ops (ops : List timer_op) : ∀ (loop : uv_loop_t), timer_inv loop →
    timer_inv (run_timer_ops ops loop) := by
  induction ops with
  | nil => intro loop hi; exact hi
  | cons op ops ih =>
    intro loop hi
    exact ih _ (timer_inv_run_op loop op hi)

/-- One turn of the loop of `uv__run_timers`. -/
theorem uv__run_timers_succ (cbs : timer_cbs) (fuel : Nat) (loop : uv_loop_t) :
    uv__run_timers cbs (fuel + 1) loop =
      match heap_min loop.timer_heap with
      | none => some (loop, [])
      | some handle =>
        if (loop.timers handle).timeout > loop.time then some (loop, [])
        else
          match ((uv_timer_again (uv_timer_stop loop handle) handle).2.timers handle).timer_cb with
          | none => none
          | some c =>
            match uv__run_timers cbs fuel
              (run_timer_ops (cbs c handle (uv_timer_again (uv_timer_stop loop handle) handle).2)
                (uv_timer_again (uv_timer_stop loop handle) handle).2) with
            | none => none
            | some r => some (r.1, handle :: r.2) := by
  rfl

theorem timer_inv_run_timers (cbs : timer_cbs) (fuel : Nat) : ∀ (loop : uv_loop_t)
    (r : uv_loop_t × List Nat), timer_inv loop → uv__run_timers cbs fuel loop = some r →
    timer_inv r.1 := by
  induction fuel with
  | zero => intro loop r _ h; simp [uv__run_timers] at h
  | succ fuel ih =>
    intro loop r hi h
    rw [uv__run_timers_succ] at h
    cases hm : heap_min loop.timer_heap with
    | none =>
      rw [hm] at h
      simp only [Option.some.injEq] at h
      rw [← h]; exact hi
    | some handle =>
      rw [hm] at h
      simp only at h
      split_ifs at h with hexp
      · simp only [Option.some.injEq] at h
        rw [← h]; exact hi
      · have hi2 := timer_inv_again _ handle (timer_inv_stop loop handle hi)
        cases hcb : ((uv_timer_again (uv_timer_stop loop handle) handle).2.timers handle).timer_cb with
        | none => rw [hcb] at h; simp at h
        | some c =>
          rw [hcb] at h
          simp only at h
          cases hr : uv__run_timers cbs fuel
              (run_timer_ops (cbs c handle (uv_timer_again (uv_timer_stop loop handle) handle).2)
                (uv_timer_again (uv_timer_stop loop handle) handle).2) with
          | none => rw [hr] at h; simp at h
          | some r' =>
            rw [hr] at h
            simp only [Option.some.injEq] at h
            rw [← h]
            exact ih _ r' (timer_inv_run_ops _ _ hi2) hr

theorem timer_inv_of_reachable (cbs : timer_cbs) (loop : uv_loop_t)
    (hr : timer_reachable cbs loop) : timer_inv loop := by
  induction hr with
  | init now => exact timer_inv_init now
  | timer_init loop handle _ ha ih => exact timer_inv_timer_init _ _ ih ha
  | start loop handle cb timeout repeat_ms _ ih => exact timer_inv_start _ _ _ _ _ ih
  | stop loop handle _ ih => exact timer_inv_stop _ _ ih
  | again loop handle _ ih => exact timer_inv_again _ _ ih
  | set_repeat loop handle r _ ih => exact timer_inv_set_repeat _ _ _ ih
  | update_time loop now _ ih => exact timer_inv_update_time _ _ ih
  | run_timers loop fuel r _ h ih => exact timer_inv_run_timers cbs fuel _ r ih h
  | close loop handle _ ih => exact timer_inv_close _ _ ih
  | timer_close loop handle _ ih => exact timer_inv_stop _ _ ih

theorem timer_key_le_timeout (a b : uv_timer_t) (hb : b.start_id < 2 ^ 64)
    (h : timer_key a ≤ timer_key b) : a.timeout ≤ b.timeout := by
  unfold timer_key at h
  norm_num at hb h
  omega

theorem loop_one_timer_reachable (cbs : timer_cbs) : timer_reachable cbs loop_one_timer :=
  timer_reachable.start _ _ _ _ _
    (timer_reachable.timer_init _ _ (timer_reachable.init 0) (by decide))

theorem heap_min_mem (h : List Nat) (m : Nat) (hm : heap_min h = some m) : m ∈ h := by
  unfold heap_min at hm
  exact List.mem_of_mem_head? hm

theorem heap_min_none (h : List Nat) : heap_min h = none ↔ h = [] := by
  unfold heap_min
  exact List.head?_eq_none_iff

/-- In a loop that satisfies the invariant the timer peeked by `heap_min` has the earliest
deadline of all active timers. -/
theorem heap_min_timeout_le (loop : uv_loop_t) (hi : timer_inv loop) (m : Nat)
    (hm : heap_min loop.timer_heap = some m) (h : Nat) (ha : (loop.timers h).active = true) :
    (loop.timers m).timeout ≤ (loop.timers h).timeout := by
  have hk := timer_less_iff loop.timers hi.start_id_lt
  have := heap_min_le hk _ hi.ordered m hm h ((hi.mem_iff h).2 ha)
  exact timer_key_le_timeout _ _ (hi.start_id_lt h) this

theorem next_timeout_zero_iff (loop : uv_loop_t) :
    uv__next_timeout loop = 0 ↔
      ∃ m, heap_min loop.timer_heap = some m ∧ (loop.timers m).timeout ≤ loop.time := by
  unfold uv__next_timeout
  cases hm : heap_min loop.timer_heap with
  | none => simp
  | some m =>
    simp only [Option.some.injEq, exists_eq_left']
    unfold INT_MAX
    constructor
    · intro h
      by_contra hc
      rw [if_neg hc] at h
      split_ifs at h <;> omega
    · intro h; rw [if_pos h]

theorem next_timeout_neg_one_iff (loop : uv_loop_t) :
    uv__next_timeout loop = -1 ↔ loop.timer_heap = [] := by
  rw [← heap_min_none]
  unfold uv__next_timeout
  cases hm : heap_min loop.timer_heap with
  | none => simp
  | some m =>
    simp only [reduceCtorEq, iff_false]
    unfold INT_MAX
    intro h
    split_ifs at h

/-- C2. In every loop state reachable through the timer interface and passes of
`uv__run_timers`, `uv__next_timeout` returns 0 exactly when some active timer has a deadline
at or before the loop time, and -1 exactly when the heap is empty, which is exactly when no
timer is active. -/
theorem next_timeout_zero_iff_expired (cbs : timer_cbs) (loop : uv_loop_t)
    (hr : timer_reachable cbs loop) :
    (uv__next_timeout loop = 0 ↔
      ∃ h, uv__is_active loop h = true ∧ (loop.timers h).timeout ≤ loop.time) ∧
    (uv__next_timeout loop = -1 ↔ loop.timer_heap = []) ∧
    (uv__next_timeout loop = -1 ↔ ∀ h, uv__is_active loop h = false) := by
  have hi := timer_inv_of_reachable cbs loop hr
  unfold uv__is_active
  refine ⟨?_, next_timeout_neg_one_iff loop, ?_⟩
  · rw [next_timeout_zero_iff]
    constructor
    · rintro ⟨m, hm, hle⟩
      exact ⟨m, (hi.mem_iff m).1 (heap_min_mem _ _ hm), hle⟩
    · rintro ⟨h, ha, hle⟩
      have hmem := (hi.mem_iff h).2 ha
      cases hm : heap_min loop.timer_heap with
      | none =>
        rw [heap_min_none] at hm
        rw [hm] at hmem
        simp at hmem
      | some m =>
        exact ⟨m, rfl, le_trans (heap_min_timeout_le loop hi m hm h ha) hle⟩
  · rw [next_timeout_neg_one_iff]
    constructor
    · intro he h
      have := hi.mem_iff h
      rw [he] at this
      simpa using this
    · intro hall
      rw [List.eq_nil_iff_forall_not_mem]
      intro h hh
      have := (hi.mem_iff h).1 hh
      rw [hall h] at this
      simp at this

theorem next_timeout_zero_iff_expired_witness :
    (uv__next_timeout loop_one_timer = 0 ↔
      ∃ h, uv__is_active loop_one_timer h = true ∧
        (loop_one_timer.timers h).timeout ≤ loop_one_timer.time) ∧
    (uv__next_timeout loop_one_timer = -1 ↔ loop_one_timer.timer_heap = []) ∧
    (uv__next_timeout loop_one_timer = -1 ↔ ∀ h, uv__is_active loop_one_timer h = false) :=
  next_timeout_zero_iff_expired idle_cbs loop_one_timer (loop_one_timer_reachable idle_cbs)

theorem clamped_timeout_eq (time timeout : Nat) (ht : time < 2 ^ 64) (hto : timeout < 2 ^ 64) :
    clamped_timeout time timeout = min (time + timeout) (2 ^ 64 - 1) ∧
    ((time + timeout) % 2 ^ 64 < timeout ↔ 2 ^ 64 ≤ time + timeout) := by
  unfold clamped_timeout UINT64_MAX
  norm_num at ht hto ⊢
  constructor
  · split_ifs with h <;> omega
  · omega

theorem uv_timer_start_ok (loop : uv_loop_t) (handle : Nat) (cb : Option Nat)
    (timeout repeat_ms : Nat) (hs : (uv_timer_start loop handle cb timeout repeat_ms).1 = 0) :
    (loop.timers handle).closing = false ∧ ∃ c, cb = some c := by
  by_cases h : (loop.timers handle).closing = true ∨ cb = none
  · rw [uv_timer_start_einval _ _ _ _ _ h] at hs
    simp [UV_EINVAL] at hs
  · constructor
    · cases hcl : (loop.timers handle).closing
      · rfl
      · exact absurd (Or.inl hcl) h
    · exact Option.ne_none_iff_exists'.1 (fun c => h (Or.inr c))

theorem uv_timer_stop_time (loop : uv_loop_t) (handle : Nat) :
    (uv_timer_stop loop handle).time = loop.time ∧
    (uv_timer_stop loop handle).timer_counter = loop.timer_counter := by
  cases ha : (loop.timers handle).active
  · rw [uv_timer_stop_inactive loop handle ha]; exact ⟨rfl, rfl⟩
  · exact ⟨(uv_timer_stop_active loop handle ha).2.2.1, (uv_timer_stop_active loop handle ha).2.2.2.1⟩

/-- C5. A successful `uv_timer_start` stores the deadline `min (loop_time + timeout) (2^64 - 1)`
computed over the naturals: the sum when it is below `2^64` and `2^64 - 1` otherwise. The wrap
test of the code, wrapped sum below `timeout`, holds exactly when the sum overflows. -/
theorem timer_start_deadline (loop : uv_loop_t) (handle : Nat) (cb : Option Nat)
    (timeout repeat_ms : Nat) (ht : loop.time < 2 ^ 64) (hto : timeout < 2 ^ 64)
    (hs : (uv_timer_start loop handle cb timeout repeat_ms).1 = 0) :
    ((uv_timer_start loop handle cb timeout repeat_ms).2.timers handle).timeout =
      min (loop.time + timeout) (2 ^ 64 - 1) ∧
    (loop.time + timeout < 2 ^ 64 →
      ((uv_timer_start loop handle cb timeout repeat_ms).2.timers handle).timeout =
        loop.time + timeout) ∧
    (2 ^ 64 ≤ loop.time + timeout →
      ((uv_timer_start loop handle cb timeout repeat_ms).2.timers handle).timeout = 2 ^ 64 - 1) ∧
    ((loop.time + timeout) % 2 ^ 64 < timeout ↔ 2 ^ 64 ≤ loop.time + timeout) := by
  obtain ⟨hc, c, rfl⟩ := uv_timer_start_ok _ _ _ _ _ hs
  rw [uv_timer_start_stop_start _ _ _ _ _ hc (by simp)]
  have h1 := (uv_timer_start_inactive (uv_timer_stop loop handle) handle c timeout repeat_ms
    (by rw [(uv_timer_stop_flags loop handle handle).1]; exact hc)
    (uv_timer_stop_is_inactive loop handle)).2.2.1
  rw [h1, (uv_timer_stop_time loop handle).1]
  simp only [Function.update_same]
  obtain ⟨e1, e2⟩ := clamped_timeout_eq loop.time timeout ht hto
  rw [e1]
  refine ⟨rfl, ?_, ?_, e2⟩
  · intro h; omega
  · intro h; omega

theorem timer_start_deadline_witness :
    ((uv_timer_start (uv__update_time (uv_loop_init 0) (2 ^ 64 - 5)) 3 (some 1) 9 0).2.timers
      3).timeout = 2 ^ 64 - 1 :=
  (timer_start_deadline (uv__update_time (uv_loop_init 0) (2 ^ 64 - 5)) 3 (some 1) 9 0
    (by decide) (by decide) (by decide)).2.2.1 (by decide)

/-- C1. `uv__next_timeout` returns -1 for the empty heap; otherwise, with `m` the timer that
`heap_min` peeks, it returns 0 when the deadline of `m` is at most the loop time and
`min (deadline - loop_time) INT_MAX`, which is at least 1, when the deadline is later. The
result is -1 or lies in `[0, INT_MAX]`. -/
theorem next_timeout_contract (loop : uv_loop_t) :
    (heap_min loop.timer_heap = none → uv__next_timeout loop = -1) ∧
    (∀ m, heap_min loop.timer_heap = some m → (loop.timers m).timeout ≤ loop.time →
      uv__next_timeout loop = 0) ∧
    (∀ m, heap_min loop.timer_heap = some m → loop.time < (loop.timers m).timeout →
      uv__next_timeout loop = ((min ((loop.timers m).timeout - loop.time) INT_MAX : Nat) : Int) ∧
      1 ≤ uv__next_timeout loop) ∧
    (uv__next_timeout loop = -1 ∨
      (0 ≤ uv__next_timeout loop ∧ uv__next_timeout loop ≤ (INT_MAX : Int))) := by
  unfold uv__next_timeout
  cases hm : heap_min loop.timer_heap with
  | none => simp
  | some m =>
    simp only [Option.some.injEq, forall_eq', reduceCtorEq, false_implies, true_and]
    unfold INT_MAX
    refine ⟨?_, ?_, ?_⟩
    · intro h; rw [if_pos h]
    · intro h
      rw [if_neg (by omega)]
      split_ifs with h2
      · rw [Nat.min_eq_right (by omega)]; simp
      · rw [Nat.min_eq_left (by omega)]; omega
    · right
      split_ifs <;> omega

theorem next_timeout_contract_witness :
    uv__next_timeout loop_one_timer = 10 ∧ 1 ≤ uv__next_timeout loop_one_timer :=
  (next_timeout_contract loop_one_timer).2.2.1 7 (by decide) (by decide)

/-- C8 (counterexample). With a `NULL` callback, `uv_timer_start` on the active timer 7
returns `UV_EINVAL` and leaves it in the heap, while stopping first and then starting leaves
the heap empty: the two loop states differ. -/
theorem restart_null_callback_differs :
    uv__is_active loop_one_timer 7 = true ∧
    (uv_timer_start loop_one_timer 7 none 5 0).1 = UV_EINVAL ∧
    (uv_timer_start loop_one_timer 7 none 5 0).2.timer_heap = [7] ∧
    (uv_timer_start (uv_timer_stop loop_one_timer 7) 7 none 5 0).2.timer_heap = [] ∧
    (uv_timer_start loop_one_timer 7 none 5 0).2.timer_heap ≠
      (uv_timer_start (uv_timer_stop loop_one_timer 7) 7 none 5 0).2.timer_heap ∧
    uv__is_active (uv_timer_start loop_one_timer 7 none 5 0).2 7 ≠
      uv__is_active (uv_timer_start (uv_timer_stop loop_one_timer 7) 7 none 5 0).2 7 := by
  decide

/-- C8 (amended). For an active timer and a callback that is not `NULL`, `uv_timer_start`
gives the same return value and the same loop state (heap, timers, `timer_counter`,
`active_handles`) as `uv_timer_stop` followed by `uv_timer_start`, and the timer occurs in
the heap exactly once afterwards. -/
theorem restart_eq_stop_start (loop : uv_loop_t) (handle : Nat) (cb : Option Nat)
    (timeout repeat_ms : Nat) (hi : timer_inv loop) (ha : uv__is_active loop handle = true)
    (hcb : cb ≠ none) :
    uv_timer_start loop handle cb timeout repeat_ms =
      uv_timer_start (uv_timer_stop loop handle) handle cb timeout repeat_ms ∧
    (uv_timer_start loop handle cb timeout repeat_ms).2.timer_heap.count handle = 1 := by
  have hc := (hi.usable handle ha).1
  refine ⟨uv_timer_start_stop_start _ _ _ _ _ hc hcb, ?_⟩
  have hi2 := timer_inv_start loop handle cb timeout repeat_ms hi
  apply List.count_eq_one_of_mem hi2.nodup
  rw [hi2.mem_iff, uv_timer_start_stop_start _ _ _ _ _ hc hcb]
  obtain ⟨c, rfl⟩ := Option.ne_none_iff_exists'.1 hcb
  rw [(uv_timer_start_inactive (uv_timer_stop loop handle) handle c timeout repeat_ms
    (by rw [(uv_timer_stop_flags loop handle handle).1]; exact hc)
    (uv_timer_stop_is_inactive loop handle)).2.2.1]
  simp

theorem restart_eq_stop_start_witness :
    uv_timer_start loop_one_timer 7 (some 2) 5 3 =
      uv_timer_start (uv_timer_stop loop_one_timer 7) 7 (some 2) 5 3 ∧
    (uv_timer_start loop_one_timer 7 (some 2) 5 3).2.timer_heap.count 7 = 1 :=
  restart_eq_stop_start loop_one_timer 7 (some 2) 5 3
    (timer_inv_of_reachable idle_cbs _ (loop_one_timer_reachable idle_cbs)) (by decide)
    (by decide)

/-- C9. In every loop state reachable from an initialised loop by `uv_timer_init`,
`uv_timer_start`, `uv_timer_stop`, `uv_timer_again`, `uv__run_timers` and `uv__timer_close`,
a timer is in the heap exactly when its handle is active, and no timer occurs in the heap
more than once. -/
theorem heap_member_iff_active (cbs : timer_cbs) (loop : uv_loop_t)
    (hr : timer_reachable cbs loop) :
    (∀ h, h ∈ loop.timer_heap ↔ uv__is_active loop h = true) ∧
    loop.timer_heap.Nodup ∧ ∀ h, loop.timer_heap.count h ≤ 1 := by
  have hi := timer_inv_of_reachable cbs loop hr
  exact ⟨hi.mem_iff, hi.nodup, fun h => List.nodup_iff_count_le_one.1 hi.nodup h⟩

theorem heap_member_iff_active_witness :
    (∀ h, h ∈ loop_one_timer.timer_heap ↔ uv__is_active loop_one_timer h = true) ∧
    loop_one_timer.timer_heap.Nodup ∧ ∀ h, loop_one_timer.timer_heap.count h ≤ 1 :=
  heap_member_iff_active idle_cbs loop_one_timer (loop_one_timer_reachable idle_cbs)

/-! ## One firing of a timer -/

theorem timer_fire_no_repeat (loop : uv_loop_t) (m : Nat)
    (hr : (loop.timers m).repeat_ms = 0) : timer_fire loop m = uv_timer_stop loop m := by
  unfold timer_fire uv_timer_again
  rw [(uv_timer_stop_flags loop m m).2.2.1, hr]
  split_ifs with h1 h2
  · rfl
  · exact absurd rfl h2
  · rfl

theorem timer_fire_repeat (loop : uv_loop_t) (m c : Nat)
    (hcb : (loop.timers m).timer_cb = some c) (hr : (loop.timers m).repeat_ms ≠ 0) :
    timer_fire loop m =
      (uv_timer_start (uv_timer_stop loop m) m (some c) (loop.timers m).repeat_ms
        (loop.timers m).repeat_ms).2 := by
  unfold timer_fire uv_timer_again
  have h2 := uv_timer_stop_is_inactive loop m
  rw [(uv_timer_stop_flags loop m m).2.2.1, (uv_timer_stop_flags loop m m).2.1, hcb,
    if_neg (by simp), if_pos hr]
  simp only
  rw [uv_timer_stop_inactive _ _ h2, (uv_timer_stop_flags loop m m).2.2.1,
    (uv_timer_stop_flags loop m m).2.1, hcb]

/-- The effect of stopping an active timer, in a loop that satisfies the invariant. -/
theorem uv_timer_stop_spec (loop : uv_loop_t) (m : Nat) (hi : timer_inv loop)
    (ha : (loop.timers m).active = true) :
    (∀ h, h ∈ (uv_timer_stop loop m).timer_heap ↔ (h ∈ loop.timer_heap ∧ h ≠ m)) ∧
    (uv_timer_stop loop m).timer_heap.length = loop.timer_heap.length - 1 ∧
    (uv_timer_stop loop m).timers m = { loop.timers m with active := false } ∧
    (∀ h, h ≠ m → (uv_timer_stop loop m).timers h = loop.timers h) ∧
    (uv_timer_stop loop m).time = loop.time := by
  obtain ⟨e1, e2, e3, _, _⟩ := uv_timer_stop_active loop m ha
  have hm : m ∈ loop.timer_heap := (hi.mem_iff m).2 ha
  refine ⟨?_, ?_, ?_, ?_, e3⟩
  · intro h; rw [e1]; exact heap_remove_mem _ _ _ hi.nodup hm h
  · rw [e1]; exact heap_remove_length _ _ _ hi.nodup hm
  · rw [e2]; simp
  · intro h hne; rw [e2]; simp [Function.update_noteq hne]

/-- The effect of starting a timer that is not active and not closing. -/
theorem uv_timer_start_spec (loop : uv_loop_t) (m c timeout repeat_ms : Nat)
    (hc : (loop.timers m).closing = false) (ha : (loop.timers m).active = false) :
    (∀ h, h ∈ (uv_timer_start loop m (some c) timeout repeat_ms).2.timer_heap ↔
      (h = m ∨ h ∈ loop.timer_heap)) ∧
    (uv_timer_start loop m (some c) timeout repeat_ms).2.timer_heap.length =
      loop.timer_heap.length + 1 ∧
    (uv_timer_start loop m (some c) timeout repeat_ms).2.timers m =
      { loop.timers m with
        timer_cb := some c
        timeout := clamped_timeout loop.time timeout
        repeat_ms := repeat_ms
        start_id := loop.timer_counter
        active := true } ∧
    (∀ h, h ≠ m →
      (uv_timer_start loop m (some c) timeout repeat_ms).2.timers h = loop.timers h) ∧
    (uv_timer_start loop m (some c) timeout repeat_ms).2.time = loop.time := by
  obtain ⟨_, e1, e2, e3, _, _⟩ := uv_timer_start_inactive loop m c timeout repeat_ms hc ha
  refine ⟨?_, ?_, ?_, ?_, e3⟩
  · intro h; rw [e1]; exact heap_insert_mem _ _ _ h
  · rw [e1]; exact heap_insert_length _ _ _
  · rw [e2]; simp
  · intro h hne; rw [e2]; simp [Function.update_noteq hne]

theorem timer_inv_fire (loop : uv_loop_t) (m : Nat) (hi : timer_inv loop) :
    timer_inv (timer_fire loop m) :=
  timer_inv_again _ _ (timer_inv_stop _ _ hi)

/-- Firing a timer that does not repeat. -/
theorem timer_fire_spec_once (loop : uv_loop_t) (m : Nat) (hi : timer_inv loop)
    (ha : (loop.timers m).active = true) (hr : (loop.timers m).repeat_ms = 0) :
    (∀ h, h ∈ (timer_fire loop m).timer_heap ↔ (h ∈ loop.timer_heap ∧ h ≠ m)) ∧
    (timer_fire loop m).timer_heap.length = loop.timer_heap.length - 1 ∧
    (timer_fire loop m).timers m = { loop.timers m with active := false } ∧
    (∀ h, h ≠ m → (timer_fire loop m).timers h = loop.timers h) ∧
    (timer_fire loop m).time = loop.time := by
  rw [timer_fire_no_repeat loop m hr]
  exact uv_timer_stop_spec loop m hi ha

/-- Firing a timer that repeats. -/
theorem timer_fire_spec_repeat (loop : uv_loop_t) (m : Nat) (hi : timer_inv loop)
    (ha : (loop.timers m).active = true) (hr : (loop.timers m).repeat_ms ≠ 0) :
    (∀ h, h ∈ (timer_fire loop m).timer_heap ↔ h ∈ loop.timer_heap) ∧
    (timer_fire loop m).timers m =
      { loop.timers m with
        timeout := clamped_timeout loop.time (loop.timers m).repeat_ms
        start_id := loop.timer_counter } ∧
    (∀ h, h ≠ m → (timer_fire loop m).timers h = loop.timers h) ∧
    (timer_fire loop m).time = loop.time := by
  obtain ⟨hc, hcb⟩ := hi.usable m ha
  obtain ⟨c, hcb⟩ := Option.ne_none_iff_exists'.1 hcb
  rw [timer_fire_repeat loop m c hcb hr]
  obtain ⟨s1, _, s3, s4, s5⟩ := uv_timer_stop_spec loop m hi ha
  obtain ⟨t1, _, t3, t4, t5⟩ := uv_timer_start_spec (uv_timer_stop loop m) m c
    (loop.timers m).repeat_ms (loop.timers m).repeat_ms
    (by rw [(uv_timer_stop_flags loop m m).1]; exact hc) (uv_timer_stop_is_inactive loop m)
  have hm : m ∈ loop.timer_heap := (hi.mem_iff m).2 ha
  refine ⟨?_, ?_, ?_, ?_⟩
  · intro h
    rw [t1, s1]
    by_cases e : h = m
    · subst e; simp [hm]
    · simp [e]
  · rw [t3, s3, s5, (uv_timer_stop_time loop m).2]
    cases hx : loop.timers m
    simp_all
  · intro h hne; rw [t4 h hne, s4 h hne]
  · rw [t5, s5]

/-! ## Passes of `uv__run_timers` with callbacks that make no timer call -/

/-- One turn of the loop of `uv__run_timers` that fires the timer `m`. -/
theorem uv__run_timers_fire (cbs : timer_cbs) (fuel : Nat)
    (loop : uv_loop_t) (m : Nat) (hm : heap_min loop.timer_heap = some m)
    (hexp : (loop.timers m).timeout ≤ loop.time) (c : Nat)
    (hc : ((timer_fire loop m).timers m).timer_cb = some c) :
    uv__run_timers cbs (fuel + 1) loop =
      (uv__run_timers cbs fuel
        (run_timer_ops (cbs c m (timer_fire loop m)) (timer_fire loop m))).map
        (fun r => (r.1, m :: r.2)) := by
  rw [uv__run_timers_succ, hm]
  simp only
  rw [if_neg (by omega)]
  unfold timer_fire at hc ⊢
  rw [hc]
  simp only
  cases uv__run_timers cbs fuel
    (run_timer_ops (cbs c m (uv_timer_again (uv_timer_stop loop m) m).2)
      (uv_timer_again (uv_timer_stop loop m) m).2) <;> rfl

/-- One turn of the loop of `uv__run_timers` when the callback makes no timer call. -/
theorem uv__run_timers_idle (cbs : timer_cbs) (hcb : ∀ c h l, cbs c h l = []) (fuel : Nat)
    (loop : uv_loop_t) (m : Nat) (hm : heap_min loop.timer_heap = some m)
    (hexp : (loop.timers m).timeout ≤ loop.time) (c : Nat)
    (hc : ((timer_fire loop m).timers m).timer_cb = some c) :
    uv__run_timers cbs (fuel + 1) loop =
      (uv__run_timers cbs fuel (timer_fire loop m)).map (fun r => (r.1, m :: r.2)) := by
  rw [uv__run_timers_fire cbs fuel loop m hm hexp c hc, hcb]
  rfl

theorem uv__run_timers_empty (cbs : timer_cbs) (fuel : Nat) (loop : uv_loop_t)
    (hm : heap_min loop.timer_heap = none) :
    uv__run_timers cbs (fuel + 1) loop = some (loop, []) := by
  rw [uv__run_timers_succ, hm]

theorem uv__run_timers_not_due (cbs : timer_cbs) (fuel : Nat) (loop : uv_loop_t) (m : Nat)
    (hm : heap_min loop.timer_heap = some m) (hexp : loop.time < (loop.timers m).timeout) :
    uv__run_timers cbs (fuel + 1) loop = some (loop, []) := by
  rw [uv__run_timers_succ, hm]
  simp only
  rw [if_pos hexp]

theorem timer_fire_cb (loop : uv_loop_t) (m : Nat) (hi : timer_inv loop)
    (ha : (loop.timers m).active = true) :
    ((timer_fire loop m).timers m).timer_cb = (loop.timers m).timer_cb ∧
    ((timer_fire loop m).timers m).repeat_ms = (loop.timers m).repeat_ms ∧
    (loop.timers m).timer_cb ≠ none := by
  by_cases hr : (loop.timers m).repeat_ms = 0
  · rw [(timer_fire_spec_once loop m hi ha hr).2.2.1]
    exact ⟨rfl, rfl, (hi.usable m ha).2⟩
  · rw [(timer_fire_spec_repeat loop m hi ha hr).2.1]
    exact ⟨rfl, rfl, (hi.usable m ha).2⟩

theorem clamped_timeout_le (time r : Nat) : clamped_timeout time r ≤ 2 ^ 64 - 1 := by
  unfold clamped_timeout UINT64_MAX
  split_ifs
  · exact le_refl _
  · have := Nat.mod_lt (time + r) (by norm_num : 2 ^ 64 > 0)
    omega

theorem clamped_timeout_gt (time r : Nat) (ht : time < 2 ^ 64 - 1) (hr : r ≠ 0) :
    time < clamped_timeout time r := by
  unfold clamped_timeout UINT64_MAX
  norm_num at ht ⊢
  split_ifs with h <;> omega

/-- At a loop time of `2^64 - 1` (or more) a repeating timer that is due is due again as
soon as it has fired: the pass does not end. -/
theorem uv__run_timers_none (cbs : timer_cbs) (hcb : ∀ c h l, cbs c h l = []) (fuel : Nat) :
    ∀ (loop : uv_loop_t), timer_inv loop → 2 ^ 64 - 1 ≤ loop.time →
    (∃ h, (loop.timers h).active = true ∧ (loop.timers h).repeat_ms ≠ 0 ∧
      (loop.timers h).timeout ≤ loop.time) →
    uv__run_timers cbs fuel loop = none := by
  induction fuel with
  | zero => intro loop _ _ _; rfl
  | succ fuel ih =>
    intro loop hi ht ⟨h, ha, hrep, hexp⟩
    have hmem := (hi.mem_iff h).2 ha
    cases hm : heap_min loop.timer_heap with
    | none =>
      rw [heap_min_none] at hm
      rw [hm] at hmem; simp at hmem
    | some m =>
      have hma : (loop.timers m).active = true := (hi.mem_iff m).1 (heap_min_mem _ _ hm)
      have hle := heap_min_timeout_le loop hi m hm h ha
      obtain ⟨f1, f2, f3⟩ := timer_fire_cb loop m hi hma
      obtain ⟨c, hc⟩ := Option.ne_none_iff_exists'.1 f3
      rw [uv__run_timers_idle cbs hcb fuel loop m hm (by omega) c (by rw [f1, hc])]
      have hi2 := timer_inv_fire loop m hi
      rw [ih (timer_fire loop m) hi2]
      · rfl
      · by_cases hr : (loop.timers m).repeat_ms = 0
        · rw [(timer_fire_spec_once loop m hi hma hr).2.2.2.2]; exact ht
        · rw [(timer_fire_spec_repeat loop m hi hma hr).2.2.2]; exact ht
      · by_cases hr : (loop.timers m).repeat_ms = 0
        · obtain ⟨_, _, _, g4, g5⟩ := timer_fire_spec_once loop m hi hma hr
          have hne : h ≠ m := by intro e; rw [e] at hrep; exact hrep hr
          exact ⟨h, by rw [g4 h hne, g5]; exact ⟨ha, hrep, hexp⟩⟩
        · obtain ⟨_, g2, _, g5⟩ := timer_fire_spec_repeat loop m hi hma hr
          refine ⟨m, ?_⟩
          rw [g2, g5]
          refine ⟨hma, hr, ?_⟩
          have := clamped_timeout_le loop.time (loop.timers m).repeat_ms
          simp only
          omega

/-- A pass of `uv__run_timers` that ends fires every timer at most once, fires only timers
that are due, and fires them in the order of their keys. -/
theorem uv__run_timers_sorted (cbs : timer_cbs) (hcb : ∀ c h l, cbs c h l = []) (fuel : Nat) :
    ∀ (loop : uv_loop_t) (r : uv_loop_t × List Nat), timer_inv loop →
    uv__run_timers cbs fuel loop = some r →
    r.2.Nodup ∧
    (∀ h, h ∈ r.2 → (loop.timers h).active = true ∧ (loop.timers h).timeout ≤ loop.time) ∧
    r.2.Pairwise (fun a b => timer_key (loop.timers a) ≤ timer_key (loop.timers b)) := by
  induction fuel with
  | zero => intro loop r _ h; simp [uv__run_timers] at h
  | succ fuel ih =>
    intro loop r hi hrun
    cases hm : heap_min loop.timer_heap with
    | none =>
      rw [uv__run_timers_empty cbs fuel loop hm] at hrun
      simp only [Option.some.injEq] at hrun
      subst hrun
      simp
    | some m =>
      by_cases hexp : loop.time < (loop.timers m).timeout
      · rw [uv__run_timers_not_due cbs fuel loop m hm hexp] at hrun
        simp only [Option.some.injEq] at hrun
        subst hrun
        simp
      · have hma : (loop.timers m).active = true := (hi.mem_iff m).1 (heap_min_mem _ _ hm)
        obtain ⟨f1, f2, f3⟩ := timer_fire_cb loop m hi hma
        obtain ⟨c, hc⟩ := Option.ne_none_iff_exists'.1 f3
        have hrun0 := hrun
        rw [uv__run_timers_idle cbs hcb fuel loop m hm (by omega) c (by rw [f1, hc])] at hrun
        cases hr' : uv__run_timers cbs fuel (timer_fire loop m) with
        | none => rw [hr'] at hrun; simp at hrun
        | some r' =>
          rw [hr'] at hrun
          simp only [Option.map_some', Option.some.injEq] at hrun
          subst hrun
          obtain ⟨n1, n2, n3⟩ := ih (timer_fire loop m) r' (timer_inv_fire loop m hi) hr'
          have hk := timer_less_iff loop.timers hi.start_id_lt
          -- the fired timer does not fire again
          have hnot : m ∉ r'.2 := by
            intro hin
            obtain ⟨a1, a2⟩ := n2 m hin
            by_cases hr : (loop.timers m).repeat_ms = 0
            · rw [(timer_fire_spec_once loop m hi hma hr).2.2.1] at a1
              simp at a1
            · obtain ⟨_, g2, _, g5⟩ := timer_fire_spec_repeat loop m hi hma hr
              rw [g2, g5] at a2
              simp only at a2
              have ht : 2 ^ 64 - 1 ≤ loop.time := by
                by_contra hc2
                have := clamped_timeout_gt loop.time _ (by omega) hr
                omega
              have := uv__run_timers_none cbs hcb (fuel + 1) loop hi ht
                ⟨m, hma, hr, by omega⟩
              rw [this] at hrun0
              simp at hrun0
          have hsame : ∀ h, h ∈ r'.2 → (timer_fire loop m).timers h = loop.timers h ∧
              (timer_fire loop m).time = loop.time := by
            intro h hin
            have hne : h ≠ m := fun e => hnot (e ▸ hin)
            by_cases hr : (loop.timers m).repeat_ms = 0
            · obtain ⟨_, _, _, g4, g5⟩ := timer_fire_spec_once loop m hi hma hr
              exact ⟨g4 h hne, g5⟩
            · obtain ⟨_, _, g4, g5⟩ := timer_fire_spec_repeat loop m hi hma hr
              exact ⟨g4 h hne, g5⟩
          refine ⟨List.nodup_cons.2 ⟨hnot, n1⟩, ?_, ?_⟩
          · intro h hin
            rcases List.mem_cons.1 hin with e | hin
            · subst e; exact ⟨hma, by omega⟩
            · have := n2 h hin
              rw [(hsame h hin).1, (hsame h hin).2] at this
              exact this
          · refine List.pairwise_cons.2 ⟨?_, ?_⟩
            · intro h hin
              have := n2 h hin
              rw [(hsame h hin).1] at this
              exact heap_min_le hk _ hi.ordered m hm h ((hi.mem_iff h).2 this.1)
            · refine List.Pairwise.imp_of_mem ?_ n3
              intro a b ha hb hab
              rw [(hsame a ha).1, (hsame b hb).1] at hab
              exact hab

/-- With timers that do not repeat, a pass of `uv__run_timers` ends and fires exactly the
timers that are due, each once. -/
theorem uv__run_timers_once (cbs : timer_cbs) (hcb : ∀ c h l, cbs c h l = []) (fuel : Nat) :
    ∀ (loop : uv_loop_t), timer_inv loop →
    (∀ h, h ∈ loop.timer_heap → (loop.timers h).repeat_ms = 0) →
    loop.timer_heap.length < fuel →
    ∃ r, uv__run_timers cbs fuel loop = some r ∧
      r.2.Nodup ∧
      (∀ h, h ∈ r.2 ↔ (h ∈ loop.timer_heap ∧ (loop.timers h).timeout ≤ loop.time)) ∧
      (∀ h, h ∈ r.1.timer_heap ↔ (h ∈ loop.timer_heap ∧ loop.time < (loop.timers h).timeout)) ∧
      (∀ h, h ∈ r.2 → r.1.timers h = { loop.timers h with active := false }) ∧
      (∀ h, h ∉ r.2 → r.1.timers h = loop.timers h) ∧
      r.1.time = loop.time ∧ timer_inv r.1 := by
  induction fuel with
  | zero => intro loop _ _ h; omega
  | succ fuel ih =>
    intro loop hi hrep hlen
    cases hm : heap_min loop.timer_heap with
    | none =>
      refine ⟨(loop, []), uv__run_timers_empty cbs fuel loop hm, ?_⟩
      rw [heap_min_none] at hm
      simp [hm, hi]
    | some m =>
      have hmm := heap_min_mem _ _ hm
      have hma : (loop.timers m).active = true := (hi.mem_iff m).1 hmm
      by_cases hexp : loop.time < (loop.timers m).timeout
      · refine ⟨(loop, []), uv__run_timers_not_due cbs fuel loop m hm hexp, ?_⟩
        refine ⟨List.nodup_nil, ?_, ?_, ?_, ?_, rfl, hi⟩
        · intro h
          simp only [List.not_mem_nil, false_iff, not_and, not_le]
          intro hin
          have := heap_min_timeout_le loop hi m hm h ((hi.mem_iff h).1 hin)
          omega
        · intro h
          simp only [iff_self_and]
          intro hin
          have := heap_min_timeout_le loop hi m hm h ((hi.mem_iff h).1 hin)
          omega
        · intro h hin; simp at hin
        · intro h _; rfl
      · obtain ⟨f1, f2, f3⟩ := timer_fire_cb loop m hi hma
        obtain ⟨c, hc⟩ := Option.ne_none_iff_exists'.1 f3
        rw [uv__run_timers_idle cbs hcb fuel loop m hm (by omega) c (by rw [f1, hc])]
        have hr0 := hrep m hmm
        obtain ⟨g1, g2, g3, g4, g5⟩ := timer_fire_spec_once loop m hi hma hr0
        have hi2 := timer_inv_fire loop m hi
        have hlen0 : 0 < loop.timer_heap.length := List.length_pos_of_mem hmm
        obtain ⟨r', e', n1, n2, n3, n4, n5, n6, n7⟩ := ih (timer_fire loop m) hi2
          (by
            intro h hin
            have := (g1 h).1 hin
            rw [g4 h this.2]; exact hrep h this.1)
          (by omega)
        have hnot : m ∉ r'.2 := by
          intro hin
          exact ((g1 m).1 ((n2 m).1 hin).1).2 rfl
        refine ⟨(r'.1, m :: r'.2), by rw [e']; rfl, List.nodup_cons.2 ⟨hnot, n1⟩, ?_, ?_, ?_, ?_,
          by rw [n6, g5], n7⟩
        · intro h
          simp only [List.mem_cons]
          by_cases e : h = m
          · subst e; simp [hmm]; omega
          · rw [n2 h, g1 h, g4 h e, g5]; simp [e]
        · intro h
          simp only
          rw [n3 h, g1 h, g5]
          by_cases e : h = m
          · subst e; simp; intro _; omega
          · rw [g4 h e]; simp [e]
        · intro h hin
          simp only
          rcases List.mem_cons.1 hin with e | hin
          · subst e; rw [n5 h hnot, g3]
          · have hne : h ≠ m := fun e => hnot (e ▸ hin)
            rw [n4 h hin, g4 h hne]
        · intro h hin
          simp only [List.mem_cons, not_or] at hin
          simp only
          rw [n5 h hin.2, g4 h hin.1]

theorem loop_four_started_inv : timer_inv loop_four_started := by
  unfold loop_four_started
  apply timer_inv_start
  apply timer_inv_start
  apply timer_inv_start
  apply timer_inv_start
  apply timer_inv_timer_init _ _ _ (by decide)
  apply timer_inv_timer_init _ _ _ (by decide)
  apply timer_inv_timer_init _ _ _ (by decide)
  apply timer_inv_timer_init _ _ _ (by decide)
  exact timer_inv_init 0

theorem loop_four_timers_inv : timer_inv loop_four_timers :=
  timer_inv_update_time _ _ loop_four_started_inv

theorem loop_repeat_timer_inv : timer_inv loop_repeat_timer := by
  unfold loop_repeat_timer
  apply timer_inv_update_time
  apply timer_inv_start
  apply timer_inv_timer_init _ _ _ (by decide)
  exact timer_inv_init 0

theorem indexOf_lt_of_pairwise (l : List Nat) (k : Nat → Nat)
    (hp : l.Pairwise (fun a b => k a ≤ k b)) (a b : Nat) (ha : a ∈ l) (hb : b ∈ l)
    (hlt : k a < k b) : l.indexOf a < l.indexOf b := by
  by_contra hc
  have hia := List.indexOf_lt_length.2 ha
  have hib := List.indexOf_lt_length.2 hb
  have hne : l.indexOf b ≠ l.indexOf a := by
    intro e
    have e1 := List.getElem_indexOf hia
    have e2 := List.getElem_indexOf hib
    simp only [e] at e2
    rw [e1] at e2
    rw [e2] at hlt
    omega
  have hlt2 : l.indexOf b < l.indexOf a := by omega
  have := (List.pairwise_iff_getElem.1 hp) _ _ hib hia hlt2
  rw [List.getElem_indexOf hia, List.getElem_indexOf hib] at this
  omega

theorem timer_key_lt_of (a b : uv_timer_t) (hb : a.start_id < 2 ^ 64)
    (h : a.timeout < b.timeout ∨ (a.timeout = b.timeout ∧ a.start_id < b.start_id)) :
    timer_key a < timer_key b := by
  unfold timer_key
  norm_num at hb ⊢
  omega

/-- C3. In a pass of `uv__run_timers` whose callbacks make no timer call, every timer fires
at most once, and of two timers that fire the one with the earlier deadline is invoked first;
with equal deadlines the one with the smaller `start_id` is invoked first. -/
theorem run_timers_fire_in_key_order (cbs : timer_cbs) (hcb : ∀ c h l, cbs c h l = [])
    (loop : uv_loop_t) (hi : timer_inv loop) (fuel : Nat) (fired : List Nat)
    (hf : timers_fired cbs fuel loop = some fired) :
    fired.Nodup ∧
    ∀ t1 t2, t1 ∈ fired → t2 ∈ fired →
      ((loop.timers t1).timeout < (loop.timers t2).timeout →
        fired.indexOf t1 < fired.indexOf t2) ∧
      ((loop.timers t1).timeout = (loop.timers t2).timeout →
        (loop.timers t1).start_id < (loop.timers t2).start_id →
        fired.indexOf t1 < fired.indexOf t2) := by
  unfold timers_fired at hf
  cases hr : uv__run_timers cbs fuel loop with
  | none => rw [hr] at hf; simp at hf
  | some r =>
    rw [hr] at hf
    simp only [Option.map_some', Option.some.injEq] at hf
    subst hf
    obtain ⟨n1, _, n3⟩ := uv__run_timers_sorted cbs hcb fuel loop r hi hr
    refine ⟨n1, ?_⟩
    intro t1 t2 h1 h2
    constructor
    · intro hlt
      exact indexOf_lt_of_pairwise r.2 _ n3 t1 t2 h1 h2
        (timer_key_lt_of _ _ (hi.start_id_lt t1) (Or.inl hlt))
    · intro he hlt
      exact indexOf_lt_of_pairwise r.2 _ n3 t1 t2 h1 h2
        (timer_key_lt_of _ _ (hi.start_id_lt t1) (Or.inr ⟨he, hlt⟩))

theorem run_timers_fire_in_key_order_witness :
    timers_fired idle_cbs 5 loop_four_timers = some [1, 2, 3] ∧
    [1, 2, 3].indexOf 1 < [1, 2, 3].indexOf 2 ∧ [1, 2, 3].indexOf 2 < [1, 2, 3].indexOf 3 :=
  ⟨by decide,
    ((run_timers_fire_in_key_order idle_cbs (fun _ _ _ => rfl) loop_four_timers
      loop_four_timers_inv 5 [1, 2, 3] (by decide)).2 1 2 (by decide) (by decide)).2
      (by decide) (by decide),
    ((run_timers_fire_in_key_order idle_cbs (fun _ _ _ => rfl) loop_four_timers
      loop_four_timers_inv 5 [1, 2, 3] (by decide)).2 2 3 (by decide) (by decide)).2
      (by decide) (by decide)⟩

/-- C4. With timers that do not repeat and callbacks that make no timer call, a pass of
`uv__run_timers` ends; it invokes the callback of every timer whose deadline is at or before
the loop time exactly once and of no other timer, removes exactly those timers from the heap
and makes them inactive, and leaves every other timer in the heap, unchanged. When all timers
are due the heap is empty afterwards. -/
theorem run_timers_fires_due_once (cbs : timer_cbs) (hcb : ∀ c h l, cbs c h l = [])
    (loop : uv_loop_t) (hi : timer_inv loop)
    (hrep : ∀ h, h ∈ loop.timer_heap → (loop.timers h).repeat_ms = 0)
    (fuel : Nat) (hfuel : loop.timer_heap.length < fuel) :
    ∃ r, uv__run_timers cbs fuel loop = some r ∧
      (∀ h, r.2.count h =
        if h ∈ loop.timer_heap ∧ (loop.timers h).timeout ≤ loop.time then 1 else 0) ∧
      (∀ h, h ∈ r.1.timer_heap ↔ (h ∈ loop.timer_heap ∧ loop.time < (loop.timers h).timeout)) ∧
      (∀ h, h ∈ loop.timer_heap → (loop.timers h).timeout ≤ loop.time →
        uv__is_active r.1 h = false ∧ h ∉ r.1.timer_heap) ∧
      (∀ h, h ∈ loop.timer_heap → loop.time < (loop.timers h).timeout →
        r.1.timers h = loop.timers h) ∧
      ((∀ h, h ∈ loop.timer_heap → (loop.timers h).timeout ≤ loop.time) →
        r.1.timer_heap = []) := by
  obtain ⟨r, e, n1, n2, n3, n4, n5, _, _⟩ := uv__run_timers_once cbs hcb fuel loop hi hrep hfuel
  refine ⟨r, e, ?_, n3, ?_, ?_, ?_⟩
  · intro h
    by_cases hc : h ∈ loop.timer_heap ∧ (loop.timers h).timeout ≤ loop.time
    · rw [if_pos hc]
      exact List.count_eq_one_of_mem n1 ((n2 h).2 hc)
    · rw [if_neg hc]
      exact List.count_eq_zero_of_not_mem (fun hin => hc ((n2 h).1 hin))
  · intro h hin hexp
    constructor
    · unfold uv__is_active
      rw [n4 h ((n2 h).2 ⟨hin, hexp⟩)]
    · rw [n3 h]
      intro hc
      omega
  · intro h hin hexp
    apply n5
    rw [n2 h]
    intro hc
    omega
  · intro hall
    rw [List.eq_nil_iff_forall_not_mem]
    intro h hin
    have := (n3 h).1 hin
    have := hall h this.1
    omega

theorem run_timers_fires_due_once_witness :
    ∃ r, uv__run_timers idle_cbs 5 loop_four_timers = some r ∧
      (∀ h, r.2.count h =
        if h ∈ loop_four_timers.timer_heap ∧
          (loop_four_timers.timers h).timeout ≤ loop_four_timers.time then 1 else 0) ∧
      (∀ h, h ∈ r.1.timer_heap ↔
        (h ∈ loop_four_timers.timer_heap ∧
          loop_four_timers.time < (loop_four_timers.timers h).timeout)) ∧
      (∀ h, h ∈ loop_four_timers.timer_heap →
        (loop_four_timers.timers h).timeout ≤ loop_four_timers.time →
        uv__is_active r.1 h = false ∧ h ∉ r.1.timer_heap) ∧
      (∀ h, h ∈ loop_four_timers.timer_heap →
        loop_four_timers.time < (loop_four_timers.timers h).timeout →
        r.1.timers h = loop_four_timers.timers h) ∧
      ((∀ h, h ∈ loop_four_timers.timer_heap →
        (loop_four_timers.timers h).timeout ≤ loop_four_timers.time) →
        r.1.timer_heap = []) :=
  run_timers_fires_due_once idle_cbs (fun _ _ _ => rfl) loop_four_timers loop_four_timers_inv
    (by decide) 5 (by decide)

/-- While the timer `m` is stopped and no callback of another timer makes a timer call, a
pass of `uv__run_timers` does not fire `m` and leaves it stopped. -/
theorem uv__run_timers_skips (cbs : timer_cbs) (m : Nat)
    (hcb : ∀ c h l, h ≠ m → cbs c h l = []) (fuel : Nat) :
    ∀ (loop : uv_loop_t) (r : uv_loop_t × List Nat), timer_inv loop →
    (loop.timers m).active = false → uv__run_timers cbs fuel loop = some r →
    m ∉ r.2 ∧ (r.1.timers m).active = false := by
  induction fuel with
  | zero => intro loop r _ _ h; simp [uv__run_timers] at h
  | succ fuel ih =>
    intro loop r hi hma hrun
    cases hm : heap_min loop.timer_heap with
    | none =>
      rw [uv__run_timers_empty cbs fuel loop hm] at hrun
      simp only [Option.some.injEq] at hrun
      subst hrun
      simp [hma]
    | some x =>
      by_cases hexp : loop.time < (loop.timers x).timeout
      · rw [uv__run_timers_not_due cbs fuel loop x hm hexp] at hrun
        simp only [Option.some.injEq] at hrun
        subst hrun
        simp [hma]
      · have hxa : (loop.timers x).active = true := (hi.mem_iff x).1 (heap_min_mem _ _ hm)
        have hne : x ≠ m := by intro e; rw [e, hma] at hxa; simp at hxa
        obtain ⟨f1, f2, f3⟩ := timer_fire_cb loop x hi hxa
        obtain ⟨c, hc⟩ := Option.ne_none_iff_exists'.1 f3
        rw [uv__run_timers_fire cbs fuel loop x hm (by omega) c (by rw [f1, hc]),
          hcb c x _ hne] at hrun
        simp only [run_timer_ops, List.foldl_nil] at hrun
        cases hr' : uv__run_timers cbs fuel (timer_fire loop x) with
        | none => rw [hr'] at hrun; simp at hrun
        | some r' =>
          rw [hr'] at hrun
          simp only [Option.map_some', Option.some.injEq] at hrun
          subst hrun
          have hm2 : ((timer_fire loop x).timers m).active = false := by
            by_cases hr : (loop.timers x).repeat_ms = 0
            · rw [(timer_fire_spec_once loop x hi hxa hr).2.2.2.1 m (Ne.symm hne)]; exact hma
            · rw [(timer_fire_spec_repeat loop x hi hxa hr).2.2.1 m (Ne.symm hne)]; exact hma
          obtain ⟨k1, k2⟩ := ih (timer_fire loop x) r' (timer_inv_fire loop x hi) hm2 hr'
          refine ⟨?_, k2⟩
          simp only [List.mem_cons, not_or]
          exact ⟨Ne.symm hne, k1⟩

/-- C6. When a timer with repeat `r ≠ 0` fires at loop time `T`, then at the moment its
callback is invoked it is active and in the heap, once, with deadline `min (T + r) (2^64 - 1)`
and repeat `r`. If the callback stops the timer, the timer is not in the heap afterwards, and
(when no other callback makes a timer call) it fires once in the pass and is not in the heap
at the end of the pass. -/
theorem repeat_timer_rearmed (loop : uv_loop_t) (hi : timer_inv loop) (m c : Nat)
    (hm : heap_min loop.timer_heap = some m) (hexp : (loop.timers m).timeout ≤ loop.time)
    (hrep : (loop.timers m).repeat_ms ≠ 0) (hcb : (loop.timers m).timer_cb = some c)
    (ht : loop.time < 2 ^ 64) (hr64 : (loop.timers m).repeat_ms < 2 ^ 64) :
    (∀ cbs fuel, uv__run_timers cbs (fuel + 1) loop =
      (uv__run_timers cbs fuel
        (run_timer_ops (cbs c m (timer_fire loop m)) (timer_fire loop m))).map
        (fun r => (r.1, m :: r.2))) ∧
    uv__is_active (timer_fire loop m) m = true ∧
    (timer_fire loop m).timer_heap.count m = 1 ∧
    ((timer_fire loop m).timers m).timeout =
      min (loop.time + (loop.timers m).repeat_ms) (2 ^ 64 - 1) ∧
    ((timer_fire loop m).timers m).repeat_ms = (loop.timers m).repeat_ms ∧
    m ∉ (run_timer_ops [timer_op.stop m] (timer_fire loop m)).timer_heap ∧
    uv__is_active (run_timer_ops [timer_op.stop m] (timer_fire loop m)) m = false ∧
    (∀ fuel r, uv__run_timers (stop_self_cbs m) fuel loop = some r →
      r.2.count m = 1 ∧ m ∉ r.1.timer_heap) := by
  have hma : (loop.timers m).active = true := (hi.mem_iff m).1 (heap_min_mem _ _ hm)
  obtain ⟨f1, f2, _⟩ := timer_fire_cb loop m hi hma
  obtain ⟨g1, g2, g3, g5⟩ := timer_fire_spec_repeat loop m hi hma hrep
  have hi2 := timer_inv_fire loop m hi
  have hact : ((timer_fire loop m).timers m).active = true := by rw [g2]; exact hma
  have hi3 := timer_inv_stop (timer_fire loop m) m hi2
  have hstop : ((uv_timer_stop (timer_fire loop m) m).timers m).active = false :=
    uv_timer_stop_is_inactive _ _
  refine ⟨?_, hact, ?_, ?_, f2, ?_, ?_, ?_⟩
  · intro cbs fuel
    exact uv__run_timers_fire cbs fuel loop m hm hexp c (by rw [f1, hcb])
  · exact List.count_eq_one_of_mem hi2.nodup ((hi2.mem_iff m).2 hact)
  · rw [g2]
    exact (clamped_timeout_eq loop.time _ ht hr64).1
  · show m ∉ (uv_timer_stop (timer_fire loop m) m).timer_heap
    rw [hi3.mem_iff, hstop]; simp
  · exact hstop
  · intro fuel r hrun
    cases fuel with
    | zero => simp [uv__run_timers] at hrun
    | succ fuel =>
      rw [uv__run_timers_fire (stop_self_cbs m) fuel loop m hm hexp c (by rw [f1, hcb])] at hrun
      have hops : run_timer_ops (stop_self_cbs m c m (timer_fire loop m)) (timer_fire loop m) =
          uv_timer_stop (timer_fire loop m) m := by
        simp [stop_self_cbs, run_timer_ops, run_timer_op]
      rw [hops] at hrun
      cases hr' : uv__run_timers (stop_self_cbs m) fuel (uv_timer_stop (timer_fire loop m) m) with
      | none => rw [hr'] at hrun; simp at hrun
      | some r' =>
        rw [hr'] at hrun
        simp only [Option.map_some', Option.some.injEq] at hrun
        subst hrun
        obtain ⟨k1, k2⟩ := uv__run_timers_skips (stop_self_cbs m) m
          (by intro c h l hne; simp [stop_self_cbs, hne]) fuel _ r' hi3 hstop hr'
        have hi4 := timer_inv_run_timers (stop_self_cbs m) fuel _ r' hi3 hr'
        constructor
        · simp only [List.count_cons_self]
          rw [List.count_eq_zero_of_not_mem k1]
        · simp only
          rw [hi4.mem_iff, k2]; simp

theorem repeat_timer_rearmed_witness :
    ((timer_fire loop_repeat_timer 1).timers 1).timeout = min (5 + 7) (2 ^ 64 - 1) ∧
    ((timer_fire loop_repeat_timer 1).timers 1).timeout = 12 ∧
    uv__is_active (timer_fire loop_repeat_timer 1) 1 = true ∧
    timers_fired (stop_self_cbs 1) 3 loop_repeat_timer = some [1] :=
  ⟨(repeat_timer_rearmed loop_repeat_timer loop_repeat_timer_inv 1 1 (by decide) (by decide)
      (by decide) (by decide) (by decide) (by decide)).2.2.2.1,
    by decide, by decide, by decide⟩

/-! ## Inserting a node into the heap and removing it again -/

theorem heap_anc_le (n : Nat) : ∀ j, heap_anc n (j + 1) ≤ heap_anc n j := by
  intro j
  simp only [heap_anc, heap_parent]
  omega

theorem heap_anc_lt (n j : Nat) (h : 0 < heap_anc n j) : heap_anc n (j + 1) < heap_anc n j := by
  simp only [heap_anc, heap_parent]
  omega

theorem heap_anc_le_self (n : Nat) : ∀ j, heap_anc n j ≤ n := by
  intro j
  induction j with
  | zero => exact le_refl _
  | succ j ih => exact le_trans (heap_anc_le n j) ih

/-- Along a path whose slots are not the root, `j` steps up lose at least `j` slots. -/
theorem heap_anc_add_le (n : Nat) : ∀ j, (∀ i, i < j → 0 < heap_anc n i) →
    heap_anc n j + j ≤ n := by
  intro j
  induction j with
  | zero => intro _; simp [heap_anc]
  | succ j ih =>
    intro hv
    have h1 := ih (fun i hi => hv i (by omega))
    have h2 := heap_anc_lt n j (hv j (by omega))
    omega

theorem heap_lifted_length (h : List Nat) (x : Nat) : ∀ j,
    (heap_lifted h x j).length = h.length + 1 := by
  intro j
  induction j with
  | zero => simp [heap_lifted]
  | succ j ih => rw [heap_lifted, heap_swap_length, ih]

theorem heap_lifted_nodup (h : List Nat) (x : Nat) (hn : h.Nodup) (hx : x ∉ h) : ∀ j,
    (heap_lifted h x j).Nodup := by
  intro j
  induction j with
  | zero =>
    rw [heap_lifted, List.nodup_append]
    refine ⟨hn, List.nodup_singleton x, ?_⟩
    intro a ha hb
    simp at hb
    subst hb
    exact hx ha
  | succ j ih =>
    rw [heap_lifted]
    have h1 := heap_anc_le_self h.length j
    have h2 := heap_anc_le_self h.length (j + 1)
    exact heap_nodup_swap _ (by rw [heap_lifted_length]; omega)
      (by rw [heap_lifted_length]; omega) ih

/-- The lists that `heap_insert` goes through: the new node is in slot `heap_anc n j`, the
slots above it are still those of `h`, and so is the sibling of its slot. -/
theorem heap_lifted_spec (h : List Nat) (x : Nat) : ∀ j,
    (∀ i, i < j → 0 < heap_anc h.length i) →
    heap_get (heap_lifted h x j) (heap_anc h.length j) = x ∧
    (∀ q, q < heap_anc h.length j → heap_get (heap_lifted h x j) q = heap_get h q) ∧
    (∀ s, 0 < heap_anc h.length j → s ≠ heap_anc h.length j →
      heap_parent s = heap_parent (heap_anc h.length j) → s < h.length →
      heap_get (heap_lifted h x j) s = heap_get h s) ∧
    (0 < j → heap_get (heap_lifted h x j) h.length = heap_get h (heap_anc h.length 1)) := by
  intro j
  induction j with
  | zero =>
    intro _
    refine ⟨?_, ?_, ?_, ?_⟩
    · exact heap_get_append_right h x
    · intro q hq; exact heap_get_append_left h x hq
    · intro s _ _ _ hs; exact heap_get_append_left h x hs
    · intro hc; omega
  | succ j ih =>
    intro hv
    obtain ⟨i1, i2, i3, i4⟩ := ih (fun i hi => hv i (by omega))
    have hpos := hv j (by omega)
    have hlt := heap_anc_lt h.length j hpos
    have h1 := heap_anc_le_self h.length j
    have hl := heap_lifted_length h x j
    have hsw := heap_get_swap (heap_lifted h x j) (i := heap_anc h.length j)
      (j := heap_anc h.length (j + 1)) (by omega) (by omega)
    refine ⟨?_, ?_, ?_, ?_⟩
    · rw [heap_lifted, hsw, if_pos rfl, i1]
    · intro q hq
      rw [heap_lifted, hsw, if_neg (by omega), if_neg (by omega)]
      exact i2 q (by omega)
    · intro s hp hs1 hs2 hs3
      have e1 : heap_anc h.length (j + 1) = heap_parent (heap_anc h.length j) := rfl
      have hpp : heap_parent (heap_anc h.length (j + 1)) < heap_anc h.length (j + 1) := by
        unfold heap_parent; omega
      have hs4 : s < heap_anc h.length j := by
        unfold heap_parent at hs2 e1 hpp
        omega
      rw [heap_lifted, hsw, if_neg hs1, if_neg (by omega)]
      exact i2 s hs4
    · intro _
      rw [heap_lifted, hsw]
      by_cases hj : j = 0
      · subst hj
        have e0 : heap_anc h.length 0 = h.length := rfl
        rw [e0] at hlt ⊢
        rw [if_neg (by omega), if_pos rfl]
        exact heap_get_append_left h x (by omega)
      · have h3 := heap_anc_add_le h.length j (fun i hi => hv i (by omega))
        rw [if_neg (by omega), if_neg (by omega)]
        exact i4 (by omega)

/-- Walking the new node up from a stage of `heap_insert` ends in a later stage. -/
theorem heap_sift_up_lifted (lt : Nat → Nat → Bool) (h : List Nat) (x : Nat) (fuel : Nat) :
    ∀ j, (∀ i, i < j → 0 < heap_anc h.length i) →
    ∃ j', (∀ i, i < j' → 0 < heap_anc h.length i) ∧
      heap_sift_up lt fuel (heap_lifted h x j) (heap_anc h.length j) = heap_lifted h x j' := by
  induction fuel with
  | zero => intro j hv; exact ⟨j, hv, rfl⟩
  | succ fuel ih =>
    intro j hv
    rw [heap_sift_up]
    by_cases h0 : heap_anc h.length j = 0
    · rw [if_pos h0]; exact ⟨j, hv, rfl⟩
    · rw [if_neg h0]
      split_ifs
      · have hv' : ∀ i, i < j + 1 → 0 < heap_anc h.length i := by
          intro i hi
          by_cases e : i = j
          · subst e; omega
          · exact hv i (by omega)
        exact ih (j + 1) hv'
      · exact ⟨j, hv, rfl⟩

theorem heap_sift_up_id (lt : Nat → Nat → Bool) (h : List Nat) (ho : heap_ordered lt h)
    (fuel i : Nat) (hi : i < h.length) : heap_sift_up lt fuel h i = h := by
  cases fuel with
  | zero => rfl
  | succ fuel =>
    rw [heap_sift_up]
    by_cases h0 : i = 0
    · rw [if_pos h0]
    · rw [if_neg h0, ho i hi (by omega)]
      simp

theorem heap_ext (l1 l2 : List Nat) (hl : l1.length = l2.length)
    (h : ∀ q, q < l1.length → heap_get l1 q = heap_get l2 q) : l1 = l2 := by
  apply List.ext_getElem hl
  intro q h1 h2
  have e1 := heap_get_lt h1
  have e2 := heap_get_lt h2
  rw [List.getElem?_eq_getElem h1] at e1
  rw [List.getElem?_eq_getElem h2] at e2
  injection e1 with e1
  injection e2 with e2
  rw [e1, e2, h q h1]

/-- The list that `heap_remove` walks down when it removes the node `x` from stage `j ≥ 1` of
`heap_insert`: the parent of the first free slot stands in the slot of `x`. -/
theorem heap_lowered_get (h : List Nat) (x : Nat) (j : Nat) (hj : 0 < j)
    (hv : ∀ i, i < j → 0 < heap_anc h.length i) :
    heap_anc h.length j < h.length ∧
    ((heap_lifted h x j).dropLast.set (heap_anc h.length j)
      (heap_get h (heap_anc h.length 1))).length = h.length ∧
    ∀ q, q < h.length →
      heap_get ((heap_lifted h x j).dropLast.set (heap_anc h.length j)
        (heap_get h (heap_anc h.length 1))) q =
        if q = heap_anc h.length j then heap_get h (heap_anc h.length 1)
        else heap_get (heap_lifted h x j) q := by
  have h1 := heap_anc_add_le h.length j hv
  have hl := heap_lifted_length h x j
  refine ⟨by omega, by simp [hl], ?_⟩
  intro q hq
  rw [heap_get_set, List.length_dropLast, hl]
  by_cases e : q = heap_anc h.length j
  · rw [if_pos ⟨e, by omega⟩, if_pos e]
  · rw [if_neg (fun c => e c.1), if_neg e, heap_get_dropLast _ (by rw [hl]; omega)]

theorem heap_lowered_one (h : List Nat) (x : Nat) (hv : 0 < h.length) :
    (heap_lifted h x 1).dropLast.set (heap_anc h.length 1)
      (heap_get h (heap_anc h.length 1)) = h := by
  have hv' : ∀ i, i < 1 → 0 < heap_anc h.length i := by
    intro i hi
    have : i = 0 := by omega
    subst this
    exact hv
  obtain ⟨d1, d2, d3⟩ := heap_lowered_get h x 1 (by omega) hv'
  apply heap_ext _ _ d2
  intro q hq
  rw [d2] at hq
  rw [d3 q hq]
  by_cases e : q = heap_anc h.length 1
  · rw [if_pos e, e]
  · rw [if_neg e]
    have hsw := heap_get_swap (heap_lifted h x 0) (i := heap_anc h.length 0)
      (j := heap_anc h.length 1) (by simp [heap_lifted, heap_anc])
      (by simp [heap_lifted]; omega) q
    have e0 : heap_anc h.length 0 = h.length := rfl
    rw [heap_lifted, hsw, if_neg e, e0, if_neg (by omega)]
    exact heap_get_append_left h x hq

theorem heap_lowered_swap (h : List Nat) (x : Nat) (j : Nat) (hj : 0 < j)
    (hv : ∀ i, i < j + 1 → 0 < heap_anc h.length i) :
    heap_swap
      ((heap_lifted h x (j + 1)).dropLast.set (heap_anc h.length (j + 1))
        (heap_get h (heap_anc h.length 1)))
      (heap_anc h.length (j + 1)) (heap_anc h.length j) =
    (heap_lifted h x j).dropLast.set (heap_anc h.length j)
      (heap_get h (heap_anc h.length 1)) := by
  have hvj : ∀ i, i < j → 0 < heap_anc h.length i := fun i hi => hv i (by omega)
  obtain ⟨d1, d2, d3⟩ := heap_lowered_get h x j hj hvj
  obtain ⟨e1, e2, e3⟩ := heap_lowered_get h x (j + 1) (by omega) hv
  have hlt := heap_anc_lt h.length j (hv j (by omega))
  have hl := heap_lifted_length h x j
  apply heap_ext
  · rw [heap_swap_length, e2, d2]
  · intro q hq
    rw [heap_swap_length, e2] at hq
    have hsw := heap_get_swap (heap_lifted h x j) (i := heap_anc h.length j)
      (j := heap_anc h.length (j + 1)) (by omega) (by omega)
    rw [heap_get_swap _ (by rw [e2]; exact e1) (by rw [e2]; exact d1), d3 q hq]
    by_cases c1 : q = heap_anc h.length j
    · rw [if_pos c1, if_pos c1, e3 _ e1, if_pos rfl]
    · rw [if_neg c1, if_neg c1]
      by_cases c2 : q = heap_anc h.length (j + 1)
      · rw [if_pos c2, e3 _ d1, if_neg (by omega), heap_lifted, hsw, if_neg (by omega),
          if_pos rfl, c2]
      · rw [if_neg c2, e3 q hq, if_neg c2, heap_lifted, hsw, if_neg c2, if_neg c1]

theorem heap_key_lt_of_ne (k : Nat → Nat) (h : List Nat) (hn : h.Nodup)
    (hinj : ∀ a b, a ∈ h → b ∈ h → a ≠ b → k a ≠ k b) (p q : Nat) (hp : p < h.length)
    (hq : q < h.length) (hne : p ≠ q) (hle : k (heap_get h p) ≤ k (heap_get h q)) :
    k (heap_get h p) < k (heap_get h q) := by
  have h1 : heap_get h p ∈ h := (heap_mem_iff h _).2 ⟨p, hp, rfl⟩
  have h2 : heap_get h q ∈ h := (heap_mem_iff h _).2 ⟨q, hq, rfl⟩
  have h3 : heap_get h p ≠ heap_get h q := by
    intro e
    exact hne ((heap_nodup_iff h).1 hn p q hp hq e)
  have := hinj _ _ h1 h2 h3
  omega

section order
variable {lt : Nat → Nat → Bool} {k : Nat → Nat} (hk : ∀ a b, lt a b = true ↔ k a < k b)
include hk

theorem heap_smallest_left (g : List Nat) (i : Nat) (h1 : 2 * i + 1 < g.length)
    (h2 : k (heap_get g (2 * i + 1)) < k (heap_get g i))
    (h3 : 2 * i + 2 < g.length → k (heap_get g (2 * i + 1)) ≤ k (heap_get g (2 * i + 2))) :
    heap_smallest lt g i = 2 * i + 1 := by
  simp only [heap_smallest, hk]
  split_ifs with c1 c2 c3
  · have := h3 c2.1; omega
  · rfl
  · exact absurd ⟨h1, h2⟩ c1
  · exact absurd ⟨h1, h2⟩ c1

theorem heap_smallest_right (g : List Nat) (i : Nat) (h1 : 2 * i + 2 < g.length)
    (h2 : k (heap_get g (2 * i + 2)) < k (heap_get g i))
    (h3 : k (heap_get g (2 * i + 2)) < k (heap_get g (2 * i + 1))) :
    heap_smallest lt g i = 2 * i + 2 := by
  simp only [heap_smallest, hk]
  split_ifs with c1 c2 c3
  · rfl
  · exact absurd ⟨h1, h3⟩ c2
  · rfl
  · exact absurd ⟨h1, h2⟩ c3

/-- Along the path from the first free slot to the root the keys of an ordered heap do not
grow. -/
theorem heap_anc_key_le (h : List Nat) (ho : heap_ordered lt h) : ∀ j,
    (∀ i, i < j + 1 → 0 < heap_anc h.length i) →
    k (heap_get h (heap_anc h.length (j + 1))) ≤ k (heap_get h (heap_anc h.length 1)) := by
  rw [heap_ordered_iff hk] at ho
  intro j
  induction j with
  | zero => intro _; exact le_refl _
  | succ j ih =>
    intro hv
    have h1 := ih (fun i hi => hv i (by omega))
    have h2 := heap_anc_add_le h.length (j + 1) (fun i hi => hv i (by omega))
    have h3 := ho (heap_anc h.length (j + 1)) (by omega) (hv (j + 1) (by omega))
    have e : heap_parent (heap_anc h.length (j + 1)) = heap_anc h.length (j + 1 + 1) := rfl
    rw [e] at h3
    omega

/-- The first step of `heap_remove` down from stage `j + 1` goes to the slot the new node
came from. -/
theorem heap_lowered_smallest (h : List Nat) (x : Nat) (ho : heap_ordered lt h) (hn : h.Nodup)
    (hinj : ∀ a b, a ∈ h → b ∈ h → a ≠ b → k a ≠ k b) (j : Nat) (hj : 0 < j)
    (hv : ∀ i, i < j + 1 → 0 < heap_anc h.length i) :
    heap_smallest lt
      ((heap_lifted h x (j + 1)).dropLast.set (heap_anc h.length (j + 1))
        (heap_get h (heap_anc h.length 1)))
      (heap_anc h.length (j + 1)) = heap_anc h.length j := by
  have hvj : ∀ i, i < j → 0 < heap_anc h.length i := fun i hi => hv i (by omega)
  obtain ⟨d1, _, _⟩ := heap_lowered_get h x j hj hvj
  obtain ⟨e1, e2, e3⟩ := heap_lowered_get h x (j + 1) (by omega) hv
  obtain ⟨i1, i2, i3, _⟩ := heap_lifted_spec h x j hvj
  have hpos := hv j (by omega)
  have hlt := heap_anc_lt h.length j hpos
  have hl := heap_lifted_length h x j
  have hoo := (heap_ordered_iff hk h).1 ho
  have hsw := heap_get_swap (heap_lifted h x j) (i := heap_anc h.length j)
    (j := heap_anc h.length (j + 1)) (by omega) (by omega)
  have epar : heap_parent (heap_anc h.length j) = heap_anc h.length (j + 1) := rfl
  -- the node that is walked down
  have v0 : heap_get ((heap_lifted h x (j + 1)).dropLast.set (heap_anc h.length (j + 1))
      (heap_get h (heap_anc h.length 1))) (heap_anc h.length (j + 1)) =
      heap_get h (heap_anc h.length 1) := by
    rw [e3 _ e1, if_pos rfl]
  -- the child on the path holds the former node of the slot
  have v1 : heap_get ((heap_lifted h x (j + 1)).dropLast.set (heap_anc h.length (j + 1))
      (heap_get h (heap_anc h.length 1))) (heap_anc h.length j) =
      heap_get h (heap_anc h.length (j + 1)) := by
    rw [e3 _ d1, if_neg (by omega), heap_lifted, hsw, if_neg (by omega), if_pos rfl]
    exact i2 _ hlt
  -- the other child holds its own node
  have v2 : ∀ s, s ≠ heap_anc h.length j → heap_parent s = heap_anc h.length (j + 1) →
      0 < s → s < h.length →
      heap_get ((heap_lifted h x (j + 1)).dropLast.set (heap_anc h.length (j + 1))
        (heap_get h (heap_anc h.length 1))) s = heap_get h s := by
    intro s hs1 hs2 hs3 hs4
    have hs5 : heap_parent s < s := by unfold heap_parent; omega
    rw [e3 _ hs4, if_neg (by omega), heap_lifted, hsw, if_neg (by omega), if_neg hs1]
    exact i3 s hpos hs1 (by rw [hs2, epar]) hs4
  have k1 : k (heap_get h (heap_anc h.length (j + 1))) < k (heap_get h (heap_anc h.length 1)) := by
    have h1 := heap_anc_add_le h.length 1 (fun i hi => hv i (by omega))
    have h2 := heap_anc_add_le h.length j hvj
    have hmono : heap_anc h.length j ≤ heap_anc h.length 1 := by
      clear * - hj
      induction j with
      | zero => omega
      | succ j ih =>
        by_cases e : j = 0
        · subst e; exact le_refl _
        · exact le_trans (heap_anc_le h.length j) (ih (by omega))
    exact heap_key_lt_of_ne k h hn hinj _ _ e1 (by omega) (by omega)
      (heap_anc_key_le hk h ho j hv)
  have k2 : ∀ s, s ≠ heap_anc h.length (j + 1) → heap_parent s = heap_anc h.length (j + 1) →
      0 < s → s < h.length →
      k (heap_get h (heap_anc h.length (j + 1))) < k (heap_get h s) := by
    intro s hs1 hs2 hs3 hs4
    have := hoo s hs4 hs3
    rw [hs2] at this
    exact heap_key_lt_of_ne k h hn hinj _ _ e1 hs4 (Ne.symm hs1) this
  have hchild : heap_anc h.length j = 2 * heap_anc h.length (j + 1) + 1 ∨
      heap_anc h.length j = 2 * heap_anc h.length (j + 1) + 2 := by
    unfold heap_parent at epar; omega
  rcases hchild with hc | hc
  · -- the path goes through the left child
    rw [hc]
    apply heap_smallest_left hk
    · rw [e2]; omega
    · rw [← hc, v0, v1]; exact k1
    · intro r1
      rw [e2] at r1
      have hp2 : heap_parent (2 * heap_anc h.length (j + 1) + 2) = heap_anc h.length (j + 1) := by
        unfold heap_parent; omega
      rw [← hc, v1, v2 _ (by omega) hp2 (by omega) r1]
      exact le_of_lt (k2 _ (by omega) hp2 (by omega) r1)
  · -- the path goes through the right child
    have l1 : 2 * heap_anc h.length (j + 1) + 1 < h.length := by omega
    have hp1 : heap_parent (2 * heap_anc h.length (j + 1) + 1) = heap_anc h.length (j + 1) := by
      unfold heap_parent; omega
    rw [hc]
    apply heap_smallest_right hk
    · rw [e2]; omega
    · rw [← hc, v0, v1]; exact k1
    · rw [← hc, v1, v2 _ (by omega) hp1 (by omega) l1]
      exact k2 _ (by omega) hp1 (by omega) l1

end order
section order
variable {lt : Nat → Nat → Bool} {k : Nat → Nat} (hk : ∀ a b, lt a b = true ↔ k a < k b)
include hk

theorem heap_smallest_self (h : List Nat) (ho : heap_ordered lt h) (i : Nat) :
    heap_smallest lt h i = i := by
  have hoo := (heap_ordered_iff hk h).1 ho
  simp only [heap_smallest, hk]
  have e1 : ¬ (2 * i + 1 < h.length ∧ k (heap_get h (2 * i + 1)) < k (heap_get h i)) := by
    rintro ⟨c1, c2⟩
    have := hoo (2 * i + 1) c1 (by omega)
    have e : heap_parent (2 * i + 1) = i := by unfold heap_parent; omega
    rw [e] at this
    omega
  rw [if_neg e1]
  have e2 : ¬ (2 * i + 2 < h.length ∧ k (heap_get h (2 * i + 2)) < k (heap_get h i)) := by
    rintro ⟨c1, c2⟩
    have := hoo (2 * i + 2) c1 (by omega)
    have e : heap_parent (2 * i + 2) = i := by unfold heap_parent; omega
    rw [e] at this
    omega
  rw [if_neg e2]

/-- Walking the moved node down from stage `j + 1` brings back the heap `h`; the node comes
to rest in the parent of the first free slot. -/
theorem heap_sift_down_lowered (h : List Nat) (x : Nat) (ho : heap_ordered lt h) (hn : h.Nodup)
    (hinj : ∀ a b, a ∈ h → b ∈ h → a ≠ b → k a ≠ k b) : ∀ j,
    (∀ i, i < j + 1 → 0 < heap_anc h.length i) → ∀ fuel, j ≤ fuel →
    heap_sift_down lt fuel
      ((heap_lifted h x (j + 1)).dropLast.set (heap_anc h.length (j + 1))
        (heap_get h (heap_anc h.length 1)))
      (heap_anc h.length (j + 1)) = (h, heap_anc h.length 1) := by
  intro j
  induction j with
  | zero =>
    intro hv fuel _
    rw [heap_lowered_one h x (hv 0 (by omega))]
    cases fuel with
    | zero => rfl
    | succ fuel => rw [heap_sift_down, if_pos (heap_smallest_self hk h ho _)]
  | succ j ih =>
    intro hv fuel hf
    cases fuel with
    | zero => omega
    | succ fuel =>
      have hs := heap_lowered_smallest hk h x ho hn hinj (j + 1) (by omega) hv
      have hlt := heap_anc_lt h.length (j + 1) (hv (j + 1) (by omega))
      rw [heap_sift_down, hs, if_neg (by omega),
        heap_lowered_swap h x (j + 1) (by omega) hv]
      exact ih (fun i hi => hv i (by omega)) fuel (by omega)

/-- Removing the node that was just inserted gives back the heap, slot by slot, when the
keys of the nodes of the heap are pairwise different. -/
theorem heap_remove_insert (h : List Nat) (x : Nat) (ho : heap_ordered lt h) (hn : h.Nodup)
    (hx : x ∉ h) (hinj : ∀ a b, a ∈ h → b ∈ h → a ≠ b → k a ≠ k b) :
    heap_remove lt (heap_insert lt h x) x = h := by
  obtain ⟨j, hv, e⟩ := heap_sift_up_lifted lt h x h.length 0 (fun i hi => by omega)
  have e' : heap_insert lt h x = heap_lifted h x j := e
  rw [e']
  have hl := heap_lifted_length h x j
  obtain ⟨i1, i2, i3, i4⟩ := heap_lifted_spec h x j hv
  unfold heap_remove
  rw [if_neg (by omega), hl]
  simp only [Nat.add_sub_cancel]
  cases j with
  | zero =>
    rw [if_pos (by exact heap_get_append_right h x)]
    simp [heap_lifted]
  | succ j =>
    have h1 := heap_anc_add_le h.length (j + 1) hv
    have h2 := heap_anc_add_le h.length 1 (fun i hi => hv i (by omega))
    have hy : heap_get h (heap_anc h.length 1) ∈ h :=
      (heap_mem_iff h _).2 ⟨_, by omega, rfl⟩
    have hne : heap_get (heap_lifted h x (j + 1)) h.length ≠ x := by
      rw [i4 (by omega)]
      intro c
      exact hx (c ▸ hy)
    rw [if_neg hne, i4 (by omega)]
    have hidx : (heap_lifted h x (j + 1)).indexOf x = heap_anc h.length (j + 1) := by
      have hlt : heap_anc h.length (j + 1) < (heap_lifted h x (j + 1)).length := by omega
      have hnd := heap_lifted_nodup h x hn hx (j + 1)
      have hget := heap_get_lt hlt
      rw [List.getElem?_eq_getElem hlt, i1] at hget
      injection hget with hget
      have := List.indexOf_getElem hnd _ hlt
      rw [hget] at this
      exact this
    rw [hidx]
    rw [heap_sift_down_lowered hk h x ho hn hinj j hv (h.length + 1) (by omega)]
    simp only
    exact heap_sift_up_id lt h ho _ _ (by omega)

end order

theorem timer_keys_distinct_of_fresh (loop : uv_loop_t) (hi : timer_inv loop)
    (hf : timer_ids_fresh loop) : timer_keys_distinct loop := by
  intro a ha b hb hab hk
  have h1 := hi.start_id_lt a
  have h2 := hi.start_id_lt b
  have h3 := hf.2 a ha b hb hab
  unfold timer_key at hk
  norm_num at h1 h2 hk
  omega

theorem timer_ids_fresh_init (now : Nat) : timer_ids_fresh (uv_loop_init now) := by
  constructor <;> intro a ha <;> simp [uv_loop_init] at ha

theorem timer_ids_fresh_stop (loop : uv_loop_t) (handle : Nat) (hi : timer_inv loop)
    (hf : timer_ids_fresh loop) : timer_ids_fresh (uv_timer_stop loop handle) := by
  cases ha : (loop.timers handle).active
  · rw [uv_timer_stop_inactive loop handle ha]; exact hf
  · obtain ⟨s1, _, _, s4, _⟩ := uv_timer_stop_spec loop handle hi ha
    have hc := (uv_timer_stop_time loop handle).2
    constructor
    · intro a ha
      have := (s1 a).1 ha
      rw [s4 a this.2, hc]
      exact hf.1 a this.1
    · intro a ha b hb hab
      have h1 := (s1 a).1 ha
      have h2 := (s1 b).1 hb
      rw [s4 a h1.2, s4 b h2.2]
      exact hf.2 a h1.1 b h2.1 hab

/-- As long as `timer_counter` does not wrap around, `uv_timer_start` keeps the `start_id`s
of the timers in the heap pairwise different. -/
theorem timer_ids_fresh_start (loop : uv_loop_t) (handle : Nat) (cb : Option Nat)
    (timeout repeat_ms : Nat) (hi : timer_inv loop) (hf : timer_ids_fresh loop)
    (hw : loop.timer_counter + 1 < 2 ^ 64) :
    timer_ids_fresh (uv_timer_start loop handle cb timeout repeat_ms).2 := by
  by_cases h : (loop.timers handle).closing = true ∨ cb = none
  · rw [uv_timer_start_einval _ _ _ _ _ h]; exact hf
  · have hc : (loop.timers handle).closing = false := by
      cases hcl : (loop.timers handle).closing
      · rfl
      · exact absurd (Or.inl hcl) h
    have hcb : cb ≠ none := fun c => h (Or.inr c)
    obtain ⟨c, rfl⟩ := Option.ne_none_iff_exists'.1 hcb
    rw [uv_timer_start_stop_start _ _ _ _ _ hc hcb]
    have hf1 := timer_ids_fresh_stop loop handle hi hf
    have hct := (uv_timer_stop_time loop handle).2
    have hc1 : ((uv_timer_stop loop handle).timers handle).closing = false := by
      rw [(uv_timer_stop_flags loop handle handle).1]; exact hc
    have ha1 := uv_timer_stop_is_inactive loop handle
    obtain ⟨t1, _, t3, t4, _⟩ := uv_timer_start_spec (uv_timer_stop loop handle) handle c
      timeout repeat_ms hc1 ha1
    have tc := (uv_timer_start_inactive (uv_timer_stop loop handle) handle c timeout repeat_ms
      hc1 ha1).2.2.2.2.1
    have hnm : handle ∉ (uv_timer_stop loop handle).timer_heap := by
      rw [(timer_inv_stop loop handle hi).mem_iff, ha1]; simp
    have hmod : (loop.timer_counter + 1) % 2 ^ 64 = loop.timer_counter + 1 :=
      Nat.mod_eq_of_lt hw
    have hid : ∀ a, a ∈ (uv_timer_start (uv_timer_stop loop handle) handle (some c) timeout
        repeat_ms).2.timer_heap →
        ((a = handle ∧ ((uv_timer_start (uv_timer_stop loop handle) handle (some c) timeout
          repeat_ms).2.timers a).start_id = loop.timer_counter) ∨
        (a ≠ handle ∧ a ∈ (uv_timer_stop loop handle).timer_heap ∧
          ((uv_timer_start (uv_timer_stop loop handle) handle (some c) timeout
            repeat_ms).2.timers a).start_id < loop.timer_counter ∧
          ((uv_timer_start (uv_timer_stop loop handle) handle (some c) timeout
            repeat_ms).2.timers a).start_id =
            ((uv_timer_stop loop handle).timers a).start_id)) := by
      intro a ha
      by_cases e : a = handle
      · left
        subst e
        rw [t3]
        exact ⟨rfl, hct⟩
      · right
        have hm := ((t1 a).1 ha).resolve_left e
        rw [t4 a e]
        have := hf1.1 a hm
        rw [hct] at this
        exact ⟨e, hm, this, rfl⟩
    constructor
    · intro a ha
      rw [tc, hct, hmod]
      rcases hid a ha with ⟨_, h1⟩ | ⟨_, _, h1, _⟩ <;> omega
    · intro a ha b hb hab
      rcases hid a ha with ⟨ea, h1⟩ | ⟨ea, ma, h1, h1'⟩ <;>
        rcases hid b hb with ⟨eb, h2⟩ | ⟨eb, mb, h2, h2'⟩
      · exact absurd (ea.trans eb.symm) hab
      · omega
      · omega
      · rw [h1', h2']
        exact hf1.2 a ma b mb hab

/-- C7. For a timer that is not active and not closing and a callback that is not `NULL`,
in a loop whose active timers have pairwise different keys, `uv_timer_start` followed by
`uv_timer_stop` leaves the timer heap as it was before the start, slot by slot, leaves the
other timers as they were, and leaves the timer inactive. -/
theorem start_stop_roundtrip (loop : uv_loop_t) (handle c timeout repeat_ms : Nat)
    (hi : timer_inv loop) (hd : timer_keys_distinct loop)
    (ha : uv__is_active loop handle = false) (hc : uv__is_closing loop handle = false) :
    (uv_timer_start loop handle (some c) timeout repeat_ms).1 = 0 ∧
    (uv_timer_stop (uv_timer_start loop handle (some c) timeout repeat_ms).2 handle).timer_heap =
      loop.timer_heap ∧
    uv__is_active (uv_timer_stop (uv_timer_start loop handle (some c) timeout repeat_ms).2 handle)
      handle = false ∧
    (∀ h, h ≠ handle →
      (uv_timer_stop (uv_timer_start loop handle (some c) timeout repeat_ms).2 handle).timers h =
        loop.timers h) := by
  obtain ⟨e0, e1, e2, _, _, _⟩ := uv_timer_start_inactive loop handle c timeout repeat_ms hc ha
  have hnm : handle ∉ loop.timer_heap := by
    rw [hi.mem_iff]
    unfold uv__is_active at ha
    rw [ha]; simp
  have hact : ((uv_timer_start loop handle (some c) timeout repeat_ms).2.timers handle).active =
      true := by rw [e2]; simp
  obtain ⟨s1, s2, _, _, _⟩ := uv_timer_stop_active _ handle hact
  refine ⟨e0, ?_, uv_timer_stop_is_inactive _ _, ?_⟩
  · rw [s1, e1, e2]
    -- the timers as the heap sees them while the handle is in it
    have hless : timer_less (Function.update loop.timers handle
        { loop.timers handle with
          timer_cb := some c
          timeout := clamped_timeout loop.time timeout
          repeat_ms := repeat_ms
          start_id := loop.timer_counter
          active := true }) =
        timer_less (Function.update loop.timers handle
        { loop.timers handle with
          timer_cb := some c
          timeout := clamped_timeout loop.time timeout
          repeat_ms := repeat_ms
          start_id := loop.timer_counter }) := by
      funext a b
      simp only [timer_less, timer_less_than, Function.update_apply]
      by_cases ea : a = handle <;> by_cases eb : b = handle <;> simp only [ea, eb, if_true, if_false]
    rw [hless]
    have hb : ∀ h, ((Function.update loop.timers handle
        { loop.timers handle with
          timer_cb := some c
          timeout := clamped_timeout loop.time timeout
          repeat_ms := repeat_ms
          start_id := loop.timer_counter }) h).start_id < 2 ^ 64 := by
      intro h
      by_cases e : h = handle
      · subst e; simp; exact hi.counter_lt
      · simp only [Function.update_noteq e]; exact hi.start_id_lt h
    apply heap_remove_insert (timer_less_iff _ hb) _ _ _ hi.nodup hnm
    · intro a b ha hb hab
      have ea : a ≠ handle := fun e => hnm (e ▸ ha)
      have eb : b ≠ handle := fun e => hnm (e ▸ hb)
      simp only [Function.update_noteq ea, Function.update_noteq eb]
      exact hd a ha b hb hab
    · rw [heap_ordered_congr _ loop.timers]
      · exact hi.ordered
      · intro x hx
        have : x ≠ handle := fun e => hnm (e ▸ hx)
        simp [Function.update_noteq this]
  · intro h hne
    rw [s2, Function.update_noteq hne, e2, Function.update_noteq hne]

theorem start_stop_roundtrip_witness :
    (uv_timer_start loop_four_started 5 (some 2) 5 0).2.timer_heap = [5, 1, 3, 4, 2] ∧
    (uv_timer_stop (uv_timer_start loop_four_started 5 (some 2) 5 0).2 5).timer_heap =
      loop_four_started.timer_heap :=
  ⟨by decide,
    (start_stop_roundtrip loop_four_started 5 2 5 0 loop_four_started_inv (by decide)
      (by decide) (by decide)).2.1⟩

/-! ## The thread pool: cancellation -/

theorem work_cancellable_iff (p : threadpool) (w : Nat) :
    work_cancellable p w = true ↔
      ((p.works w).wq_empty = false ∧ (p.works w).work ≠ work_fn.null) := by
  unfold work_cancellable
  cases (p.works w).wq_empty <;> simp

theorem uv__work_cancel_busy (p : threadpool) (loop w : Nat)
    (h : work_cancellable p w = false) : uv__work_cancel p loop w = (UV_EBUSY, p) := by
  unfold uv__work_cancel uv__work_cancel_unlink
  simp [h]

theorem uv__work_cancel_ok (p : threadpool) (loop w : Nat)
    (h : work_cancellable p w = true) :
    (uv__work_cancel p loop w).1 = 0 ∧
    (uv__work_cancel p loop w).2.wq = p.wq.erase (qnode.work_req w) ∧
    (uv__work_cancel p loop w).2.slow_io_pending_wq =
        p.slow_io_pending_wq.erase (qnode.work_req w) ∧
    (uv__work_cancel p loop w).2.loop_wq loop = (p.loop_wq loop).erase w ++ [w] ∧
    (∀ l, l ≠ loop → (uv__work_cancel p loop w).2.loop_wq l = (p.loop_wq l).erase w) ∧
    (uv__work_cancel p loop w).2.works w =
      { p.works w with work := work_fn.uv__cancelled, wq_empty := false } ∧
    (∀ v, v ≠ w → (uv__work_cancel p loop w).2.works v = p.works v) ∧
    (uv__work_cancel p loop w).2.wq_async loop = true := by
  refine ⟨?_, ?_, ?_, ?_, ?_, ?_, ?_, ?_⟩
  · simp [uv__work_cancel, h]
  · simp [uv__work_cancel, uv__work_cancel_unlink, h, set_work, queue_remove_work, QUEUE_REMOVE]
  · simp [uv__work_cancel, uv__work_cancel_unlink, h, set_work, queue_remove_work, QUEUE_REMOVE]
  · simp [uv__work_cancel, uv__work_cancel_unlink, h, set_work, queue_remove_work, QUEUE_REMOVE,
      QUEUE_INSERT_TAIL]
  · intro l hl
    simp [uv__work_cancel, uv__work_cancel_unlink, h, set_work, queue_remove_work, QUEUE_REMOVE,
      Function.update_noteq hl]
  · simp [uv__work_cancel, uv__work_cancel_unlink, h, set_work, queue_remove_work]
  · intro v hv
    simp [uv__work_cancel, uv__work_cancel_unlink, h, set_work, queue_remove_work,
      Function.update_noteq hv]
  · simp [uv__work_cancel, uv__work_cancel_unlink, h, set_work, queue_remove_work]

theorem not_mem_erase_of_count_le_one {α : Type} [DecidableEq α] (l : List α) (a : α)
    (h : l.count a ≤ 1) : a ∉ l.erase a := by
  intro hm
  have h1 : 0 < (l.erase a).count a := List.count_pos_iff.2 hm
  rw [List.count_erase_self] at h1
  omega

theorem uv__work_cancel_unlink_not_queued (p : threadpool) (w : Nat) (hl : work_link_ok p w)
    (h : work_cancellable p w = true) : ¬ work_queued (uv__work_cancel_unlink p w) w := by
  unfold uv__work_cancel_unlink work_queued
  rw [if_pos h]
  simp only [queue_remove_work, QUEUE_REMOVE]
  rintro (h1 | h1 | ⟨l, h1⟩)
  · exact not_mem_erase_of_count_le_one _ _ hl.wq_once h1
  · exact not_mem_erase_of_count_le_one _ _ hl.slow_once h1
  · exact not_mem_erase_of_count_le_one _ _ (hl.loop_once l) h1

theorem worker_take_run (p : threadpool) (w : Nat) (s : Bool)
    (h : (worker_take p).1 = worker_next.run w s) :
    ((worker_take p).2.works w).wq_empty = true := by
  unfold worker_take at h ⊢
  by_cases h1 : worker_must_wait p = true
  · rw [if_pos h1] at h; simp at h
  · rw [if_neg h1] at h ⊢
    cases hq : QUEUE_HEAD p.wq with
    | none => simp [hq] at h
    | some q =>
      cases q with
      | exit_message => simp [hq] at h
      | work_req v =>
        simp only [hq, worker_next.run.injEq] at h ⊢
        simp [set_work, h.1]
      | run_slow_work_message =>
        simp only [hq] at h ⊢
        by_cases h2 : p.slow_io_work_running ≥ slow_work_thread_threshold
            { p with
              wq := QUEUE_REMOVE p.wq qnode.run_slow_work_message
              run_slow_work_message_empty := true }
        · rw [if_pos h2] at h; simp at h
        · rw [if_neg h2] at h ⊢
          by_cases h3 : QUEUE_EMPTY p.slow_io_pending_wq = true
          · rw [if_pos h3] at h; simp at h
          · rw [if_neg h3] at h ⊢
            cases hs : QUEUE_HEAD p.slow_io_pending_wq with
            | none => simp [hs] at h
            | some v =>
              simp only [hs] at h ⊢
              cases v with
              | exit_message => split_ifs at h <;> simp [worker_run] at h
              | run_slow_work_message => split_ifs at h <;> simp [worker_run] at h
              | work_req v =>
                split_ifs at h ⊢ with h4
                · simp only [worker_run, worker_next.run.injEq] at h
                  simp [queue_init, set_work, h.1]
                · simp only [worker_run, worker_next.run.injEq] at h
                  simp [queue_init, set_work, h.1]

/-- C10. For a work item whose link is sound, `uv__work_cancel` returns 0 exactly when the
item is linked into a queue and its `work` is not `NULL`; it has then been unlinked from the
queues of the pool (after the first critical section it is in no queue at all) and stands at
the tail of the completion queue of the loop. Otherwise the call returns `UV_EBUSY` and
changes nothing. An item that a worker has taken from a queue, or has completed, is reported
busy. -/
theorem work_cancel_contract (p : threadpool) (loop w : Nat) (hl : work_link_ok p w) :
    ((uv__work_cancel p loop w).1 = 0 ↔
      (work_queued p w ∧ (p.works w).work ≠ work_fn.null)) ∧
    ((uv__work_cancel p loop w).1 = 0 →
      ¬ work_queued (uv__work_cancel_unlink p w) w ∧
      (uv__work_cancel p loop w).2.wq = p.wq.erase (qnode.work_req w) ∧
      qnode.work_req w ∉ (uv__work_cancel p loop w).2.wq ∧
      (uv__work_cancel p loop w).2.slow_io_pending_wq =
        p.slow_io_pending_wq.erase (qnode.work_req w) ∧
      qnode.work_req w ∉ (uv__work_cancel p loop w).2.slow_io_pending_wq ∧
      (uv__work_cancel p loop w).2.loop_wq loop = (p.loop_wq loop).erase w ++ [w]) ∧
    ((uv__work_cancel p loop w).1 ≠ 0 → uv__work_cancel p loop w = (UV_EBUSY, p)) ∧
    (∀ q s, (worker_take q).1 = worker_next.run w s →
      uv__work_cancel (worker_take q).2 loop w = (UV_EBUSY, (worker_take q).2)) ∧
    (∀ q, uv__work_cancel (worker_done q w) loop w = (UV_EBUSY, worker_done q w)) := by
  refine ⟨?_, ?_, ?_, ?_, ?_⟩
  · rw [← hl.linked_iff, ← work_cancellable_iff]
    cases h : work_cancellable p w
    · rw [uv__work_cancel_busy p loop w h]; simp [UV_EBUSY]
    · simp [(uv__work_cancel_ok p loop w h).1]
  · intro h0
    cases h : work_cancellable p w
    · rw [uv__work_cancel_busy p loop w h] at h0; simp [UV_EBUSY] at h0
    · obtain ⟨_, e1, e2, e3, _⟩ := uv__work_cancel_ok p loop w h
      refine ⟨uv__work_cancel_unlink_not_queued p w hl h, e1, ?_, e2, ?_, e3⟩
      · rw [e1]; exact not_mem_erase_of_count_le_one _ _ hl.wq_once
      · rw [e2]; exact not_mem_erase_of_count_le_one _ _ hl.slow_once
  · intro h0
    cases h : work_cancellable p w
    · exact uv__work_cancel_busy p loop w h
    · exact absurd (uv__work_cancel_ok p loop w h).1 h0
  · intro q s h
    apply uv__work_cancel_busy
    unfold work_cancellable
    rw [worker_take_run q w s h]; rfl
  · intro q
    apply uv__work_cancel_busy
    simp [work_cancellable, worker_done, set_work]

theorem pool_three_items_link_ok : work_link_ok pool_three_items 1 :=
  ⟨⟨fun _ => Or.inl (by decide), fun _ => by decide⟩, by decide, by decide, fun _ => by simp [pool_three_items]⟩

theorem work_cancel_contract_witness :
    (uv__work_cancel pool_three_items 0 1).1 = 0 ∧
    (uv__work_cancel pool_three_items 0 1).2.wq = [qnode.run_slow_work_message] ∧
    (uv__work_cancel pool_three_items 0 1).2.loop_wq 0 = [1] := by
  have h := work_cancel_contract pool_three_items 0 1 pool_three_items_link_ok
  have h0 : (uv__work_cancel pool_three_items 0 1).1 = 0 := h.1.2 ⟨Or.inl (by decide), by decide⟩
  exact ⟨h0, by rw [(h.2.1 h0).2.1]; decide, by rw [(h.2.1 h0).2.2.2.2.2]; decide⟩


/-! ## Starting a timer with invalid arguments -/

theorem uv_timer_start_zero (loop : uv_loop_t) (handle : Nat) (cb : Option Nat)
    (timeout repeat_ms : Nat)
    (h : ¬ ((loop.timers handle).closing = true ∨ cb = none)) :
    (uv_timer_start loop handle cb timeout repeat_ms).1 = 0 := by
  have h1 : (loop.timers handle).closing = false := by
    cases hc : (loop.timers handle).closing
    · rfl
    · exact absurd (Or.inl hc) h
  obtain ⟨c, rfl⟩ := Option.ne_none_iff_exists'.1 (fun c => h (Or.inr c))
  simp [uv_timer_start, uv__is_closing, h1]

/-- C18. `uv_timer_start` returns `UV_EINVAL` exactly when the handle is closing or the
callback is `NULL`; the loop is then left as it was, with the timer (deadline, repeat,
callback, `start_id`, active state), the heap and `timer_counter`. In every other case it
returns 0. -/
theorem timer_start_einval_iff (loop : uv_loop_t) (handle : Nat) (cb : Option Nat)
    (timeout repeat_ms : Nat) :
    ((uv_timer_start loop handle cb timeout repeat_ms).1 = UV_EINVAL ↔
      ((loop.timers handle).closing = true ∨ cb = none)) ∧
    (((loop.timers handle).closing = true ∨ cb = none) →
      uv_timer_start loop handle cb timeout repeat_ms = (UV_EINVAL, loop)) ∧
    (¬ ((loop.timers handle).closing = true ∨ cb = none) →
      (uv_timer_start loop handle cb timeout repeat_ms).1 = 0) := by
  refine ⟨⟨fun h => ?_, fun h => ?_⟩, uv_timer_start_einval loop handle cb timeout repeat_ms,
    uv_timer_start_zero loop handle cb timeout repeat_ms⟩
  · by_contra hn
    rw [uv_timer_start_zero loop handle cb timeout repeat_ms hn] at h
    simp [UV_EINVAL] at h
  · rw [uv_timer_start_einval loop handle cb timeout repeat_ms h]

theorem timer_start_einval_iff_witness :
    (uv_timer_start loop_one_timer 7 none 5 3).1 = UV_EINVAL ∧
    (uv_timer_start loop_one_timer 7 none 5 3).2.timer_heap = [7] ∧
    ((uv_timer_start loop_one_timer 7 none 5 3).2.timers 7).timeout = 10 ∧
    (uv_timer_start loop_one_timer 7 (some 2) 5 3).1 = 0 := by
  have h := timer_start_einval_iff loop_one_timer 7 none 5 3
  have e := h.2.1 (Or.inr rfl)
  refine ⟨by rw [e], by rw [e]; decide, by rw [e]; decide, ?_⟩
  exact (timer_start_einval_iff loop_one_timer 7 (some 2) 5 3).2.2 (by decide)

/-! ## Configuring the loop -/

/-- C19, refuted as stated. For option 1, which is not `UV_LOOP_BLOCK_SIGNAL`,
`uv__loop_configure` returns `UV_ENOSYS`, which is not `UV_EINVAL`. -/
theorem loop_configure_unsupported_not_einval :
    (1 : Int) ≠ UV_LOOP_BLOCK_SIGNAL ∧
    uv__loop_configure 0 1 SIGPROF = (UV_ENOSYS, 0) ∧
    (uv__loop_configure 0 1 SIGPROF).1 ≠ UV_EINVAL := by
  decide

/-- C19, amended. For every option other than `UV_LOOP_BLOCK_SIGNAL`, `uv__loop_configure`
returns `UV_ENOSYS` and leaves the flags of the loop unchanged. It returns `UV_EINVAL`
exactly when the option is `UV_LOOP_BLOCK_SIGNAL` and the signal is not `SIGPROF`, again
with the flags unchanged. -/
theorem loop_configure_unsupported (flags : Nat) (option ap : Int) :
    (option ≠ UV_LOOP_BLOCK_SIGNAL → uv__loop_configure flags option ap = (UV_ENOSYS, flags)) ∧
    ((uv__loop_configure flags option ap).1 = UV_EINVAL ↔
      (option = UV_LOOP_BLOCK_SIGNAL ∧ ap ≠ SIGPROF)) ∧
    ((uv__loop_configure flags option ap).1 = UV_EINVAL →
      (uv__loop_configure flags option ap).2 = flags) := by
  unfold uv__loop_configure
  by_cases h1 : option = UV_LOOP_BLOCK_SIGNAL
  · by_cases h2 : ap = SIGPROF
    · simp [h1, h2, UV_EINVAL]
    · simp [h1, h2]
  · simp [h1, UV_ENOSYS, UV_EINVAL]

theorem loop_configure_unsupported_witness :
    uv__loop_configure 4 7 SIGPROF = (UV_ENOSYS, 4) :=
  (loop_configure_unsupported 4 7 SIGPROF).1 (by decide)


/-! ## The size of the pool -/

theorem atoi_digits_cons_not_digit (c : Char) (cs : List Char) (acc : Nat)
    (h : ¬ (48 ≤ c.toNat ∧ c.toNat ≤ 57)) : atoi_digits (c :: cs) acc = acc := by
  simp only [atoi_digits, if_neg h]

theorem atoi_not_numeric (s : String) (h : atoi_numeric s = false) : atoi s = 0 := by
  unfold atoi_numeric at h
  unfold atoi
  cases hl : s.toList.dropWhile atoi_space with
  | nil => rfl
  | cons c cs =>
    simp only [hl] at h ⊢
    by_cases h1 : c.toNat = 45
    · rw [if_pos h1]
      rw [if_pos (Or.inl h1)] at h
      cases cs with
      | nil => simp [atoi_digits]
      | cons d ds =>
        simp only [decide_eq_false_iff_not] at h
        rw [atoi_digits_cons_not_digit d ds 0 h]; simp
    · rw [if_neg h1]
      by_cases h2 : c.toNat = 43
      · rw [if_pos h2]
        rw [if_pos (Or.inr h2)] at h
        cases cs with
        | nil => simp [atoi_digits]
        | cons d ds =>
          simp only [decide_eq_false_iff_not] at h
          rw [atoi_digits_cons_not_digit d ds 0 h]; simp
      · rw [if_neg h2]
        rw [if_neg (by tauto)] at h
        simp only [decide_eq_false_iff_not] at h
        rw [atoi_digits_cons_not_digit c cs 0 h]; simp

theorem init_threads_nthreads_some (v : String) :
    init_threads_nthreads (some v) true =
      if to_unsigned (atoi v) = 0 then 1
      else if to_unsigned (atoi v) > 1024 then 1024 else to_unsigned (atoi v) := by
  unfold init_threads_nthreads MAX_THREADPOOL_SIZE default_threads_size
  simp only []
  split_ifs <;> omega

/-- C16, refuted as stated. The text `-1` is parsed as the integer -1, a value below 1, and
`init_threads` chooses 1024 threads for it, not 1: the `int` is stored in the
`unsigned int` `nthreads` before the bounds are applied. -/
theorem init_threads_negative_size :
    atoi "-1" = -1 ∧
    init_threads_nthreads (some "-1") true = 1024 ∧
    (init_threads (some "-1") true (pool_static work_memory_zero)).nthreads = 1024 := by
  refine ⟨by decide, by decide, by decide⟩


/-- C16, amended. With the allocation of the thread array succeeding, `init_threads`
chooses 4 threads when the variable is unset. Otherwise, for the `int` that `atoi` reads:
0 (as for a text that holds no number) gives 1, a negative value gives 1024, a value in
[1, 1024] is used as it is, and a value above 1024 gives 1024. -/
theorem init_threads_size (val : Option String) (p : threadpool) :
    (val = none → (init_threads val true p).nthreads = 4) ∧
    (∀ v, val = some v → atoi_numeric v = false → (init_threads val true p).nthreads = 1) ∧
    (∀ v, val = some v → -2 ^ 31 ≤ atoi v → atoi v < 2 ^ 31 →
      (atoi v = 0 → (init_threads val true p).nthreads = 1) ∧
      (atoi v < 0 → (init_threads val true p).nthreads = 1024) ∧
      (1 ≤ atoi v → atoi v ≤ 1024 → ((init_threads val true p).nthreads : Int) = atoi v) ∧
      (1024 < atoi v → (init_threads val true p).nthreads = 1024)) := by
  refine ⟨?_, ?_, ?_⟩
  · rintro rfl; rfl
  · rintro v rfl h
    show init_threads_nthreads (some v) true = 1
    rw [init_threads_nthreads_some, atoi_not_numeric v h]
    rfl
  · rintro v rfl hlo hhi
    show (atoi v = 0 → init_threads_nthreads (some v) true = 1) ∧
      (atoi v < 0 → init_threads_nthreads (some v) true = 1024) ∧
      (1 ≤ atoi v → atoi v ≤ 1024 → (init_threads_nthreads (some v) true : Int) = atoi v) ∧
      (1024 < atoi v → init_threads_nthreads (some v) true = 1024)
    rw [init_threads_nthreads_some]
    unfold to_unsigned
    refine ⟨fun h => ?_, fun h => ?_, fun h1 h2 => ?_, fun h => ?_⟩
    · rw [h]; rfl
    · have e : (atoi v % 2 ^ 32).toNat = (atoi v + 2 ^ 32).toNat := by
        congr 1; omega
      rw [e]
      split_ifs <;> omega
    · have e : (atoi v % 2 ^ 32) = atoi v := by omega
      rw [e]
      split_ifs <;> omega
    · have e : (atoi v % 2 ^ 32) = atoi v := by omega
      rw [e]
      split_ifs <;> omega

theorem init_threads_size_witness :
    (init_threads none true (pool_static work_memory_zero)).nthreads = 4 ∧
    (init_threads (some "many") true (pool_static work_memory_zero)).nthreads = 1 ∧
    (init_threads (some " -3") true (pool_static work_memory_zero)).nthreads = 1024 ∧
    ((init_threads (some "8") true (pool_static work_memory_zero)).nthreads : Int) = atoi "8" ∧
    (init_threads (some "4000") true (pool_static work_memory_zero)).nthreads = 1024 := by
  have h := init_threads_size
  exact ⟨(h none _).1 rfl, (h (some "many") _).2.1 _ rfl (by decide),
    ((h (some " -3") _).2.2 _ rfl (by decide) (by decide)).2.1 (by decide),
    ((h (some "8") _).2.2 _ rfl (by decide) (by decide)).2.2.1 (by decide) (by decide),
    ((h (some "4000") _).2.2 _ rfl (by decide) (by decide)).2.2.2 (by decide)⟩


/-! ## The thread pool: completion -/

/-- The status that `uv__work_done` passes to `w->done`. -/
theorem uv__work_done_loop_calls (cbs : work_done_cbs)
    (hw : ∀ w e q v, ((cbs w e q).works v).work = (q.works v).work)
    (l : List Nat) (p : threadpool) :
    (uv__work_done_loop cbs l p).2 =
      l.map (fun w =>
        (w, if (p.works w).work = work_fn.uv__cancelled then UV_ECANCELED else 0)) := by
  induction l generalizing p with
  | nil => rfl
  | cons w l ih =>
    simp only [uv__work_done_loop, List.map_cons]
    rw [ih]
    simp only [hw]

theorem uv__work_done_loop_wq (cbs : work_done_cbs)
    (hq : ∀ w e q, (cbs w e q).loop_wq = q.loop_wq)
    (l : List Nat) (p : threadpool) :
    (uv__work_done_loop cbs l p).1.loop_wq = p.loop_wq := by
  induction l generalizing p with
  | nil => rfl
  | cons w l ih =>
    simp only [uv__work_done_loop]
    rw [ih, hq]

theorem uv__work_done_loop_idle (l : List Nat) (p : threadpool) :
    (uv__work_done_loop idle_done_cbs l p).1 = p := by
  induction l generalizing p with
  | nil => rfl
  | cons w l ih =>
    simp only [uv__work_done_loop]
    rw [ih]; rfl

theorem uv__work_done_calls (cbs : work_done_cbs)
    (hw : ∀ w e q v, ((cbs w e q).works v).work = (q.works v).work)
    (p : threadpool) (loop : Nat) :
    (uv__work_done cbs p loop).2 =
      (p.loop_wq loop).map (fun w =>
        (w, if (p.works w).work = work_fn.uv__cancelled then UV_ECANCELED else 0)) := by
  unfold uv__work_done
  rw [uv__work_done_loop_calls cbs hw]

theorem count_map_fst {α : Type} (l : List Nat) (f : Nat → α) (w : Nat) :
    ((l.map (fun v => (v, f v))).map Prod.fst).count w = l.count w := by
  rw [List.map_map]
  have : (Prod.fst ∘ fun v => (v, f v)) = id := by funext v; rfl
  rw [this, List.map_id]

/-- C12. For `done` callbacks that touch neither the completion queues nor the `work`
fields, `uv__work_done` leaves the completion queue of the loop empty and calls `done` for
the members of the queue in their order, each as often as it is in the queue (once), with
`UV_ECANCELED` when `work` is `uv__cancelled` and 0 otherwise. -/
theorem work_done_drains_in_order (cbs : work_done_cbs) (p : threadpool) (loop : Nat)
    (hq : ∀ w e q, (cbs w e q).loop_wq = q.loop_wq)
    (hw : ∀ w e q v, ((cbs w e q).works v).work = (q.works v).work) :
    (uv__work_done cbs p loop).1.loop_wq loop = [] ∧
    (uv__work_done cbs p loop).2 =
      (p.loop_wq loop).map (fun w =>
        (w, if (p.works w).work = work_fn.uv__cancelled then UV_ECANCELED else 0)) ∧
    (uv__work_done cbs p loop).2.map Prod.fst = p.loop_wq loop ∧
    (∀ w, ((uv__work_done cbs p loop).2.map Prod.fst).count w = (p.loop_wq loop).count w) ∧
    (∀ l, l ≠ loop → (uv__work_done cbs p loop).1.loop_wq l = p.loop_wq l) := by
  have e := uv__work_done_calls cbs hw p loop
  refine ⟨?_, e, ?_, ?_, ?_⟩
  · unfold uv__work_done
    rw [uv__work_done_loop_wq cbs hq]
    simp
  · rw [e, List.map_map]
    have : (Prod.fst ∘ fun w =>
        (w, if (p.works w).work = work_fn.uv__cancelled then UV_ECANCELED else 0)) = id := by
      funext v; rfl
    rw [this, List.map_id]
  · intro w
    rw [e, count_map_fst]
  · intro l hl
    unfold uv__work_done
    rw [uv__work_done_loop_wq cbs hq]
    simp [Function.update_noteq hl]

theorem work_done_drains_in_order_witness :
    (uv__work_done idle_done_cbs pool_completed 0).1.loop_wq 0 = [] ∧
    (uv__work_done idle_done_cbs pool_completed 0).2 =
      [(3, 0), (1, UV_ECANCELED), (2, 0)] := by
  have h := work_done_drains_in_order idle_done_cbs pool_completed 0 (fun _ _ _ => rfl)
    (fun _ _ _ _ => rfl)
  exact ⟨h.1, by rw [h.2.1]; decide⟩

/-! ## The thread pool: a cancelled item is completed with `UV_ECANCELED` -/

theorem worker_take_run_mem (p : threadpool) (w : Nat) (s : Bool)
    (h : (worker_take p).1 = worker_next.run w s) :
    qnode.work_req w ∈ p.wq ∨ qnode.work_req w ∈ p.slow_io_pending_wq := by
  unfold worker_take at h
  by_cases h1 : worker_must_wait p = true
  · rw [if_pos h1] at h; simp at h
  · rw [if_neg h1] at h
    cases hq : QUEUE_HEAD p.wq with
    | none => simp [hq] at h
    | some q =>
      cases q with
      | exit_message => simp [hq] at h
      | work_req v =>
        simp only [hq, worker_next.run.injEq] at h
        left
        rw [← h.1]
        exact List.mem_of_mem_head? hq
      | run_slow_work_message =>
        simp only [hq] at h
        by_cases h2 : p.slow_io_work_running ≥ slow_work_thread_threshold
            { p with
              wq := QUEUE_REMOVE p.wq qnode.run_slow_work_message
              run_slow_work_message_empty := true }
        · rw [if_pos h2] at h; simp at h
        · rw [if_neg h2] at h
          by_cases h3 : QUEUE_EMPTY p.slow_io_pending_wq = true
          · rw [if_pos h3] at h; simp at h
          · rw [if_neg h3] at h
            cases hs : QUEUE_HEAD p.slow_io_pending_wq with
            | none => simp [hs] at h
            | some v =>
              simp only [hs] at h
              right
              cases v with
              | exit_message => split_ifs at h <;> simp [worker_run] at h
              | run_slow_work_message => split_ifs at h <;> simp [worker_run] at h
              | work_req v =>
                have hv : v = w := by
                  split_ifs at h <;> simp only [worker_run, worker_next.run.injEq] at h <;>
                    exact h.1
                rw [← hv]
                exact List.mem_of_mem_head? hs

theorem filter_fst_map_of_count_one {α : Type} (f : Nat → α) (w : Nat) (l : List Nat)
    (h : l.count w = 1) :
    (l.map (fun v => (v, f v))).filter (fun c => decide (c.1 = w)) = [(w, f w)] := by
  induction l with
  | nil => simp at h
  | cons a l ih =>
    by_cases e : a = w
    · subst e
      have h0 : l.count a = 0 := by simpa using h
      have hn : a ∉ l := List.count_eq_zero.1 h0
      simp only [List.map_cons, List.filter_cons, decide_True, if_true, List.cons.injEq,
        true_and]
      rw [List.filter_eq_nil_iff]
      intro c hc
      obtain ⟨v, hv, rfl⟩ := List.mem_map.1 hc
      simp only [decide_eq_true_eq]
      rintro rfl
      exact hn hv
    · have h1 : l.count w = 1 := by
        rw [List.count_cons_of_ne (fun c => e c.symm)] at h; exact h
      simp only [List.map_cons, List.filter_cons, e, decide_False]
      exact ih h1

/-- C11. For a work item with sound links, such as one that waits in `wq` or
`slow_io_pending_wq`, after `uv__work_cancel` has returned 0: the item is in neither queue
of the pool and no worker takes it; its `work` is `uv__cancelled`; it is once in the completion queue of the loop;
and as long as that holds, `uv__work_done` on the loop calls its `done` exactly once, with
`UV_ECANCELED`. -/
theorem work_cancel_then_done (p : threadpool) (loop w : Nat) (hl : work_link_ok p w)
    (h0 : (uv__work_cancel p loop w).1 = 0) :
    qnode.work_req w ∉ (uv__work_cancel p loop w).2.wq ∧
    qnode.work_req w ∉ (uv__work_cancel p loop w).2.slow_io_pending_wq ∧
    (∀ s, (worker_take (uv__work_cancel p loop w).2).1 ≠ worker_next.run w s) ∧
    ((uv__work_cancel p loop w).2.works w).work = work_fn.uv__cancelled ∧
    ((uv__work_cancel p loop w).2.loop_wq loop).count w = 1 ∧
    (uv__work_done idle_done_cbs (uv__work_cancel p loop w).2 loop).2.filter
      (fun c => decide (c.1 = w)) = [(w, UV_ECANCELED)] ∧
    (∀ q : threadpool, (q.loop_wq loop).count w = 1 →
      (q.works w).work = work_fn.uv__cancelled →
      (uv__work_done idle_done_cbs q loop).2.filter (fun c => decide (c.1 = w)) =
        [(w, UV_ECANCELED)]) := by
  have hc : work_cancellable p w = true := by
    cases h : work_cancellable p w
    · rw [uv__work_cancel_busy p loop w h] at h0; simp [UV_EBUSY] at h0
    · rfl
  obtain ⟨_, e1, e2, e3, _, e5, _, _⟩ := uv__work_cancel_ok p loop w hc
  have n1 : qnode.work_req w ∉ (uv__work_cancel p loop w).2.wq := by
    rw [e1]; exact not_mem_erase_of_count_le_one _ _ hl.wq_once
  have n2 : qnode.work_req w ∉ (uv__work_cancel p loop w).2.slow_io_pending_wq := by
    rw [e2]; exact not_mem_erase_of_count_le_one _ _ hl.slow_once
  have hcount : ((uv__work_cancel p loop w).2.loop_wq loop).count w = 1 := by
    rw [e3, List.count_append, List.count_erase_self]
    have := hl.loop_once loop
    simp only [List.count_singleton_self]
    omega
  have hwork : ((uv__work_cancel p loop w).2.works w).work = work_fn.uv__cancelled := by
    rw [e5]
  have hgen : ∀ q : threadpool, (q.loop_wq loop).count w = 1 →
      (q.works w).work = work_fn.uv__cancelled →
      (uv__work_done idle_done_cbs q loop).2.filter (fun c => decide (c.1 = w)) =
        [(w, UV_ECANCELED)] := by
    intro q hq1 hq2
    rw [uv__work_done_calls idle_done_cbs (fun _ _ _ _ => rfl),
      filter_fst_map_of_count_one _ w _ hq1, if_pos hq2]
  refine ⟨n1, n2, ?_, hwork, hcount, hgen _ hcount hwork, hgen⟩
  intro s hs
  rcases worker_take_run_mem _ w s hs with h | h
  · exact n1 h
  · exact n2 h

theorem work_cancel_then_done_witness :
    qnode.work_req 1 ∈ pool_three_items.wq ∧
    (uv__work_cancel pool_three_items 0 1).2.wq = [qnode.run_slow_work_message] ∧
    ((uv__work_cancel pool_three_items 0 1).2.loop_wq 0).count 1 = 1 ∧
    (uv__work_done idle_done_cbs (uv__work_cancel pool_three_items 0 1).2 0).2.filter
      (fun c => decide (c.1 = 1)) = [(1, UV_ECANCELED)] := by
  have h := work_cancel_then_done pool_three_items 0 1 pool_three_items_link_ok
    (by decide)
  exact ⟨by decide, by decide, h.2.2.2.2.1, h.2.2.2.2.2.1⟩


/-! ## The thread pool: the steps of an execution -/

/-- The outcomes of `worker_take`, with the state that each leaves. -/
theorem worker_take_cases (p : threadpool)
    (hs : ∀ q ∈ p.slow_io_pending_wq, ∃ w, q = qnode.work_req w) :
    ((worker_take p).2 = p ∧ ∀ w s, (worker_take p).1 ≠ worker_next.run w s) ∨
    (∃ w rest, p.wq = qnode.work_req w :: rest ∧
      worker_take p = (worker_next.run w false,
        set_work { p with wq := rest } w { p.works w with wq_empty := true })) ∨
    (∃ rest, p.wq = qnode.run_slow_work_message :: rest ∧
      worker_take p = (worker_next.again,
        { p with
          wq := rest ++ [qnode.run_slow_work_message]
          run_slow_work_message_empty := false })) ∨
    (∃ rest, p.wq = qnode.run_slow_work_message :: rest ∧ p.slow_io_pending_wq = [] ∧
      worker_take p = (worker_next.again,
        { p with wq := rest, run_slow_work_message_empty := true })) ∨
    (∃ rest w srest, p.wq = qnode.run_slow_work_message :: rest ∧
      p.slow_io_pending_wq = qnode.work_req w :: srest ∧ srest ≠ [] ∧
      p.slow_io_work_running < slow_work_thread_threshold p ∧
      worker_take p = (worker_next.run w true,
        set_work
          { p with
            wq := rest ++ [qnode.run_slow_work_message]
            run_slow_work_message_empty := false
            slow_io_work_running := (p.slow_io_work_running + 1) % 2 ^ 32
            slow_io_pending_wq := srest } w { p.works w with wq_empty := true })) ∨
    (∃ rest w, p.wq = qnode.run_slow_work_message :: rest ∧
      p.slow_io_pending_wq = [qnode.work_req w] ∧
      p.slow_io_work_running < slow_work_thread_threshold p ∧
      worker_take p = (worker_next.run w true,
        set_work
          { p with
            wq := rest
            run_slow_work_message_empty := true
            slow_io_work_running := (p.slow_io_work_running + 1) % 2 ^ 32
            slow_io_pending_wq := [] } w { p.works w with wq_empty := true })) := by
  by_cases h1 : worker_must_wait p = true
  · left
    have e : worker_take p = (worker_next.wait, p) := by
      unfold worker_take; rw [if_pos h1]
    rw [e]
    exact ⟨rfl, fun _ _ h => by cases h⟩
  · cases hq : p.wq with
    | nil =>
      left
      have e : worker_take p = (worker_next.wait, p) := by
        unfold worker_take; rw [if_neg h1]
        simp only [QUEUE_HEAD, hq, List.head?_nil]
      rw [e]
      exact ⟨rfl, fun _ _ h => by cases h⟩
    | cons q rest =>
      cases q with
      | exit_message =>
        left
        have e : worker_take p = (worker_next.exit, p) := by
          unfold worker_take; rw [if_neg h1]
          simp only [QUEUE_HEAD, hq, List.head?_cons]
        rw [e]
        exact ⟨rfl, fun _ _ h => by cases h⟩
      | work_req w =>
        right; left
        refine ⟨w, rest, rfl, ?_⟩
        unfold worker_take
        rw [if_neg h1]
        simp only [QUEUE_HEAD, QUEUE_REMOVE, hq, List.head?_cons, List.erase_cons_head]
      | run_slow_work_message =>
        right; right
        by_cases h2 : p.slow_io_work_running ≥ slow_work_thread_threshold p
        · left
          refine ⟨rest, rfl, ?_⟩
          unfold worker_take
          rw [if_neg h1]
          simp only [slow_work_thread_threshold] at h2
          simp only [QUEUE_HEAD, QUEUE_REMOVE, QUEUE_INSERT_TAIL, hq, List.head?_cons,
            List.erase_cons_head, slow_work_thread_threshold, ge_iff_le]
          rw [if_pos h2]
        · right
          cases hsq : p.slow_io_pending_wq with
          | nil =>
            left
            refine ⟨rest, rfl, rfl, ?_⟩
            unfold worker_take
            rw [if_neg h1]
            simp only [slow_work_thread_threshold] at h2
            simp only [QUEUE_HEAD, QUEUE_REMOVE, QUEUE_EMPTY, hq, List.head?_cons,
              List.erase_cons_head, ge_iff_le, slow_work_thread_threshold, hsq,
              List.isEmpty_nil, if_true]
            rw [if_neg h2]
          | cons sq srest =>
            right
            obtain ⟨w, rfl⟩ := hs sq (by rw [hsq]; exact List.mem_cons_self _ _)
            cases srest with
            | nil =>
              right
              refine ⟨rest, w, rfl, rfl, not_le.1 h2, ?_⟩
              unfold worker_take
              rw [if_neg h1]
              simp only [slow_work_thread_threshold] at h2
              simp [QUEUE_HEAD, QUEUE_REMOVE, QUEUE_EMPTY, hq, hsq, queue_init,
                worker_run, set_work, slow_work_thread_threshold]
              omega
            | cons sq2 srest =>
              left
              refine ⟨rest, w, sq2 :: srest, rfl, rfl, by simp, not_le.1 h2, ?_⟩
              unfold worker_take
              rw [if_neg h1]
              simp only [slow_work_thread_threshold] at h2
              simp [QUEUE_HEAD, QUEUE_REMOVE, QUEUE_EMPTY, QUEUE_INSERT_TAIL, hq, hsq,
                queue_init, worker_run, set_work, slow_work_thread_threshold]
              omega

theorem uv__work_submit_fast (p : threadpool) (loop w : Nat) (kind : uv__work_kind)
    (work : work_fn) (done : Option Nat) (hk : kind ≠ uv__work_kind.UV__WORK_SLOW_IO) :
    uv__work_submit p loop w kind work done =
      { p with
        wq := p.wq ++ [qnode.work_req w]
        works := Function.update p.works w
          { work := work, done := done, loop := loop, wq_empty := false } } := by
  simp [uv__work_submit, post, hk, queue_linked, set_work, QUEUE_INSERT_TAIL]

theorem uv__work_submit_slow_linked (p : threadpool) (loop w : Nat)
    (work : work_fn) (done : Option Nat) (hf : p.run_slow_work_message_empty = false) :
    uv__work_submit p loop w uv__work_kind.UV__WORK_SLOW_IO work done =
      { p with
        slow_io_pending_wq := p.slow_io_pending_wq ++ [qnode.work_req w]
        works := Function.update p.works w
          { work := work, done := done, loop := loop, wq_empty := false } } := by
  simp [uv__work_submit, post, hf, queue_linked, set_work, QUEUE_INSERT_TAIL]

theorem uv__work_submit_slow_unlinked (p : threadpool) (loop w : Nat)
    (work : work_fn) (done : Option Nat) (hf : p.run_slow_work_message_empty = true) :
    uv__work_submit p loop w uv__work_kind.UV__WORK_SLOW_IO work done =
      { p with
        slow_io_pending_wq := p.slow_io_pending_wq ++ [qnode.work_req w]
        wq := p.wq ++ [qnode.run_slow_work_message]
        run_slow_work_message_empty := false
        works := Function.update p.works w
          { work := work, done := done, loop := loop, wq_empty := false } } := by
  simp [uv__work_submit, post, hf, queue_linked, set_work, QUEUE_INSERT_TAIL]

theorem uv__work_cancel_state (p : threadpool) (loop w : Nat)
    (h : work_cancellable p w = true) :
    uv__work_cancel p loop w =
      (0, { p with
        wq := p.wq.erase (qnode.work_req w)
        slow_io_pending_wq := p.slow_io_pending_wq.erase (qnode.work_req w)
        loop_wq := Function.update (fun l => (p.loop_wq l).erase w) loop
          ((p.loop_wq loop).erase w ++ [w])
        wq_async := Function.update p.wq_async loop true
        works := Function.update p.works w
          { p.works w with work := work_fn.uv__cancelled, wq_empty := false } }) := by
  simp [uv__work_cancel, uv__work_cancel_unlink, h, set_work, queue_remove_work, QUEUE_REMOVE,
    QUEUE_INSERT_TAIL]

theorem uv__work_done_idle (p : threadpool) (loop : Nat) :
    uv__work_done idle_done_cbs p loop =
      ({ p with loop_wq := Function.update p.loop_wq loop [] },
        (p.loop_wq loop).map (fun w =>
          (w, if (p.works w).work = work_fn.uv__cancelled then UV_ECANCELED else 0))) := by
  apply Prod.ext
  · unfold uv__work_done
    rw [uv__work_done_loop_idle]
  · exact uv__work_done_calls idle_done_cbs (fun _ _ _ _ => rfl) p loop

/-! ## The thread pool: the marker of the slow queue -/

theorem marker_inv_congr (p q : threadpool) (h : marker_inv p) (h1 : q.wq = p.wq)
    (h2 : q.slow_io_pending_wq = p.slow_io_pending_wq)
    (h3 : q.run_slow_work_message_empty = p.run_slow_work_message_empty) : marker_inv q :=
  ⟨by rw [h1]; exact h.once, by rw [h2]; exact h.slow_items, by rw [h1, h3]; exact h.linked_iff,
    by rw [h1, h2]; exact h.scheduled⟩

theorem marker_inv_init (val : Option String) (malloc_ok : Bool) (p : threadpool) :
    marker_inv (init_threads val malloc_ok p) :=
  ⟨by simp [init_threads], by simp [init_threads], by simp [init_threads],
    by simp [init_threads]⟩

theorem marker_inv_submit (p : threadpool) (loop w : Nat) (kind : uv__work_kind)
    (work : work_fn) (done : Option Nat) (h : marker_inv p) :
    marker_inv (uv__work_submit p loop w kind work done) := by
  by_cases hk : kind = uv__work_kind.UV__WORK_SLOW_IO
  · subst hk
    cases hf : p.run_slow_work_message_empty
    · rw [uv__work_submit_slow_linked p loop w work done hf]
      have hm := h.linked_iff.1 hf
      refine ⟨h.once, ?_, h.linked_iff, fun _ => hm⟩
      intro q hq
      rcases List.mem_append.1 hq with hq | hq
      · exact h.slow_items q hq
      · exact ⟨w, by simpa using hq⟩
    · rw [uv__work_submit_slow_unlinked p loop w work done hf]
      have hm : qnode.run_slow_work_message ∉ p.wq := by
        intro hm
        have := h.linked_iff.2 hm
        rw [hf] at this; cases this
      refine ⟨?_, ?_, ?_, ?_⟩
      · simp only [List.count_append, List.count_singleton_self]
        rw [List.count_eq_zero.2 hm]
      · intro q hq
        rcases List.mem_append.1 hq with hq | hq
        · exact h.slow_items q hq
        · exact ⟨w, by simpa using hq⟩
      · simp
      · intro _; simp
  · rw [uv__work_submit_fast p loop w kind work done hk]
    refine ⟨?_, h.slow_items, ?_, ?_⟩
    · simp only [List.count_append]
      rw [List.count_singleton]
      simp only [beq_iff_eq, reduceCtorEq, if_false]
      exact h.once
    · simp only [List.mem_append, List.mem_singleton, reduceCtorEq, or_false]
      exact h.linked_iff
    · intro hs
      simp only [List.mem_append, List.mem_singleton, reduceCtorEq, or_false]
      exact h.scheduled hs

theorem marker_inv_take (p : threadpool) (h : marker_inv p) : marker_inv (worker_take p).2 := by
  rcases worker_take_cases p h.slow_items with
    ⟨e, _⟩ | ⟨w, rest, hq, e⟩ | ⟨rest, hq, e⟩ | ⟨rest, hq, hs, e⟩ |
    ⟨rest, w, srest, hq, hs, hne, _, e⟩ | ⟨rest, w, hq, hs, _, e⟩
  · rw [e]; exact h
  · rw [e]
    have h1 := h.once
    have h3 := h.linked_iff
    have h4 := h.scheduled
    rw [hq] at h1 h3 h4
    refine ⟨?_, h.slow_items, ?_, ?_⟩
    · simpa [set_work] using h1
    · simpa [set_work] using h3
    · simpa [set_work] using h4
  · rw [e]
    have h1 := h.once
    rw [hq] at h1
    refine ⟨?_, h.slow_items, ?_, ?_⟩
    · simp only [List.count_append, List.count_singleton_self]
      simp only [List.count_cons_self] at h1
      omega
    · simp
    · intro _; simp
  · rw [e]
    have h1 := h.once
    rw [hq] at h1
    simp only [List.count_cons_self] at h1
    have h0 : qnode.run_slow_work_message ∉ rest := List.count_eq_zero.1 (by omega)
    refine ⟨by simp only []; omega, h.slow_items, ?_, ?_⟩
    · simp [h0]
    · intro hne; exact absurd hs hne
  · rw [e]
    have h1 := h.once
    rw [hq] at h1
    simp only [List.count_cons_self] at h1
    have h2 := h.slow_items
    rw [hs] at h2
    refine ⟨?_, ?_, ?_, ?_⟩
    · simp only [set_work, List.count_append, List.count_singleton_self]
      omega
    · intro q hq'
      exact h2 q (List.mem_cons_of_mem _ hq')
    · simp [set_work]
    · intro _; simp [set_work]
  · rw [e]
    have h1 := h.once
    rw [hq] at h1
    simp only [List.count_cons_self] at h1
    have h0 : qnode.run_slow_work_message ∉ rest := List.count_eq_zero.1 (by omega)
    refine ⟨?_, ?_, ?_, ?_⟩
    · simp only [set_work]; omega
    · simp [set_work]
    · simp [set_work, h0]
    · simp [set_work]

theorem mem_erase_work_req (l : List qnode) (w : Nat) :
    qnode.run_slow_work_message ∈ l.erase (qnode.work_req w) ↔
      qnode.run_slow_work_message ∈ l :=
  List.mem_erase_of_ne (by simp)

theorem marker_inv_cancel (p : threadpool) (loop w : Nat) (h : marker_inv p) :
    marker_inv (uv__work_cancel p loop w).2 := by
  cases hc : work_cancellable p w
  · rw [uv__work_cancel_busy p loop w hc]; exact h
  · rw [uv__work_cancel_state p loop w hc]
    refine ⟨?_, ?_, ?_, ?_⟩
    · simp only []
      rw [List.count_erase_of_ne (by simp)]
      exact h.once
    · intro q hq
      exact h.slow_items q (List.mem_of_mem_erase hq)
    · simp only [mem_erase_work_req]
      exact h.linked_iff
    · intro hne
      simp only [mem_erase_work_req]
      apply h.scheduled
      intro hnil
      apply hne
      simp only [hnil, List.erase_nil]


/-! ## The thread pool: the items in the queues -/

theorem queue_items_nil : queue_items [] = [] := rfl

theorem queue_items_cons_work (w : Nat) (q : List qnode) :
    queue_items (qnode.work_req w :: q) = w :: queue_items q := rfl

theorem queue_items_cons_marker (q : List qnode) :
    queue_items (qnode.run_slow_work_message :: q) = queue_items q := rfl

theorem queue_items_cons_exit (q : List qnode) :
    queue_items (qnode.exit_message :: q) = queue_items q := rfl

theorem queue_items_append (q r : List qnode) :
    queue_items (q ++ r) = queue_items q ++ queue_items r := by
  unfold queue_items
  rw [List.filterMap_append]

theorem mem_queue_items (q : List qnode) (w : Nat) :
    w ∈ queue_items q ↔ qnode.work_req w ∈ q := by
  induction q with
  | nil => simp [queue_items_nil]
  | cons a q ih =>
    cases a with
    | exit_message => rw [queue_items_cons_exit, ih]; simp
    | run_slow_work_message => rw [queue_items_cons_marker, ih]; simp
    | work_req v => rw [queue_items_cons_work]; simp [ih]

theorem count_queue_items (q : List qnode) (w : Nat) :
    (queue_items q).count w = q.count (qnode.work_req w) := by
  induction q with
  | nil => simp [queue_items_nil]
  | cons a q ih =>
    cases a with
    | exit_message =>
      rw [queue_items_cons_exit, ih, List.count_cons_of_ne (by simp)]
    | run_slow_work_message =>
      rw [queue_items_cons_marker, ih, List.count_cons_of_ne (by simp)]
    | work_req v =>
      rw [queue_items_cons_work]
      by_cases e : v = w
      · subst e; simp [ih]
      · rw [List.count_cons_of_ne (fun c => e c.symm), List.count_cons_of_ne (by simpa using fun c => e c.symm), ih]

theorem queue_items_erase (q : List qnode) (w : Nat) :
    queue_items (q.erase (qnode.work_req w)) = (queue_items q).erase w := by
  induction q with
  | nil => simp [queue_items_nil]
  | cons a q ih =>
    cases a with
    | exit_message =>
      rw [List.erase_cons_tail (by simp), queue_items_cons_exit, queue_items_cons_exit, ih]
    | run_slow_work_message =>
      rw [List.erase_cons_tail (by simp), queue_items_cons_marker, queue_items_cons_marker, ih]
    | work_req v =>
      by_cases e : v = w
      · subst e
        rw [List.erase_cons_head, queue_items_cons_work, List.erase_cons_head]
      · rw [List.erase_cons_tail (by simpa using e), queue_items_cons_work,
          queue_items_cons_work, List.erase_cons_tail (by simpa using e), ih]

/-- What `worker_take` does to the work items: it takes none, or the first item of `wq`,
or the first item of `slow_io_pending_wq` while the counter is below the threshold. -/
theorem worker_take_items (p : threadpool)
    (hs : ∀ q ∈ p.slow_io_pending_wq, ∃ w, q = qnode.work_req w) :
    ((worker_take p).2.nthreads = p.nthreads ∧ (worker_take p).2.loop_wq = p.loop_wq) ∧
    (((∀ w s, (worker_take p).1 ≠ worker_next.run w s) ∧
      queue_items (worker_take p).2.wq = queue_items p.wq ∧
      (worker_take p).2.slow_io_pending_wq = p.slow_io_pending_wq ∧
      (worker_take p).2.works = p.works ∧
      (worker_take p).2.slow_io_work_running = p.slow_io_work_running) ∨
    (∃ w, (worker_take p).1 = worker_next.run w false ∧
      queue_items p.wq = w :: queue_items (worker_take p).2.wq ∧
      (worker_take p).2.slow_io_pending_wq = p.slow_io_pending_wq ∧
      (worker_take p).2.works = Function.update p.works w { p.works w with wq_empty := true } ∧
      (worker_take p).2.slow_io_work_running = p.slow_io_work_running) ∨
    (∃ w, (worker_take p).1 = worker_next.run w true ∧
      queue_items (worker_take p).2.wq = queue_items p.wq ∧
      p.slow_io_pending_wq = qnode.work_req w :: (worker_take p).2.slow_io_pending_wq ∧
      (worker_take p).2.works = Function.update p.works w { p.works w with wq_empty := true } ∧
      p.slow_io_work_running < slow_work_thread_threshold p ∧
      (worker_take p).2.slow_io_work_running = (p.slow_io_work_running + 1) % 2 ^ 32)) := by
  rcases worker_take_cases p hs with
    ⟨e, h⟩ | ⟨w, rest, hq, e⟩ | ⟨rest, hq, e⟩ | ⟨rest, hq, hs, e⟩ |
    ⟨rest, w, srest, hq, hs, hne, hlt, e⟩ | ⟨rest, w, hq, hs, hlt, e⟩
  · rw [e]; exact ⟨⟨rfl, rfl⟩, Or.inl ⟨h, rfl, rfl, rfl, rfl⟩⟩
  · rw [e]
    refine ⟨⟨rfl, rfl⟩, Or.inr (Or.inl ⟨w, rfl, ?_, rfl, rfl, rfl⟩)⟩
    rw [hq]; rfl
  · rw [e]
    refine ⟨⟨rfl, rfl⟩, Or.inl ⟨fun _ _ h => (by cases h), ?_, rfl, rfl, rfl⟩⟩
    simp only [hq, queue_items_append, queue_items_cons_marker, queue_items_nil,
      List.append_nil]
  · rw [e]
    refine ⟨⟨rfl, rfl⟩, Or.inl ⟨fun _ _ h => (by cases h), ?_, rfl, rfl, rfl⟩⟩
    simp only [hq, queue_items_cons_marker]
  · rw [e]
    refine ⟨⟨rfl, rfl⟩, Or.inr (Or.inr ⟨w, rfl, ?_, ?_, rfl, hlt, rfl⟩)⟩
    · simp only [set_work, hq, queue_items_append, queue_items_cons_marker, queue_items_nil,
        List.append_nil]
    · rw [hs]; rfl
  · rw [e]
    refine ⟨⟨rfl, rfl⟩, Or.inr (Or.inr ⟨w, rfl, ?_, ?_, rfl, hlt, rfl⟩)⟩
    · simp only [set_work, hq, queue_items_cons_marker]
    · rw [hs]; rfl

theorem run_worker_idle (s : pool_run)
    (h : ∀ w b, (worker_take s.pool).1 ≠ worker_next.run w b) :
    run_worker s = { s with pool := (worker_take s.pool).2 } := by
  unfold run_worker
  cases e : (worker_take s.pool).1 with
  | run w b => exact absurd e (h w b)
  | wait => rfl
  | exit => rfl
  | again => rfl
  | fault => rfl

theorem run_worker_run (s : pool_run) (w : Nat) (b : Bool)
    (h : (worker_take s.pool).1 = worker_next.run w b) :
    run_worker s =
      { s with
        pool := (worker_take s.pool).2
        running := (w, b) :: s.running
        wq_dispatched := if b then s.wq_dispatched else s.wq_dispatched ++ [w]
        slow_dispatched := if b then s.slow_dispatched ++ [w] else s.slow_dispatched } := by
  unfold run_worker
  rw [h]

/-! ## The thread pool: the counter of running slow work -/

theorem init_threads_nthreads_range (val : Option String) (malloc_ok : Bool) :
    1 ≤ init_threads_nthreads val malloc_ok ∧
    init_threads_nthreads val malloc_ok ≤ MAX_THREADPOOL_SIZE := by
  unfold init_threads_nthreads MAX_THREADPOOL_SIZE default_threads_size
  cases val with
  | none => simp only []; split_ifs <;> omega
  | some v => simp only []; split_ifs <;> omega

theorem uv__work_submit_counters (p : threadpool) (loop w : Nat) (kind : uv__work_kind)
    (work : work_fn) (done : Option Nat) :
    (uv__work_submit p loop w kind work done).nthreads = p.nthreads ∧
    (uv__work_submit p loop w kind work done).slow_io_work_running = p.slow_io_work_running ∧
    (uv__work_submit p loop w kind work done).loop_wq = p.loop_wq ∧
    (uv__work_submit p loop w kind work done).works = Function.update p.works w
      { work := work, done := done, loop := loop, wq_empty := false } := by
  by_cases hk : kind = uv__work_kind.UV__WORK_SLOW_IO
  · subst hk
    cases hf : p.run_slow_work_message_empty
    · rw [uv__work_submit_slow_linked p loop w work done hf]
      exact ⟨rfl, rfl, rfl, rfl⟩
    · rw [uv__work_submit_slow_unlinked p loop w work done hf]
      exact ⟨rfl, rfl, rfl, rfl⟩
  · rw [uv__work_submit_fast p loop w kind work done hk]
    exact ⟨rfl, rfl, rfl, rfl⟩

theorem uv__work_cancel_counters (p : threadpool) (loop w : Nat) :
    (uv__work_cancel p loop w).2.nthreads = p.nthreads ∧
    (uv__work_cancel p loop w).2.slow_io_work_running = p.slow_io_work_running := by
  cases hc : work_cancellable p w
  · rw [uv__work_cancel_busy p loop w hc]; exact ⟨rfl, rfl⟩
  · rw [uv__work_cancel_state p loop w hc]; exact ⟨rfl, rfl⟩

theorem slow_inv_congr (s t : pool_run) (h : slow_inv s)
    (h1 : t.pool.nthreads = s.pool.nthreads)
    (h2 : t.pool.slow_io_work_running = s.pool.slow_io_work_running)
    (h3 : t.running = s.running) (h4 : t.relocking = s.relocking) : slow_inv t := by
  refine ⟨by rw [h1]; exact h.nthreads_pos, by rw [h1]; exact h.nthreads_le, ?_, ?_⟩
  · rw [h2, h.counted, h4]; unfold slow_running; rw [h3]
  · rw [h2]; unfold slow_work_thread_threshold; rw [h1]; exact h.bounded

theorem slow_inv_boot (val : Option String) (malloc_ok : Bool) (works : Nat → uv__work) :
    slow_inv (pool_boot val malloc_ok works) :=
  ⟨(init_threads_nthreads_range val malloc_ok).1, (init_threads_nthreads_range val malloc_ok).2,
    rfl, Nat.zero_le _⟩

theorem slow_inv_submit (s : pool_run) (loop w : Nat) (kind : uv__work_kind) (work : Nat)
    (done : Option Nat) (h : slow_inv s) : slow_inv (run_submit s loop w kind work done) :=
  slow_inv_congr s _ h (uv__work_submit_counters _ _ _ _ _ _).1
    (uv__work_submit_counters _ _ _ _ _ _).2.1 rfl rfl

theorem slow_inv_cancel (s : pool_run) (w : Nat) (h : slow_inv s) :
    slow_inv (run_cancel s w) :=
  slow_inv_congr s _ h (uv__work_cancel_counters _ _ _).1 (uv__work_cancel_counters _ _ _).2
    rfl rfl

theorem slow_inv_drain (s : pool_run) (loop : Nat) (h : slow_inv s) :
    slow_inv (run_drain s loop) := by
  apply slow_inv_congr s _ h
  · simp only [run_drain, uv__work_done_idle]
  · simp only [run_drain, uv__work_done_idle]
  · rfl
  · rfl

theorem slow_threshold_le (p : threadpool) (h : p.nthreads ≤ MAX_THREADPOOL_SIZE) :
    slow_work_thread_threshold p ≤ 512 := by
  unfold slow_work_thread_threshold
  unfold MAX_THREADPOOL_SIZE at h
  omega

theorem slow_inv_worker (s : pool_run) (hm : marker_inv s.pool) (h : slow_inv s) :
    slow_inv (run_worker s) := by
  obtain ⟨⟨hn, _⟩, hc⟩ := worker_take_items s.pool hm.slow_items
  rcases hc with ⟨hr, _, _, _, hsl⟩ | ⟨w, hr, _, _, _, hsl⟩ | ⟨w, hr, _, _, _, hlt, hsl⟩
  · rw [run_worker_idle s hr]
    exact slow_inv_congr s _ h hn hsl rfl rfl
  · rw [run_worker_run s w false hr]
    refine ⟨by rw [hn]; exact h.nthreads_pos, by rw [hn]; exact h.nthreads_le, ?_, ?_⟩
    · simp only [hsl, h.counted, slow_running, List.filter_cons]
      simp
    · simp only [hsl]
      unfold slow_work_thread_threshold; rw [hn]; exact h.bounded
  · rw [run_worker_run s w true hr]
    have hb := slow_threshold_le s.pool h.nthreads_le
    have e : (s.pool.slow_io_work_running + 1) % 2 ^ 32 = s.pool.slow_io_work_running + 1 := by
      apply Nat.mod_eq_of_lt; omega
    have hc := h.counted
    unfold slow_running at hc
    refine ⟨by rw [hn]; exact h.nthreads_pos, by rw [hn]; exact h.nthreads_le, ?_, ?_⟩
    · show (worker_take s.pool).2.slow_io_work_running =
        (List.filter (fun r : Nat × Bool => r.2) ((w, true) :: s.running)).length + s.relocking
      rw [hsl, e, List.filter_cons]
      simp only [if_true, List.length_cons]
      omega
    · simp only [hsl, e]
      unfold slow_work_thread_threshold at hlt ⊢
      rw [hn]; omega

theorem filter_erase_of_false {α : Type} [BEq α] [LawfulBEq α] (f : α → Bool) (l : List α) (a : α)
    (h : f a = false) : (l.erase a).filter f = l.filter f := by
  induction l with
  | nil => rfl
  | cons b l ih =>
    by_cases e : b = a
    · subst e; rw [List.erase_cons_head, List.filter_cons, h]; simp
    · rw [List.erase_cons_tail (by simpa using e), List.filter_cons, List.filter_cons, ih]

theorem filter_erase_length {α : Type} [BEq α] [LawfulBEq α] (f : α → Bool) (l : List α) (a : α)
    (hm : a ∈ l) (h : f a = true) :
    ((l.erase a).filter f).length + 1 = (l.filter f).length := by
  induction l with
  | nil => cases hm
  | cons b l ih =>
    by_cases e : b = a
    · subst e; rw [List.erase_cons_head, List.filter_cons, h]; simp
    · have hm2 : a ∈ l := by
        rcases List.mem_cons.1 hm with c | c
        · exact absurd c.symm e
        · exact c
      rw [List.erase_cons_tail (by simpa using e), List.filter_cons, List.filter_cons]
      split_ifs
      · simp only [List.length_cons]; rw [ih hm2]
      · exact ih hm2

theorem slow_inv_complete (s : pool_run) (w : Nat) (b : Bool) (hr : (w, b) ∈ s.running)
    (h : slow_inv s) : slow_inv (run_complete s w b) := by
  refine ⟨h.nthreads_pos, h.nthreads_le, ?_, h.bounded⟩
  show s.pool.slow_io_work_running = _
  rw [h.counted]
  unfold slow_running run_complete
  cases b with
  | false =>
    simp only [Bool.false_eq_true, if_false]
    rw [filter_erase_of_false (fun r : Nat × Bool => r.2) s.running (w, false) rfl]
  | true =>
    simp only [if_true]
    have := filter_erase_length (fun r : Nat × Bool => r.2) s.running (w, true) hr rfl
    omega

theorem worker_relock_frame (p : threadpool) (b : Bool) :
    (worker_relock p b).nthreads = p.nthreads ∧ (worker_relock p b).wq = p.wq ∧
    (worker_relock p b).slow_io_pending_wq = p.slow_io_pending_wq ∧
    (worker_relock p b).run_slow_work_message_empty = p.run_slow_work_message_empty ∧
    (worker_relock p b).loop_wq = p.loop_wq ∧ (worker_relock p b).works = p.works := by
  unfold worker_relock
  split_ifs <;> exact ⟨rfl, rfl, rfl, rfl, rfl, rfl⟩

theorem slow_inv_relock (s : pool_run) (hr : 0 < s.relocking) (h : slow_inv s) :
    slow_inv (run_relock s) := by
  have hb := slow_threshold_le s.pool h.nthreads_le
  have hc := h.counted
  have hbd := h.bounded
  have e : (worker_relock s.pool true).slow_io_work_running =
      s.pool.slow_io_work_running - 1 := by
    simp only [worker_relock, if_true]
    omega
  have hn : (run_relock s).pool.nthreads = s.pool.nthreads :=
    (worker_relock_frame s.pool true).1
  have h1 : (run_relock s).pool = worker_relock s.pool true := by unfold run_relock; rfl
  have hr2 : (run_relock s).running = s.running := by unfold run_relock; rfl
  have h2 : slow_running (run_relock s) = slow_running s := by
    unfold slow_running; rw [hr2]
  have h3 : (run_relock s).relocking = s.relocking - 1 := by unfold run_relock; rfl
  refine ⟨by rw [hn]; exact h.nthreads_pos, by rw [hn]; exact h.nthreads_le, ?_, ?_⟩
  · rw [h1, e, h2, h3]
    omega
  · unfold slow_work_thread_threshold at hbd ⊢
    rw [hn, h1, e]
    omega


/-! ## The thread pool: where the work items are -/

theorem run_count_congr (s t : pool_run) (h : t.running = s.running) (w : Nat) :
    run_count t w = run_count s w := by
  unfold run_count; rw [h]

theorem done_count_congr (s t : pool_run) (h : t.done_calls = s.done_calls) (w : Nat) :
    done_count t w = done_count s w := by
  unfold done_count; rw [h]

theorem loop_count_congr (s t : pool_run) (h : t.pool.loop_wq = s.pool.loop_wq) (l w : Nat) :
    loop_count t l w = loop_count s l w := by
  unfold loop_count; rw [h]

theorem wq_count_congr (s t : pool_run) (h : queue_items t.pool.wq = queue_items s.pool.wq)
    (w : Nat) : wq_count t w = wq_count s w := by
  unfold wq_count; rw [← count_queue_items, ← count_queue_items, h]

theorem slow_count_congr (s t : pool_run)
    (h : t.pool.slow_io_pending_wq = s.pool.slow_io_pending_wq)
    (w : Nat) : slow_count t w = slow_count s w := by
  unfold slow_count; rw [h]

theorem count_work_req_singleton (w v : Nat) :
    [qnode.work_req v].count (qnode.work_req w) = if w = v then 1 else 0 := by
  rw [List.count_singleton]
  by_cases e : w = v
  · subst e; simp
  · have : ¬ v = w := fun c => e c.symm
    simp [e, this]

theorem run_submit_frame (s : pool_run) (loop v : Nat) (kind : uv__work_kind) (work : Nat)
    (done : Option Nat) :
    (∀ w, wq_count (run_submit s loop v kind work done) w = wq_count s w +
      if kind ≠ uv__work_kind.UV__WORK_SLOW_IO ∧ w = v then 1 else 0) ∧
    (∀ w, slow_count (run_submit s loop v kind work done) w = slow_count s w +
      if kind = uv__work_kind.UV__WORK_SLOW_IO ∧ w = v then 1 else 0) ∧
    (run_submit s loop v kind work done).pool.loop_wq = s.pool.loop_wq ∧
    (run_submit s loop v kind work done).pool.works = Function.update s.pool.works v
      { work := work_fn.fn work, done := done, loop := loop, wq_empty := false } ∧
    (∀ w, submitted (run_submit s loop v kind work done) w ↔ (submitted s w ∨ w = v)) := by
  have hsub : ∀ w, submitted (run_submit s loop v kind work done) w ↔ (submitted s w ∨ w = v) := by
    intro w
    unfold submitted run_submit
    by_cases hk : kind = uv__work_kind.UV__WORK_SLOW_IO
    · simp only [hk, if_true, List.mem_append, List.mem_singleton]; tauto
    · simp only [hk, if_false, List.mem_append, List.mem_singleton]; tauto
  refine ⟨?_, ?_, (uv__work_submit_counters _ _ _ _ _ _).2.2.1,
    (uv__work_submit_counters _ _ _ _ _ _).2.2.2, hsub⟩
  · intro w
    unfold wq_count run_submit
    by_cases hk : kind = uv__work_kind.UV__WORK_SLOW_IO
    · subst hk
      cases hf : s.pool.run_slow_work_message_empty
      · simp only [uv__work_submit_slow_linked _ _ _ _ _ hf]; simp
      · simp only [uv__work_submit_slow_unlinked _ _ _ _ _ hf, List.count_append]
        rw [List.count_singleton]; simp
    · simp only [uv__work_submit_fast _ _ _ _ _ _ hk, List.count_append,
        count_work_req_singleton, hk, ne_eq, not_false_eq_true, true_and]
  · intro w
    unfold slow_count run_submit
    by_cases hk : kind = uv__work_kind.UV__WORK_SLOW_IO
    · subst hk
      cases hf : s.pool.run_slow_work_message_empty
      · simp only [uv__work_submit_slow_linked _ _ _ _ _ hf, List.count_append,
          count_work_req_singleton, true_and]
      · simp only [uv__work_submit_slow_unlinked _ _ _ _ _ hf, List.count_append,
          count_work_req_singleton, true_and]
    · simp only [uv__work_submit_fast _ _ _ _ _ _ hk, hk, false_and, if_false, Nat.add_zero]

theorem life_inv_boot (val : Option String) (malloc_ok : Bool) (works : Nat → uv__work) :
    life_inv (pool_boot val malloc_ok works) := by
  refine ⟨?_, ?_, ?_, ?_, ?_, ?_, ?_, ?_, ?_⟩
  · intro w _
    exact ⟨rfl, rfl, rfl, fun _ => rfl, rfl⟩
  · intro w h; rcases h with h | h <;> cases h
  · intro w l _; rfl
  · intro w h; exact absurd h (lt_irrefl 0)
  · intro w h; exact absurd h (lt_irrefl 0)
  · exact List.nodup_nil
  · intro w h; cases h
  · intro w h; rcases h with h | h <;> cases h
  · intro w h; rcases h with h | h <;> cases h

theorem life_inv_submit (s : pool_run) (loop v : Nat) (kind : uv__work_kind) (work : Nat)
    (done : Option Nat) (h : life_inv s) (hv : ¬ submitted s v) :
    life_inv (run_submit s loop v kind work done) := by
  obtain ⟨f1, f2, f3, f4, f5⟩ := run_submit_frame s loop v kind work done
  have f6 : ∀ w, run_count (run_submit s loop v kind work done) w = run_count s w :=
    run_count_congr s _ rfl
  have f7 : ∀ w, done_count (run_submit s loop v kind work done) w = done_count s w :=
    done_count_congr s _ rfl
  have f8 : ∀ l w, loop_count (run_submit s loop v kind work done) l w = loop_count s l w :=
    loop_count_congr s _ f3
  have hw : ∀ w, w ≠ v → (run_submit s loop v kind work done).pool.works w = s.pool.works w := by
    intro w e; rw [f4, Function.update_noteq e]
  have hwv : (run_submit s loop v kind work done).pool.works v =
      { work := work_fn.fn work, done := done, loop := loop, wq_empty := false } := by
    rw [f4, Function.update_same]
  obtain ⟨v1, v2, v3, v4, v5⟩ := h.fresh v hv
  refine ⟨?_, ?_, ?_, ?_, ?_, ?_, ?_, ?_, ?_⟩
  · intro w hn
    rw [f5] at hn
    have e : w ≠ v := fun c => hn (Or.inr c)
    obtain ⟨a1, a2, a3, a4, a5⟩ := h.fresh w (fun c => hn (Or.inl c))
    refine ⟨?_, ?_, ?_, ?_, ?_⟩
    · rw [f1, a1]; simp [e]
    · rw [f2, a2]; simp [e]
    · rw [f6, a3]
    · intro l; rw [f8, a4]
    · rw [f7, a5]
  · intro w hs
    rw [f5] at hs
    rw [f1, f2, f6, f7, f8]
    by_cases e : w = v
    · subst e
      rw [v1, v2, v3, v4, v5]
      by_cases hk : kind = uv__work_kind.UV__WORK_SLOW_IO <;> simp [hk]
    · have hs' : submitted s w := hs.resolve_right e
      have := h.one_place w hs'
      rw [hw w e]
      simp only [e, and_false, if_false]
      omega
  · intro w l hl
    rw [f8]
    by_cases e : w = v
    · subst e; exact v4 l
    · rw [hw w e] at hl; exact h.own_loop w l hl
  · intro w hr
    rw [f6] at hr
    have e : w ≠ v := by rintro rfl; omega
    rw [hw w e]; exact h.running_unlinked w hr
  · intro w hq
    by_cases e : w = v
    · subst e; rw [hwv]
    · rw [f1, f2, f8, hw w e] at hq
      rw [hw w e]
      apply h.queued_linked w
      simp only [e, and_false, if_false] at hq
      omega
  · have hn := h.nodup
    unfold submitted at hv
    unfold run_submit
    by_cases hk : kind = uv__work_kind.UV__WORK_SLOW_IO
    · simp only [hk, if_true]
      rw [← List.append_assoc]
      apply List.Nodup.append hn (List.nodup_singleton v)
      rw [List.disjoint_singleton, List.mem_append]
      exact hv
    · simp only [hk, if_false]
      rw [List.nodup_append] at hn ⊢
      obtain ⟨n1, n2, n3⟩ := hn
      refine ⟨?_, n2, ?_⟩
      · apply List.Nodup.append n1 (List.nodup_singleton v)
        rw [List.disjoint_singleton]
        tauto
      · rw [List.disjoint_append_left]
        refine ⟨n3, ?_⟩
        rw [List.singleton_disjoint]
        tauto
  · intro w hc
    rw [f5]; exact Or.inl (h.cancelled_sub w hc)
  · intro w hd
    rw [f5]; exact Or.inl (h.dispatched_sub w hd)
  · intro w hd
    have hs := h.dispatched_sub w hd
    have e : w ≠ v := by rintro rfl; exact hv hs
    rw [f6, hw w e]
    exact h.dispatched_done w hd

theorem life_inv_congr (s t : pool_run) (h : life_inv s)
    (c1 : ∀ w, wq_count t w = wq_count s w) (c2 : ∀ w, slow_count t w = slow_count s w)
    (c3 : t.running = s.running) (c4 : t.pool.loop_wq = s.pool.loop_wq)
    (c5 : t.done_calls = s.done_calls) (c6 : t.pool.works = s.pool.works)
    (c7 : t.wq_submitted = s.wq_submitted) (c8 : t.slow_submitted = s.slow_submitted)
    (c9 : t.cancelled = s.cancelled) (c10 : t.wq_dispatched = s.wq_dispatched)
    (c11 : t.slow_dispatched = s.slow_dispatched) : life_inv t := by
  have d3 := run_count_congr s t c3
  have d4 := loop_count_congr s t c4
  have d5 := done_count_congr s t c5
  have hsub : ∀ w, submitted t w ↔ submitted s w := by
    intro w; unfold submitted; rw [c7, c8]
  refine ⟨?_, ?_, ?_, ?_, ?_, ?_, ?_, ?_, ?_⟩
  · intro w hn
    rw [hsub] at hn
    rw [c1, c2, d3, d5]
    simp only [d4]
    exact h.fresh w hn
  · intro w hs
    rw [hsub] at hs
    rw [c1, c2, d3, d5, d4, c6]
    exact h.one_place w hs
  · intro w l hl
    rw [c6] at hl
    rw [d4]; exact h.own_loop w l hl
  · intro w hr
    rw [d3] at hr
    rw [c6]; exact h.running_unlinked w hr
  · intro w hq
    rw [c1, c2, d4, c6] at hq
    rw [c6]; exact h.queued_linked w hq
  · rw [c7, c8]; exact h.nodup
  · intro w hc
    rw [c9] at hc
    rw [hsub]; exact h.cancelled_sub w hc
  · intro w hd
    rw [c10, c11] at hd
    rw [hsub]; exact h.dispatched_sub w hd
  · intro w hd
    rw [c10, c11] at hd
    rw [d3, c6]; exact h.dispatched_done w hd

theorem run_worker_frame (s : pool_run) (hm : marker_inv s.pool) :
    ((∀ w, wq_count (run_worker s) w = wq_count s w) ∧
      (run_worker s).pool.slow_io_pending_wq = s.pool.slow_io_pending_wq ∧
      (run_worker s).running = s.running ∧
      (run_worker s).pool.loop_wq = s.pool.loop_wq ∧
      (run_worker s).pool.works = s.pool.works ∧
      (run_worker s).wq_dispatched = s.wq_dispatched ∧
      (run_worker s).slow_dispatched = s.slow_dispatched ∧
      queue_items (run_worker s).pool.wq = queue_items s.pool.wq) ∨
    (∃ v b,
      (∀ w, wq_count s w = wq_count (run_worker s) w + if b = false ∧ w = v then 1 else 0) ∧
      (∀ w, slow_count s w =
        slow_count (run_worker s) w + if b = true ∧ w = v then 1 else 0) ∧
      (run_worker s).running = (v, b) :: s.running ∧
      (run_worker s).pool.loop_wq = s.pool.loop_wq ∧
      (run_worker s).pool.works =
        Function.update s.pool.works v { s.pool.works v with wq_empty := true } ∧
      (run_worker s).wq_dispatched = (if b then s.wq_dispatched else s.wq_dispatched ++ [v]) ∧
      (run_worker s).slow_dispatched =
        (if b then s.slow_dispatched ++ [v] else s.slow_dispatched) ∧
      queue_items s.pool.wq =
        (if b then [] else [v]) ++ queue_items (run_worker s).pool.wq ∧
      queue_items s.pool.slow_io_pending_wq =
        (if b then [v] else []) ++ queue_items (run_worker s).pool.slow_io_pending_wq) := by
  obtain ⟨⟨_, hl⟩, hc⟩ := worker_take_items s.pool hm.slow_items
  rcases hc with ⟨hr, h1, h2, h3, _⟩ | ⟨v, hr, h1, h2, h3, _⟩ | ⟨v, hr, h1, h2, h3, _, _⟩
  · left
    rw [run_worker_idle s hr]
    exact ⟨fun w => wq_count_congr s _ h1 w, h2, rfl, hl, h3, rfl, rfl, h1⟩
  · right
    refine ⟨v, false, ?_⟩
    rw [run_worker_run s v false hr]
    refine ⟨?_, ?_, rfl, hl, h3, rfl, rfl, ?_, ?_⟩
    · intro w
      unfold wq_count
      rw [← count_queue_items, ← count_queue_items, h1, List.count_cons]
      simp only [true_and, beq_iff_eq]
      by_cases e : w = v
      · subst e; simp
      · have : ¬ v = w := fun c => e c.symm
        simp [e, this]
    · intro w
      unfold slow_count
      simp only [h2, Bool.false_eq_true, false_and, if_false, Nat.add_zero]
    · simp only [Bool.false_eq_true, if_false, List.singleton_append]
      exact h1
    · simp only [Bool.false_eq_true, if_false, List.nil_append]
      rw [h2]
  · right
    refine ⟨v, true, ?_⟩
    rw [run_worker_run s v true hr]
    refine ⟨?_, ?_, rfl, hl, h3, rfl, rfl, ?_, ?_⟩
    · intro w
      simp only [Bool.true_eq_false, false_and, if_false, Nat.add_zero]
      exact (wq_count_congr s _ h1 w).symm
    · intro w
      unfold slow_count
      rw [h2, List.count_cons]
      simp only [true_and, beq_iff_eq]
      by_cases e : w = v
      · subst e; simp
      · have : ¬ v = w := fun c => e c.symm
        simp [e, this]
    · simp only [if_true, List.nil_append]
      exact h1.symm
    · simp only [if_true, List.singleton_append]
      rw [h2]; rfl

theorem run_count_cons (s : pool_run) (r : List (Nat × Bool)) (v w : Nat) (b : Bool)
    (h : r = (v, b) :: s.running) :
    ((r.map Prod.fst).count w) = run_count s w + if w = v then 1 else 0 := by
  unfold run_count
  rw [h, List.map_cons, List.count_cons]
  by_cases e : w = v
  · subst e; simp
  · have : ¬ v = w := fun c => e c.symm
    simp [e, this]

theorem run_worker_ghost (s : pool_run) :
    (run_worker s).done_calls = s.done_calls ∧ (run_worker s).wq_submitted = s.wq_submitted ∧
    (run_worker s).slow_submitted = s.slow_submitted ∧
    (run_worker s).cancelled = s.cancelled ∧ (run_worker s).relocking = s.relocking := by
  unfold run_worker
  split <;> exact ⟨rfl, rfl, rfl, rfl, rfl⟩

theorem life_inv_worker (s : pool_run) (hm : marker_inv s.pool) (h : life_inv s) :
    life_inv (run_worker s) := by
  rcases run_worker_frame s hm with
    ⟨c1, c2, c3, c4, c5, c6, c7, _⟩ | ⟨v, b, c1, c2, c3, c4, c5, c6, c7, _, _⟩
  · obtain ⟨g1, g2, g3, g4, _⟩ := run_worker_ghost s
    exact life_inv_congr s _ h c1 (slow_count_congr s _ c2) c3 c4 g1 c5 g2 g3 g4 c6 c7
  · obtain ⟨g1, e1, e2, g4, _⟩ := run_worker_ghost s
    have d3 : ∀ w, run_count (run_worker s) w = run_count s w + if w = v then 1 else 0 :=
      fun w => run_count_cons s _ v w b c3
    have d4 := loop_count_congr s _ c4
    have d5 : ∀ w, done_count (run_worker s) w = done_count s w :=
      done_count_congr s _ g1
    have hsub : ∀ w, submitted (run_worker s) w ↔ submitted s w := by
      intro w
      unfold submitted; rw [e1, e2]
    have hloop : ∀ w, ((run_worker s).pool.works w).loop = (s.pool.works w).loop := by
      intro w
      rw [c5]
      by_cases e : w = v
      · subst e; rw [Function.update_same]
      · rw [Function.update_noteq e]
    have hwork : ∀ w, ((run_worker s).pool.works w).work = (s.pool.works w).work := by
      intro w
      rw [c5]
      by_cases e : w = v
      · subst e; rw [Function.update_same]
      · rw [Function.update_noteq e]
    have hw : ∀ w, w ≠ v → (run_worker s).pool.works w = s.pool.works w := by
      intro w e; rw [c5, Function.update_noteq e]
    have hwv : ((run_worker s).pool.works v).wq_empty = true := by
      rw [c5, Function.update_same]
    have hvq : 0 < wq_count s v + slow_count s v := by
      have a1 := c1 v
      have a2 := c2 v
      cases b <;> simp at a1 a2 <;> omega
    have hvs : submitted s v := by
      by_contra hn
      obtain ⟨a1, a2, _⟩ := h.fresh v hn
      omega
    have hdisp : ∀ w, (w ∈ (run_worker s).wq_dispatched ∨ w ∈ (run_worker s).slow_dispatched) →
        (w ∈ s.wq_dispatched ∨ w ∈ s.slow_dispatched) ∨ w = v := by
      intro w hd
      rw [c6, c7] at hd
      cases b
      · simp only [Bool.false_eq_true, if_false, List.mem_append, List.mem_singleton] at hd
        tauto
      · simp only [if_true, List.mem_append, List.mem_singleton] at hd
        tauto
    refine ⟨?_, ?_, ?_, ?_, ?_, ?_, ?_, ?_, ?_⟩
    · intro w hn
      rw [hsub] at hn
      have e : w ≠ v := by rintro rfl; exact hn hvs
      obtain ⟨a1, a2, a3, a4, a5⟩ := h.fresh w hn
      have b1 := c1 w
      have b2 := c2 w
      refine ⟨by omega, by omega, ?_, ?_, ?_⟩
      · rw [d3, a3]; simp [e]
      · intro l; rw [d4, a4]
      · rw [d5, a5]
    · intro w hs
      rw [hsub] at hs
      have := h.one_place w hs
      have b1 := c1 w
      have b2 := c2 w
      rw [d3, d4, d5, hloop]
      by_cases e : w = v
      · subst e
        cases b <;> simp at b1 b2 ⊢ <;> omega
      · simp only [e, and_false, if_false] at b1 b2 ⊢
        omega
    · intro w l hl
      rw [hloop] at hl
      rw [d4]; exact h.own_loop w l hl
    · intro w hr
      by_cases e : w = v
      · subst e; exact hwv
      · rw [d3] at hr
        simp only [e, if_false, Nat.add_zero] at hr
        rw [hw w e]; exact h.running_unlinked w hr
    · intro w hq
      rw [d4, hloop] at hq
      have b1 := c1 w
      have b2 := c2 w
      by_cases e : w = v
      · subst e
        have := h.one_place w hvs
        exfalso
        cases b <;> simp at b1 b2 <;> omega
      · simp only [e, and_false, if_false] at b1 b2
        rw [hw w e]
        apply h.queued_linked w
        omega
    · rw [e1, e2]; exact h.nodup
    · intro w hc
      rw [g4] at hc
      rw [hsub]; exact h.cancelled_sub w hc
    · intro w hd
      rw [hsub]
      rcases hdisp w hd with hd | rfl
      · exact h.dispatched_sub w hd
      · exact hvs
    · intro w hd
      rw [d3, hwork]
      rcases hdisp w hd with hd | rfl
      · rcases h.dispatched_done w hd with a | a
        · left; omega
        · right; exact a
      · left; simp

theorem count_fst_erase (r : List (Nat × Bool)) (v w : Nat) (b : Bool) (h : (v, b) ∈ r) :
    ((r.erase (v, b)).map Prod.fst).count w + (if w = v then 1 else 0) =
      (r.map Prod.fst).count w := by
  induction r with
  | nil => cases h
  | cons a r ih =>
    by_cases e : a = (v, b)
    · subst e
      rw [List.erase_cons_head, List.map_cons, List.count_cons]
      by_cases e2 : w = v
      · subst e2; simp
      · have : ¬ v = w := fun c => e2 c.symm
        simp [e2, this]
    · have hm : (v, b) ∈ r := by
        rcases List.mem_cons.1 h with c | c
        · exact absurd c.symm e
        · exact c
      rw [List.erase_cons_tail (by simpa using e), List.map_cons, List.map_cons,
        List.count_cons, List.count_cons]
      have := ih hm
      omega

theorem life_inv_complete (s : pool_run) (v : Nat) (b : Bool) (hr : (v, b) ∈ s.running)
    (h : life_inv s) : life_inv (run_complete s v b) := by
  have c1 : ∀ w, wq_count (run_complete s v b) w = wq_count s w := fun _ => rfl
  have c2 : ∀ w, slow_count (run_complete s v b) w = slow_count s w := fun _ => rfl
  have c3 : ∀ w, run_count (run_complete s v b) w + (if w = v then 1 else 0) =
      run_count s w := fun w => count_fst_erase s.running v w b hr
  have c4 : ∀ l w, loop_count (run_complete s v b) l w =
      loop_count s l w + if l = (s.pool.works v).loop ∧ w = v then 1 else 0 := by
    intro l w
    unfold loop_count run_complete worker_done
    simp only [set_work, QUEUE_INSERT_TAIL, Function.update_apply]
    by_cases e : l = (s.pool.works v).loop
    · subst e
      simp only [if_true, List.count_append, true_and]
      rw [List.count_singleton]
      by_cases e2 : w = v
      · subst e2; simp
      · have : ¬ v = w := fun c => e2 c.symm
        simp [e2, this]
    · simp only [e, if_false, false_and, Nat.add_zero]
  have c5 : ∀ w, done_count (run_complete s v b) w = done_count s w := fun _ => rfl
  have c6 : (run_complete s v b).pool.works = Function.update s.pool.works v
      { s.pool.works v with work := work_fn.null, wq_empty := false } := rfl
  have hsub : ∀ w, submitted (run_complete s v b) w ↔ submitted s w := fun _ => Iff.rfl
  have hloop : ∀ w, ((run_complete s v b).pool.works w).loop = (s.pool.works w).loop := by
    intro w
    rw [c6]
    by_cases e : w = v
    · subst e; rw [Function.update_same]
    · rw [Function.update_noteq e]
  have hw : ∀ w, w ≠ v → (run_complete s v b).pool.works w = s.pool.works w := by
    intro w e; rw [c6, Function.update_noteq e]
  have hvr : 0 < run_count s v := by
    have := c3 v
    simp only [if_true] at this
    omega
  have hvs : submitted s v := by
    by_contra hn
    obtain ⟨_, _, a3, _⟩ := h.fresh v hn
    omega
  have hv1 := h.one_place v hvs
  refine ⟨?_, ?_, ?_, ?_, ?_, h.nodup, h.cancelled_sub, h.dispatched_sub, ?_⟩
  · intro w hn
    rw [hsub] at hn
    have e : w ≠ v := by rintro rfl; exact hn hvs
    obtain ⟨a1, a2, a3, a4, a5⟩ := h.fresh w hn
    have b3 := c3 w
    refine ⟨by rw [c1, a1], by rw [c2, a2], by omega, ?_, by rw [c5, a5]⟩
    intro l
    rw [c4, a4]; simp [e]
  · intro w hs
    rw [hsub] at hs
    have := h.one_place w hs
    have b3 := c3 w
    rw [c1, c2, c4, c5, hloop]
    by_cases e : w = v
    · subst e
      simp only [and_self, if_true] at b3 ⊢
      omega
    · simp only [e, and_false, if_false] at b3 ⊢
      omega
  · intro w l hl
    rw [hloop] at hl
    rw [c4, h.own_loop w l hl]
    by_cases e : w = v
    · subst e; simp [hl]
    · simp [e]
  · intro w hr2
    have b3 := c3 w
    by_cases e : w = v
    · subst e
      simp only [if_true] at b3
      omega
    · simp only [e, if_false, Nat.add_zero] at b3
      rw [hw w e]
      apply h.running_unlinked w
      omega
  · intro w hq
    by_cases e : w = v
    · subst e; rw [c6, Function.update_same]
    · rw [c1, c2, c4, hloop] at hq
      simp only [e, and_false, if_false, Nat.add_zero] at hq
      rw [hw w e]
      exact h.queued_linked w hq
  · intro w hd
    by_cases e : w = v
    · subst e; right; rw [c6, Function.update_same]
    · have b3 := c3 w
      simp only [e, if_false, Nat.add_zero] at b3
      rw [hw w e, b3]
      exact h.dispatched_done w hd

theorem life_inv_relock (s : pool_run) (h : life_inv s) : life_inv (run_relock s) := by
  obtain ⟨_, f1, f2, _, f4, f5⟩ := worker_relock_frame s.pool true
  have e : (run_relock s).pool = worker_relock s.pool true := by unfold run_relock; rfl
  apply life_inv_congr s _ h
  · intro w; unfold wq_count; rw [e, f1]
  · intro w; unfold slow_count; rw [e, f2]
  · unfold run_relock; rfl
  · rw [e, f4]
  · unfold run_relock; rfl
  · rw [e, f5]
  · unfold run_relock; rfl
  · unfold run_relock; rfl
  · unfold run_relock; rfl
  · unfold run_relock; rfl
  · unfold run_relock; rfl

theorem life_inv_drain (s : pool_run) (loop : Nat) (h : life_inv s) :
    life_inv (run_drain s loop) := by
  have e : (run_drain s loop).pool =
      { s.pool with loop_wq := Function.update s.pool.loop_wq loop [] } := by
    unfold run_drain; rw [uv__work_done_idle]
  have c1 : ∀ w, wq_count (run_drain s loop) w = wq_count s w := by
    intro w; unfold wq_count; rw [e]
  have c2 : ∀ w, slow_count (run_drain s loop) w = slow_count s w := by
    intro w; unfold slow_count; rw [e]
  have c3 : ∀ w, run_count (run_drain s loop) w = run_count s w := fun _ => rfl
  have c4 : ∀ l w, loop_count (run_drain s loop) l w =
      if l = loop then 0 else loop_count s l w := by
    intro l w
    unfold loop_count
    rw [e]
    simp only [Function.update_apply]
    split_ifs <;> simp
  have c5 : ∀ w, done_count (run_drain s loop) w = done_count s w + loop_count s loop w := by
    intro w
    unfold done_count loop_count run_drain
    rw [uv__work_done_idle]
    simp only [List.map_append, List.count_append, count_map_fst]
  have c6 : (run_drain s loop).pool.works = s.pool.works := by rw [e]
  have hsub : ∀ w, submitted (run_drain s loop) w ↔ submitted s w := fun _ => Iff.rfl
  refine ⟨?_, ?_, ?_, ?_, ?_, h.nodup, h.cancelled_sub, h.dispatched_sub, ?_⟩
  · intro w hn
    rw [hsub] at hn
    obtain ⟨a1, a2, a3, a4, a5⟩ := h.fresh w hn
    refine ⟨by rw [c1, a1], by rw [c2, a2], by rw [c3, a3], ?_, by rw [c5, a5, a4]⟩
    intro l
    rw [c4, a4]; simp
  · intro w hs
    rw [hsub] at hs
    have := h.one_place w hs
    rw [c1, c2, c3, c4, c5, c6]
    by_cases e2 : (s.pool.works w).loop = loop
    · rw [if_pos e2, ← e2]; omega
    · rw [if_neg e2, h.own_loop w loop (fun c => e2 c.symm)]; omega
  · intro w l hl
    rw [c6] at hl
    rw [c4, h.own_loop w l hl]; simp
  · intro w hr
    rw [c6]; exact h.running_unlinked w hr
  · intro w hq
    rw [c1, c2, c4, c6] at hq
    rw [c6]
    apply h.queued_linked w
    split_ifs at hq <;> omega
  · intro w hd
    rw [c3, c6]; exact h.dispatched_done w hd

theorem count_erase_ite {α : Type} [BEq α] [LawfulBEq α] [DecidableEq α] (l : List α)
    (a b : α) : (l.erase a).count b = l.count b - if b = a then 1 else 0 := by
  by_cases e : b = a
  · subst e; rw [List.count_erase_self]; simp
  · rw [List.count_erase_of_ne e]; simp [e]

theorem life_inv_cancel (s : pool_run) (v : Nat) (h : life_inv s) (hs : submitted s v)
    (hd : done_count s v = 0) : life_inv (run_cancel s v) := by
  cases hc : work_cancellable s.pool v
  · have e := uv__work_cancel_busy s.pool (s.pool.works v).loop v hc
    have e1 : (run_cancel s v).pool = s.pool := by unfold run_cancel; rw [e]
    have e2 : (run_cancel s v).cancelled = s.cancelled := by
      unfold run_cancel; rw [e]; simp [UV_EBUSY]
    apply life_inv_congr s _ h
    · intro w; unfold wq_count; rw [e1]
    · intro w; unfold slow_count; rw [e1]
    · rfl
    · rw [e1]
    · rfl
    · rw [e1]
    · rfl
    · rfl
    · exact e2
    · rfl
    · rfl
  · have e := uv__work_cancel_state s.pool (s.pool.works v).loop v hc
    obtain ⟨hf, hnn⟩ := (work_cancellable_iff s.pool v).1 hc
    have e1 : (run_cancel s v).pool = (uv__work_cancel s.pool (s.pool.works v).loop v).2 := rfl
    have e2 : (run_cancel s v).cancelled = v :: s.cancelled := by
      unfold run_cancel; rw [e]; simp
    have c1 : ∀ w, wq_count (run_cancel s v) w = wq_count s w - if w = v then 1 else 0 := by
      intro w
      unfold wq_count
      rw [e1, e]
      simp only []
      rw [count_erase_ite]
      by_cases e3 : w = v
      · subst e3; simp
      · simp [e3]
    have c2 : ∀ w, slow_count (run_cancel s v) w = slow_count s w - if w = v then 1 else 0 := by
      intro w
      unfold slow_count
      rw [e1, e]
      simp only []
      rw [count_erase_ite]
      by_cases e3 : w = v
      · subst e3; simp
      · simp [e3]
    have c3 : ∀ w, run_count (run_cancel s v) w = run_count s w := fun _ => rfl
    have c4 : ∀ l w, loop_count (run_cancel s v) l w =
        (loop_count s l w - if w = v then 1 else 0) +
          if l = (s.pool.works v).loop ∧ w = v then 1 else 0 := by
      intro l w
      unfold loop_count
      rw [e1, e]
      simp only [Function.update_apply]
      by_cases e3 : l = (s.pool.works v).loop
      · rw [if_pos e3, List.count_append, count_erase_ite, List.count_singleton, e3]
        by_cases e4 : w = v
        · subst e4; simp
        · have : ¬ v = w := fun c => e4 c.symm
          simp [e4, this]
      · rw [if_neg e3, count_erase_ite]
        simp [e3]
    have c5 : ∀ w, done_count (run_cancel s v) w = done_count s w := fun _ => rfl
    have c6 : (run_cancel s v).pool.works = Function.update s.pool.works v
        { s.pool.works v with work := work_fn.uv__cancelled, wq_empty := false } := by
      rw [e1, e]
    have hsub : ∀ w, submitted (run_cancel s v) w ↔ submitted s w := fun _ => Iff.rfl
    have hloop : ∀ w, ((run_cancel s v).pool.works w).loop = (s.pool.works w).loop := by
      intro w
      rw [c6]
      by_cases e3 : w = v
      · subst e3; rw [Function.update_same]
      · rw [Function.update_noteq e3]
    have hw : ∀ w, w ≠ v → (run_cancel s v).pool.works w = s.pool.works w := by
      intro w e3; rw [c6, Function.update_noteq e3]
    have hvr : run_count s v = 0 := by
      by_contra hn
      have := h.running_unlinked v (Nat.pos_of_ne_zero hn)
      rw [hf] at this; cases this
    have hv1 := h.one_place v hs
    have hvd : ¬ (v ∈ s.wq_dispatched ∨ v ∈ s.slow_dispatched) := by
      intro hd2
      rcases h.dispatched_done v hd2 with a | a
      · omega
      · exact hnn a
    refine ⟨?_, ?_, ?_, ?_, ?_, h.nodup, ?_, h.dispatched_sub, ?_⟩
    · intro w hn
      rw [hsub] at hn
      have e3 : w ≠ v := by rintro rfl; exact hn hs
      obtain ⟨a1, a2, a3, a4, a5⟩ := h.fresh w hn
      refine ⟨by rw [c1, a1]; simp, by rw [c2, a2]; simp, by rw [c3, a3], ?_, by rw [c5, a5]⟩
      intro l
      rw [c4, a4]; simp [e3]
    · intro w hs2
      rw [hsub] at hs2
      have := h.one_place w hs2
      rw [c1, c2, c3, c4, c5, hloop]
      by_cases e3 : w = v
      · subst e3
        simp only [if_true, and_self]
        omega
      · simp only [e3, if_false, and_false]
        omega
    · intro w l hl
      rw [hloop] at hl
      rw [c4, h.own_loop w l hl]
      by_cases e3 : w = v
      · subst e3; simp [hl]
      · simp [e3]
    · intro w hr
      rw [c3] at hr
      have e3 : w ≠ v := by rintro rfl; omega
      rw [hw w e3]; exact h.running_unlinked w hr
    · intro w hq
      by_cases e3 : w = v
      · subst e3; rw [c6, Function.update_same]
      · rw [c1, c2, c4, hloop] at hq
        simp only [e3, if_false, and_false, Nat.add_zero, Nat.sub_zero] at hq
        rw [hw w e3]
        exact h.queued_linked w hq
    · intro w hc2
      rw [e2] at hc2
      rw [hsub]
      rcases List.mem_cons.1 hc2 with rfl | hc2
      · exact hs
      · exact h.cancelled_sub w hc2
    · intro w hd2
      have e3 : w ≠ v := by rintro rfl; exact hvd hd2
      rw [c3, hw w e3]
      exact h.dispatched_done w hd2


/-! ## The thread pool: the order of the queues -/

theorem filter_ne_eq_erase (l : List Nat) (v : Nat) (h : l.count v ≤ 1) :
    l.filter (fun w => decide (w ≠ v)) = l.erase v := by
  induction l with
  | nil => rfl
  | cons a l ih =>
    by_cases e : a = v
    · subst e
      rw [List.erase_cons_head, List.filter_cons]
      simp only [ne_eq, not_true_eq_false, decide_False, Bool.false_eq_true, if_false]
      rw [List.filter_eq_self]
      intro w hw
      simp only [List.count_cons_self] at h
      have h0 : l.count a = 0 := by omega
      have : a ∉ l := List.count_eq_zero.1 h0
      simp only [decide_eq_true_eq]
      rintro rfl
      exact this hw
    · rw [List.erase_cons_tail (by simpa using e), List.filter_cons]
      simp only [ne_eq, e, not_false_eq_true, decide_True, if_true]
      rw [List.count_cons_of_ne (fun c => e c.symm)] at h
      have ih2 := ih h
      simp only [ne_eq] at ih2
      rw [ih2]

theorem filter_not_mem_cons (l c : List Nat) (v : Nat) :
    l.filter (fun w => decide (w ∉ v :: c)) =
      (l.filter (fun w => decide (w ∉ c))).filter (fun w => decide (w ≠ v)) := by
  rw [List.filter_filter]
  apply List.filter_congr
  intro w _
  simp only [List.mem_cons, not_or, Bool.decide_and, ne_eq, Bool.and_comm]

theorem filter_ne_of_not_mem (l : List Nat) (v : Nat) (h : v ∉ l) :
    l.filter (fun w => decide (w ≠ v)) = l := by
  rw [List.filter_eq_self]
  intro w hw
  simp only [ne_eq, decide_eq_true_eq]
  rintro rfl
  exact h hw

/-- Taking the cancelled item out of a queue keeps the order of the queue. -/
theorem fifo_erase (d i sub c : List Nat) (v : Nat)
    (h : d ++ i = sub.filter (fun w => decide (w ∉ c))) (hd : v ∉ d) (hi : i.count v ≤ 1) :
    d ++ i.erase v = sub.filter (fun w => decide (w ∉ v :: c)) := by
  rw [filter_not_mem_cons, ← h, List.filter_append, filter_ne_of_not_mem d v hd,
    filter_ne_eq_erase i v hi]

theorem worker_take_marker (p : threadpool) (hm : marker_inv p)
    (h : qnode.run_slow_work_message ∈ (worker_take p).2.wq) :
    (worker_take p).2.slow_io_pending_wq ≠ [] ∨
      (qnode.run_slow_work_message ∈ p.wq ∧ p.slow_io_pending_wq = []) := by
  rcases worker_take_cases p hm.slow_items with
    ⟨e, _⟩ | ⟨w, rest, hq, e⟩ | ⟨rest, hq, e⟩ | ⟨rest, hq, hs, e⟩ |
    ⟨rest, w, srest, hq, hs, hne, _, e⟩ | ⟨rest, w, hq, hs, _, e⟩
  · rw [e] at h ⊢
    by_cases c : p.slow_io_pending_wq = []
    · exact Or.inr ⟨h, c⟩
    · exact Or.inl c
  · rw [e] at h ⊢
    simp only [set_work] at h ⊢
    by_cases c : p.slow_io_pending_wq = []
    · exact Or.inr ⟨by rw [hq]; exact List.mem_cons_of_mem _ h, c⟩
    · exact Or.inl c
  · rw [e]
    by_cases c : p.slow_io_pending_wq = []
    · exact Or.inr ⟨by rw [hq]; exact List.mem_cons_self _ _, c⟩
    · exact Or.inl c
  · rw [e]
    exact Or.inr ⟨by rw [hq]; exact List.mem_cons_self _ _, hs⟩
  · rw [e]
    left
    simp only [set_work]
    exact hne
  · rw [e] at h
    simp only [set_work] at h
    have h1 := hm.once
    rw [hq, List.count_cons_self] at h1
    have : qnode.run_slow_work_message ∉ rest := List.count_eq_zero.1 (by omega)
    exact absurd h this

theorem fifo_inv_boot (val : Option String) (malloc_ok : Bool) (works : Nat → uv__work) :
    fifo_inv (pool_boot val malloc_ok works) :=
  ⟨rfl, rfl, fun h => by cases h⟩

theorem fifo_inv_congr (s t : pool_run) (h : fifo_inv s)
    (c1 : t.pool.wq = s.pool.wq)
    (c2 : t.pool.slow_io_pending_wq = s.pool.slow_io_pending_wq)
    (c3 : t.wq_submitted = s.wq_submitted) (c4 : t.slow_submitted = s.slow_submitted)
    (c5 : t.cancelled = s.cancelled) (c6 : t.wq_dispatched = s.wq_dispatched)
    (c7 : t.slow_dispatched = s.slow_dispatched) : fifo_inv t :=
  ⟨by rw [c1, c3, c5, c6]; exact h.wq_order, by rw [c2, c4, c5, c7]; exact h.slow_order,
    by rw [c1, c2, c4, c5]; exact h.marker_cause⟩

theorem fifo_inv_submit (s : pool_run) (loop v : Nat) (kind : uv__work_kind) (work : Nat)
    (done : Option Nat) (hl : life_inv s) (h : fifo_inv s) (hv : ¬ submitted s v) :
    fifo_inv (run_submit s loop v kind work done) := by
  have hc : v ∉ s.cancelled := fun c => hv (hl.cancelled_sub v c)
  have hfil : ∀ l : List Nat, (l ++ [v]).filter (fun w => decide (w ∉ s.cancelled)) =
      l.filter (fun w => decide (w ∉ s.cancelled)) ++ [v] := by
    intro l
    rw [List.filter_append]
    congr 1
    simp [hc]
  unfold run_submit
  by_cases hk : kind = uv__work_kind.UV__WORK_SLOW_IO
  · subst hk
    simp only [if_true]
    cases hf : s.pool.run_slow_work_message_empty
    · rw [uv__work_submit_slow_linked _ _ _ _ _ hf]
      refine ⟨h.wq_order, ?_, ?_⟩
      · simp only [queue_items_append, hfil]
        rw [← List.append_assoc, h.slow_order]
        rfl
      · intro _; left; simp
    · rw [uv__work_submit_slow_unlinked _ _ _ _ _ hf]
      refine ⟨?_, ?_, ?_⟩
      · simp only [queue_items_append]
        rw [← h.wq_order]
        simp [queue_items_cons_marker, queue_items_nil]
      · simp only [queue_items_append, hfil]
        rw [← List.append_assoc, h.slow_order]
        rfl
      · intro _; left; simp
  · simp only [hk, if_false]
    rw [uv__work_submit_fast _ _ _ _ _ _ hk]
    refine ⟨?_, h.slow_order, ?_⟩
    · simp only [queue_items_append, hfil]
      rw [← List.append_assoc, h.wq_order]
      rfl
    · intro hm
      simp only [List.mem_append, List.mem_singleton, reduceCtorEq, or_false] at hm
      exact h.marker_cause hm

theorem fifo_inv_worker (s : pool_run) (hm : marker_inv s.pool) (h : fifo_inv s) :
    fifo_inv (run_worker s) := by
  obtain ⟨_, g2, g3, g4, _⟩ := run_worker_ghost s
  have hpool : (run_worker s).pool = (worker_take s.pool).2 := by
    unfold run_worker; split <;> rfl
  have hcause : qnode.run_slow_work_message ∈ (run_worker s).pool.wq →
      (run_worker s).pool.slow_io_pending_wq ≠ [] ∨
        ∃ w ∈ (run_worker s).cancelled, w ∈ (run_worker s).slow_submitted := by
    intro hmem
    rw [hpool] at hmem ⊢
    rw [g3, g4]
    rcases worker_take_marker s.pool hm hmem with c | ⟨c1, c2⟩
    · exact Or.inl c
    · rcases h.marker_cause c1 with d | d
      · exact absurd c2 d
      · exact Or.inr d
  rcases run_worker_frame s hm with
    ⟨_, c2, _, _, _, c6, c7, c8⟩ | ⟨v, b, _, _, _, _, _, c6, c7, c8, c9⟩
  · refine ⟨?_, ?_, hcause⟩
    · rw [c6, c8, g2, g4]; exact h.wq_order
    · rw [c7, c2, g3, g4]; exact h.slow_order
  · refine ⟨?_, ?_, hcause⟩
    · rw [c6, g2, g4, ← h.wq_order, c8]
      cases b <;> simp
    · rw [c7, g3, g4, ← h.slow_order, c9]
      cases b <;> simp

theorem fifo_inv_complete (s : pool_run) (v : Nat) (b : Bool) (h : fifo_inv s) :
    fifo_inv (run_complete s v b) :=
  fifo_inv_congr s _ h rfl rfl rfl rfl rfl rfl rfl

theorem fifo_inv_relock (s : pool_run) (h : fifo_inv s) : fifo_inv (run_relock s) := by
  obtain ⟨_, f1, f2, _, _, _⟩ := worker_relock_frame s.pool true
  have e : (run_relock s).pool = worker_relock s.pool true := by unfold run_relock; rfl
  apply fifo_inv_congr s _ h
  · rw [e, f1]
  · rw [e, f2]
  · unfold run_relock; rfl
  · unfold run_relock; rfl
  · unfold run_relock; rfl
  · unfold run_relock; rfl
  · unfold run_relock; rfl

theorem fifo_inv_drain (s : pool_run) (loop : Nat) (h : fifo_inv s) :
    fifo_inv (run_drain s loop) := by
  have e : (run_drain s loop).pool =
      { s.pool with loop_wq := Function.update s.pool.loop_wq loop [] } := by
    unfold run_drain; rw [uv__work_done_idle]
  apply fifo_inv_congr s _ h
  · rw [e]
  · rw [e]
  · rfl
  · rfl
  · rfl
  · rfl
  · rfl

theorem fifo_inv_cancel (s : pool_run) (v : Nat) (hl : life_inv s) (h : fifo_inv s)
    (hs : submitted s v) : fifo_inv (run_cancel s v) := by
  cases hc : work_cancellable s.pool v
  · have e := uv__work_cancel_busy s.pool (s.pool.works v).loop v hc
    have e1 : (run_cancel s v).pool = s.pool := by unfold run_cancel; rw [e]
    have e2 : (run_cancel s v).cancelled = s.cancelled := by
      unfold run_cancel; rw [e]; simp [UV_EBUSY]
    apply fifo_inv_congr s _ h
    · rw [e1]
    · rw [e1]
    · rfl
    · rfl
    · exact e2
    · rfl
    · rfl
  · have e := uv__work_cancel_state s.pool (s.pool.works v).loop v hc
    obtain ⟨hf, hnn⟩ := (work_cancellable_iff s.pool v).1 hc
    have e1 : (run_cancel s v).pool = (uv__work_cancel s.pool (s.pool.works v).loop v).2 := rfl
    have e2 : (run_cancel s v).cancelled = v :: s.cancelled := by
      unfold run_cancel; rw [e]; simp
    have e3 : (run_cancel s v).pool.wq = s.pool.wq.erase (qnode.work_req v) := by rw [e1, e]
    have e4 : (run_cancel s v).pool.slow_io_pending_wq =
        s.pool.slow_io_pending_wq.erase (qnode.work_req v) := by rw [e1, e]
    have hvr : run_count s v = 0 := by
      by_contra hn
      have := hl.running_unlinked v (Nat.pos_of_ne_zero hn)
      rw [hf] at this; cases this
    have hv1 := hl.one_place v hs
    have hvd : ¬ (v ∈ s.wq_dispatched ∨ v ∈ s.slow_dispatched) := by
      intro hd2
      rcases hl.dispatched_done v hd2 with a | a
      · omega
      · exact hnn a
    have k1 : (queue_items s.pool.wq).count v ≤ 1 := by
      rw [count_queue_items]
      have : wq_count s v = s.pool.wq.count (qnode.work_req v) := rfl
      omega
    have k2 : (queue_items s.pool.slow_io_pending_wq).count v ≤ 1 := by
      rw [count_queue_items]
      have : slow_count s v = s.pool.slow_io_pending_wq.count (qnode.work_req v) := rfl
      omega
    refine ⟨?_, ?_, ?_⟩
    · rw [e2, e3, queue_items_erase]
      exact fifo_erase _ _ _ _ v h.wq_order (fun c => hvd (Or.inl c)) k1
    · rw [e2, e4, queue_items_erase]
      exact fifo_erase _ _ _ _ v h.slow_order (fun c => hvd (Or.inr c)) k2
    · intro hmem
      rw [e3, mem_erase_work_req] at hmem
      rw [e2, e4]
      rcases h.marker_cause hmem with c | ⟨w, c1, c2⟩
      · by_cases hne : s.pool.slow_io_pending_wq.erase (qnode.work_req v) = []
        · right
          refine ⟨v, List.mem_cons_self _ _, ?_⟩
          have hin : qnode.work_req v ∈ s.pool.slow_io_pending_wq := by
            by_contra hnot
            rw [List.erase_of_not_mem hnot] at hne
            exact c hne
          have : v ∈ s.slow_dispatched ++ queue_items s.pool.slow_io_pending_wq :=
            List.mem_append_right _ ((mem_queue_items _ _).2 hin)
          rw [h.slow_order] at this
          exact (List.mem_filter.1 this).1
        · exact Or.inl hne
      · exact Or.inr ⟨w, List.mem_cons_of_mem _ c1, c2⟩

/-! ## The thread pool: the invariant of the executions -/

theorem pool_inv_of_reachable (s : pool_run) (h : pool_reachable s) : pool_inv s := by
  induction h with
  | init val malloc_ok works =>
    exact ⟨marker_inv_init val malloc_ok _, slow_inv_boot val malloc_ok works,
      life_inv_boot val malloc_ok works, fifo_inv_boot val malloc_ok works⟩
  | submit s loop w kind work done _ hf ih =>
    exact ⟨marker_inv_submit _ _ _ _ _ _ ih.marker, slow_inv_submit _ _ _ _ _ _ ih.slow,
      life_inv_submit _ _ _ _ _ _ ih.life hf, fifo_inv_submit _ _ _ _ _ _ ih.life ih.fifo hf⟩
  | worker s _ ih =>
    have e : (run_worker s).pool = (worker_take s.pool).2 := by
      unfold run_worker; split <;> rfl
    exact ⟨by rw [e]; exact marker_inv_take _ ih.marker, slow_inv_worker _ ih.marker ih.slow,
      life_inv_worker _ ih.marker ih.life, fifo_inv_worker _ ih.marker ih.fifo⟩
  | complete s w b _ hr ih =>
    exact ⟨marker_inv_congr s.pool _ ih.marker rfl rfl rfl, slow_inv_complete _ _ _ hr ih.slow,
      life_inv_complete _ _ _ hr ih.life, fifo_inv_complete _ _ _ ih.fifo⟩
  | relock s _ hr ih =>
    obtain ⟨_, f1, f2, f3, _, _⟩ := worker_relock_frame s.pool true
    have e : (run_relock s).pool = worker_relock s.pool true := by unfold run_relock; rfl
    exact ⟨marker_inv_congr s.pool _ ih.marker (by rw [e, f1]) (by rw [e, f2]) (by rw [e, f3]),
      slow_inv_relock _ hr ih.slow, life_inv_relock _ ih.life, fifo_inv_relock _ ih.fifo⟩
  | cancel s w _ hs hd ih =>
    exact ⟨marker_inv_cancel _ _ _ ih.marker, slow_inv_cancel _ _ ih.slow,
      life_inv_cancel _ _ ih.life hs hd, fifo_inv_cancel _ _ ih.life ih.fifo hs⟩
  | drain s loop _ ih =>
    have e : (run_drain s loop).pool =
        { s.pool with loop_wq := Function.update s.pool.loop_wq loop [] } := by
      unfold run_drain; rw [uv__work_done_idle]
    exact ⟨marker_inv_congr s.pool _ ih.marker (by rw [e]) (by rw [e]) (by rw [e]),
      slow_inv_drain _ _ ih.slow, life_inv_drain _ _ ih.life, fifo_inv_drain _ _ ih.fifo⟩


/-! ## The thread pool: the claims on the executions -/

theorem run_two_slow_reachable : pool_reachable run_two_slow :=
  pool_reachable.submit _ 0 2 _ 11 (some 21)
    (pool_reachable.submit _ 0 1 _ 10 (some 20) (pool_reachable.init none true work_memory_zero)
      (by unfold submitted; decide))
    (by unfold submitted; decide)

theorem run_slow_taken_reachable : pool_reachable run_slow_taken :=
  pool_reachable.worker _ run_two_slow_reachable

theorem run_slow_cancelled_reachable : pool_reachable run_slow_cancelled :=
  pool_reachable.cancel _ 1
    (pool_reachable.submit _ 0 1 _ 10 (some 20) (pool_reachable.init none true work_memory_zero)
      (by unfold submitted; decide))
    (by unfold submitted; decide) (by decide)

theorem run_three_fast_reachable : pool_reachable run_three_fast :=
  pool_reachable.worker _ (pool_reachable.worker _ (pool_reachable.cancel _ 2
    (pool_reachable.submit _ 0 3 _ 12 (some 22)
      (pool_reachable.submit _ 0 2 _ 11 (some 21)
        (pool_reachable.submit _ 0 1 _ 10 (some 20)
          (pool_reachable.init none true work_memory_zero)
          (by unfold submitted; decide))
        (by unfold submitted; decide))
      (by unfold submitted; decide))
    (by unfold submitted; decide) (by decide)))

theorem run_one_done_reachable : pool_reachable run_one_done :=
  pool_reachable.drain _ 0 (pool_reachable.complete _ 1 false
    (pool_reachable.worker _
      (pool_reachable.submit _ 0 1 _ 10 (some 20) (pool_reachable.init none true work_memory_zero)
        (by unfold submitted; decide)))
    (by decide))

theorem slow_threshold_ceil (p : threadpool) (h1 : 1 ≤ p.nthreads) (h2 : p.nthreads ≤ 1024) :
    slow_work_thread_threshold p = ⌈(p.nthreads : ℚ) / 2⌉₊ := by
  unfold slow_work_thread_threshold
  have e : (p.nthreads + 1) % 2 ^ 32 / 2 = (p.nthreads + 1) / 2 := by omega
  rw [e]
  symm
  rw [Nat.ceil_eq_iff (by omega)]
  rcases Nat.even_or_odd' p.nthreads with ⟨k, hk | hk⟩
  · have e2 : (p.nthreads + 1) / 2 = k := by omega
    rw [e2, hk]
    have hk1 : 1 ≤ k := by omega
    push_cast [Nat.cast_sub hk1]
    constructor <;> linarith
  · have e2 : (p.nthreads + 1) / 2 = k + 1 := by omega
    rw [e2, hk]
    push_cast
    constructor <;> linarith

/-- C13. In every state of an execution of the pool the counter `slow_io_work_running` is at
most the threshold of `slow_work_thread_threshold`, which is the ceiling of `nthreads / 2`
and at most `nthreads`, so that at least `nthreads / 2` (rounded down) threads run no slow
item. The counter is the number of workers that run a slow item or have not yet decremented
it after one; the decrement of such a worker does not wrap around. For every `nthreads`
from 1 to 1024 the threshold is the ceiling of `nthreads / 2`. -/
theorem slow_work_bounded (s : pool_run) (h : pool_reachable s) :
    s.pool.slow_io_work_running ≤ slow_work_thread_threshold s.pool ∧
    slow_work_thread_threshold s.pool = ⌈(s.pool.nthreads : ℚ) / 2⌉₊ ∧
    slow_work_thread_threshold s.pool ≤ s.pool.nthreads ∧
    s.pool.nthreads / 2 ≤ s.pool.nthreads - s.pool.slow_io_work_running ∧
    s.pool.slow_io_work_running = slow_running s + s.relocking ∧
    (0 < s.relocking →
      (worker_relock s.pool true).slow_io_work_running + 1 = s.pool.slow_io_work_running) ∧
    (∀ p : threadpool, 1 ≤ p.nthreads → p.nthreads ≤ 1024 →
      slow_work_thread_threshold p = ⌈(p.nthreads : ℚ) / 2⌉₊) := by
  have hi := (pool_inv_of_reachable s h).slow
  have h1 := hi.nthreads_pos
  have h2 := hi.nthreads_le
  have h3 := hi.bounded
  have h4 := hi.counted
  unfold MAX_THREADPOOL_SIZE at h2
  have ht : slow_work_thread_threshold s.pool = (s.pool.nthreads + 1) / 2 := by
    unfold slow_work_thread_threshold; omega
  refine ⟨h3, slow_threshold_ceil s.pool h1 h2, by omega, by omega, h4, ?_, slow_threshold_ceil⟩
  intro hr
  simp only [worker_relock, if_true]
  omega

theorem slow_work_bounded_witness :
    run_slow_taken.pool.slow_io_work_running = 1 ∧
    slow_work_thread_threshold run_slow_taken.pool = 2 ∧
    run_slow_taken.pool.slow_io_work_running ≤ slow_work_thread_threshold run_slow_taken.pool :=
  ⟨by decide, by decide, (slow_work_bounded run_slow_taken run_slow_taken_reachable).1⟩

/-- C14, refuted as stated. After the submission of one slow item and its cancellation the
marker `run_slow_work_message` is in `wq` although `slow_io_pending_wq` is empty: the
cancellation takes the item out of its queue and leaves the marker where it is. -/
theorem marker_left_by_cancel :
    pool_reachable run_slow_cancelled ∧
    run_slow_cancelled.pool.wq = [qnode.run_slow_work_message] ∧
    run_slow_cancelled.pool.run_slow_work_message_empty = false ∧
    run_slow_cancelled.pool.slow_io_pending_wq = [] :=
  ⟨run_slow_cancelled_reachable, by decide, by decide, by decide⟩

/-- C14, amended. In every state of an execution of the pool the marker is linked exactly
when it is in `wq`; it is in `wq` whenever `slow_io_pending_wq` has a member; and when it
is in `wq`, then `slow_io_pending_wq` has a member or an item submitted as slow I/O has
been cancelled. In an execution without such a cancellation the marker is in `wq` exactly
when `slow_io_pending_wq` has a member. -/
theorem marker_linked_iff_slow_pending (s : pool_run) (h : pool_reachable s) :
    (s.pool.run_slow_work_message_empty = false ↔ qnode.run_slow_work_message ∈ s.pool.wq) ∧
    (s.pool.slow_io_pending_wq ≠ [] → qnode.run_slow_work_message ∈ s.pool.wq) ∧
    (qnode.run_slow_work_message ∈ s.pool.wq →
      s.pool.slow_io_pending_wq ≠ [] ∨ ∃ w ∈ s.cancelled, w ∈ s.slow_submitted) ∧
    ((∀ w ∈ s.cancelled, w ∉ s.slow_submitted) →
      (qnode.run_slow_work_message ∈ s.pool.wq ↔ s.pool.slow_io_pending_wq ≠ [])) := by
  have hi := pool_inv_of_reachable s h
  refine ⟨hi.marker.linked_iff, hi.marker.scheduled, hi.fifo.marker_cause, ?_⟩
  intro hc
  refine ⟨fun hm => ?_, hi.marker.scheduled⟩
  rcases hi.fifo.marker_cause hm with c | ⟨w, c1, c2⟩
  · exact c
  · exact absurd c2 (hc w c1)

theorem marker_linked_iff_slow_pending_witness :
    (qnode.run_slow_work_message ∈ run_two_slow.pool.wq ↔
      run_two_slow.pool.slow_io_pending_wq ≠ []) ∧
    run_two_slow.pool.slow_io_pending_wq = [qnode.work_req 1, qnode.work_req 2] :=
  ⟨(marker_linked_iff_slow_pending run_two_slow run_two_slow_reachable).2.2.2 (by decide),
    by decide⟩

/-- C15. In every state of an execution of the pool the marker `run_slow_work_message` is
at most once in `wq`, `slow_io_pending_wq` holds links of work items only and so never the
marker, and the marker is in `wq` whenever `slow_io_pending_wq` has a member. -/
theorem marker_at_most_once (s : pool_run) (h : pool_reachable s) :
    s.pool.wq.count qnode.run_slow_work_message ≤ 1 ∧
    qnode.run_slow_work_message ∉ s.pool.slow_io_pending_wq ∧
    (∀ q ∈ s.pool.slow_io_pending_wq, ∃ w, q = qnode.work_req w) ∧
    (s.pool.slow_io_pending_wq ≠ [] → qnode.run_slow_work_message ∈ s.pool.wq) := by
  have hi := (pool_inv_of_reachable s h).marker
  refine ⟨hi.once, ?_, hi.slow_items, hi.scheduled⟩
  intro hm
  obtain ⟨w, hw⟩ := hi.slow_items _ hm
  cases hw

theorem marker_at_most_once_witness :
    run_slow_taken.pool.wq = [qnode.run_slow_work_message] ∧
    run_slow_taken.pool.slow_io_pending_wq = [qnode.work_req 2] ∧
    run_slow_taken.pool.wq.count qnode.run_slow_work_message ≤ 1 :=
  ⟨by decide, by decide, (marker_at_most_once run_slow_taken run_slow_taken_reachable).1⟩

/-- C17. In every state of an execution of the pool, for every submitted item: the numbers
of its places in `wq`, in `slow_io_pending_wq`, on workers, in the completion queue of its
loop, and of the calls of its `done` add up to 1, and it is in the completion queue of no
other loop. So it is never in two queues; `done` has been called once when the item is in
no queue and on no worker, and not at all before. When no queue holds an item and no worker
runs one, `done` has been called exactly once for every submission. -/
theorem work_item_lifecycle (s : pool_run) (h : pool_reachable s) (w : Nat)
    (hs : submitted s w) :
    wq_count s w + slow_count s w + run_count s w +
      loop_count s (s.pool.works w).loop w + done_count s w = 1 ∧
    (∀ l, l ≠ (s.pool.works w).loop → w ∉ s.pool.loop_wq l) ∧
    ¬ (qnode.work_req w ∈ s.pool.wq ∧ qnode.work_req w ∈ s.pool.slow_io_pending_wq) ∧
    ¬ (qnode.work_req w ∈ s.pool.wq ∧ ∃ l, w ∈ s.pool.loop_wq l) ∧
    ¬ (qnode.work_req w ∈ s.pool.slow_io_pending_wq ∧ ∃ l, w ∈ s.pool.loop_wq l) ∧
    done_count s w ≤ 1 ∧
    (done_count s w = 1 ↔
      (qnode.work_req w ∉ s.pool.wq ∧ qnode.work_req w ∉ s.pool.slow_io_pending_wq ∧
        (∀ b, (w, b) ∉ s.running) ∧ ∀ l, w ∉ s.pool.loop_wq l)) ∧
    (queue_items s.pool.wq = [] → s.pool.slow_io_pending_wq = [] → s.running = [] →
      (∀ l, s.pool.loop_wq l = []) → done_count s w = 1) := by
  have hi := (pool_inv_of_reachable s h).life
  have h1 := hi.one_place w hs
  have hown := hi.own_loop w
  have m1 : qnode.work_req w ∈ s.pool.wq ↔ 0 < wq_count s w := List.count_pos_iff.symm
  have m2 : qnode.work_req w ∈ s.pool.slow_io_pending_wq ↔ 0 < slow_count s w :=
    List.count_pos_iff.symm
  have m3 : ∀ l, w ∈ s.pool.loop_wq l ↔ 0 < loop_count s l w := fun l =>
    List.count_pos_iff.symm
  have m4 : (∃ l, w ∈ s.pool.loop_wq l) ↔ 0 < loop_count s (s.pool.works w).loop w := by
    constructor
    · rintro ⟨l, hl⟩
      by_cases e : l = (s.pool.works w).loop
      · rw [← e]; exact (m3 l).1 hl
      · have := hown l e
        have := (m3 l).1 hl
        omega
    · intro hl
      exact ⟨_, (m3 _).2 hl⟩
  have m5 : (∀ b, (w, b) ∉ s.running) ↔ run_count s w = 0 := by
    unfold run_count
    rw [List.count_eq_zero, List.mem_map]
    constructor
    · rintro hb ⟨⟨v, b⟩, hm, rfl⟩
      exact hb b hm
    · intro hn b hm
      exact hn ⟨(w, b), hm, rfl⟩
  have m6 : (∀ l, w ∉ s.pool.loop_wq l) ↔ loop_count s (s.pool.works w).loop w = 0 := by
    constructor
    · intro hl
      have := hl (s.pool.works w).loop
      rw [m3] at this
      omega
    · intro hl l hm
      have : ∃ l, w ∈ s.pool.loop_wq l := ⟨l, hm⟩
      rw [m4] at this
      omega
  refine ⟨h1, ?_, ?_, ?_, ?_, by omega, ?_, ?_⟩
  · intro l hl hm
    have := hown l hl
    rw [m3] at hm
    omega
  · rw [m1, m2]; omega
  · rw [m1, m4]; omega
  · rw [m2, m4]; omega
  · rw [m1, m2, m5, m6]; omega
  · intro q1 q2 q3 q4
    have a1 : wq_count s w = 0 := by
      unfold wq_count
      rw [← count_queue_items, q1]; rfl
    have a2 : slow_count s w = 0 := by
      unfold slow_count; rw [q2]; rfl
    have a3 : run_count s w = 0 := by
      unfold run_count; rw [q3]; rfl
    have a4 : loop_count s (s.pool.works w).loop w = 0 := by
      unfold loop_count; rw [q4]; rfl
    omega

theorem work_item_lifecycle_witness :
    submitted run_one_done 1 ∧ done_count run_one_done 1 = 1 ∧
    run_one_done.done_calls = [(1, 0)] := by
  have hs : submitted run_one_done 1 := by unfold submitted; decide
  exact ⟨hs, (work_item_lifecycle run_one_done run_one_done_reachable 1 hs).2.2.2.2.2.2.2
    (by decide) (by decide) (by decide) (fun l => by
      by_cases e : l = 0
      · subst e; decide
      · simp [run_one_done, run_drain, uv__work_done_idle, Function.update_noteq e,
          run_complete, worker_done, set_work, Function.update_apply, run_worker, worker_take,
          run_submit, uv__work_submit, post, run_boot, pool_boot, init_threads, pool_static,
          queue_linked, QUEUE_INSERT_TAIL, QUEUE_HEAD, QUEUE_REMOVE, QUEUE_EMPTY,
          worker_must_wait, work_memory_zero, e]), by decide⟩

theorem sublist_pair_of_append (a b : Nat) (d i : List Nat) (h : [a, b].Sublist (d ++ i))
    (hn : (d ++ i).Nodup) (hb : b ∈ d) : [a, b].Sublist d := by
  rw [List.sublist_append_iff] at h
  obtain ⟨l1, l2, e, s1, s2⟩ := h
  have hdis := (List.nodup_append.1 hn).2.2
  have hbi : b ∉ i := fun c => hdis hb c
  cases l1 with
  | nil =>
    simp only [List.nil_append] at e
    subst e
    exact absurd (s2.subset (by simp)) hbi
  | cons x l1 =>
    cases l1 with
    | nil =>
      simp only [List.singleton_append, List.cons.injEq] at e
      obtain ⟨_, e2⟩ := e
      subst e2
      exact absurd (s2.subset (by simp)) hbi
    | cons y l1 =>
      simp only [List.cons_append, List.cons.injEq] at e
      obtain ⟨rfl, rfl, e3⟩ := e
      have : l1 = [] := by
        cases l1 with
        | nil => rfl
        | cons z l1 => simp at e3
      subst this
      exact s1

theorem dispatched_before (d i sub c : List Nat) (a b : Nat)
    (ho : d ++ i = sub.filter (fun w => decide (w ∉ c))) (hn : sub.Nodup)
    (hab : [a, b].Sublist sub) (ha : a ∉ c) (hb : b ∈ d) : [a, b].Sublist d := by
  have hbf : b ∈ sub.filter (fun w => decide (w ∉ c)) := by
    rw [← ho]; exact List.mem_append_left _ hb
  have hbc : b ∉ c := by simpa using (List.mem_filter.1 hbf).2
  have hf : ([a, b].filter (fun w => decide (w ∉ c))).Sublist
      (sub.filter (fun w => decide (w ∉ c))) := hab.filter _
  have e : [a, b].filter (fun w => decide (w ∉ c)) = [a, b] := by
    simp [List.filter_cons, ha, hbc]
  rw [e, ← ho] at hf
  exact sublist_pair_of_append a b d i hf (by rw [ho]; exact hn.filter _) hb

/-- C20. In every state of an execution of the pool, the items that workers have taken
from `wq`, followed by the items that wait in `wq`, are the items submitted to `wq` (kind
CPU or fast I/O) that were not cancelled, in the order of submission; the same holds for
`slow_io_pending_wq` and the items of kind slow I/O. So when `a` was submitted before `b`
to the same queue, `a` was not cancelled and a worker has taken `b`, a worker has taken `a`
before `b`. -/
theorem dispatch_in_submission_order (s : pool_run) (h : pool_reachable s) :
    s.wq_dispatched ++ queue_items s.pool.wq =
      s.wq_submitted.filter (fun w => decide (w ∉ s.cancelled)) ∧
    s.slow_dispatched ++ queue_items s.pool.slow_io_pending_wq =
      s.slow_submitted.filter (fun w => decide (w ∉ s.cancelled)) ∧
    (∀ a b, [a, b].Sublist s.wq_submitted → a ∉ s.cancelled → b ∈ s.wq_dispatched →
      [a, b].Sublist s.wq_dispatched) ∧
    (∀ a b, [a, b].Sublist s.slow_submitted → a ∉ s.cancelled → b ∈ s.slow_dispatched →
      [a, b].Sublist s.slow_dispatched) := by
  have hi := pool_inv_of_reachable s h
  have hn := List.nodup_append.1 hi.life.nodup
  exact ⟨hi.fifo.wq_order, hi.fifo.slow_order,
    fun a b hab ha hb => dispatched_before _ _ _ _ a b hi.fifo.wq_order hn.1 hab ha hb,
    fun a b hab ha hb => dispatched_before _ _ _ _ a b hi.fifo.slow_order hn.2.1 hab ha hb⟩

theorem dispatch_in_submission_order_witness :
    run_three_fast.wq_submitted = [1, 2, 3] ∧ run_three_fast.cancelled = [2] ∧
    run_three_fast.wq_dispatched = [1, 3] ∧
    [1, 3].Sublist run_three_fast.wq_dispatched :=
  ⟨by decide, by decide, by decide,
    (dispatch_in_submission_order run_three_fast run_three_fast_reachable).2.2.1 1 3
      (by decide) (by decide) (by decide)⟩


/-! ## The order of the timers -/

theorem timer_less_than_lex_iff (a b : uv_timer_t) :
    timer_less_than a b = true ↔
      (a.timeout < b.timeout ∨ (a.timeout = b.timeout ∧ a.start_id < b.start_id)) := by
  unfold timer_less_than
  split_ifs <;> simp <;> omega

/-- C21. `timer_less_than a b` is 1 (`true`) exactly when the pair `(timeout, start_id)` of
`a` is below that of `b` in the lexicographic order, and 0 (`false`) otherwise. It is
irreflexive, asymmetric and transitive, and of two timers with different pairs exactly one
is less than the other. -/
theorem timer_less_than_lexicographic (a b c : uv_timer_t) :
    (timer_less_than a b = true ↔
      Prod.Lex (· < ·) (· < ·) (a.timeout, a.start_id) (b.timeout, b.start_id)) ∧
    (timer_less_than a b = false ↔
      ¬ Prod.Lex (· < ·) (· < ·) (a.timeout, a.start_id) (b.timeout, b.start_id)) ∧
    (timer_less_than a b = true ↔
      (a.timeout < b.timeout ∨ (a.timeout = b.timeout ∧ a.start_id < b.start_id))) ∧
    timer_less_than a a = false ∧
    (timer_less_than a b = true → timer_less_than b a = false) ∧
    (timer_less_than a b = true → timer_less_than b c = true → timer_less_than a c = true) ∧
    ((a.timeout, a.start_id) ≠ (b.timeout, b.start_id) →
      ((timer_less_than a b = true ∧ timer_less_than b a = false) ∨
        (timer_less_than a b = false ∧ timer_less_than b a = true))) := by
  have hab := timer_less_than_lex_iff a b
  have hba := timer_less_than_lex_iff b a
  have hbc := timer_less_than_lex_iff b c
  have hac := timer_less_than_lex_iff a c
  have haa := timer_less_than_lex_iff a a
  have hlex : timer_less_than a b = true ↔
      Prod.Lex (· < ·) (· < ·) (a.timeout, a.start_id) (b.timeout, b.start_id) := by
    rw [hab, Prod.lex_def]
  refine ⟨hlex, ?_, hab, ?_, ?_, ?_, ?_⟩
  · rw [← hlex]; simp
  · cases h : timer_less_than a a
    · rfl
    · have := haa.1 h; omega
  · intro h
    cases h2 : timer_less_than b a
    · rfl
    · have := hab.1 h
      have := hba.1 h2
      omega
  · intro h1 h2
    have := hab.1 h1
    have := hbc.1 h2
    apply hac.2
    omega
  · intro hne
    have hne2 : ¬ (a.timeout = b.timeout ∧ a.start_id = b.start_id) := by
      rintro ⟨e1, e2⟩
      exact hne (by rw [e1, e2])
    cases h1 : timer_less_than a b <;> cases h2 : timer_less_than b a
    · exfalso
      have n1 : ¬ (a.timeout < b.timeout ∨ (a.timeout = b.timeout ∧ a.start_id < b.start_id)) :=
        fun c => by rw [hab.2 c] at h1; cases h1
      have n2 : ¬ (b.timeout < a.timeout ∨ (b.timeout = a.timeout ∧ b.start_id < a.start_id)) :=
        fun c => by rw [hba.2 c] at h2; cases h2
      omega
    · exact Or.inr ⟨rfl, rfl⟩
    · exact Or.inl ⟨rfl, rfl⟩
    · exfalso
      have := hab.1 h1
      have := hba.1 h2
      omega

theorem timer_less_than_lexicographic_witness :
    (loop_four_started.timers 1).timeout = (loop_four_started.timers 2).timeout ∧
    timer_less_than (loop_four_started.timers 1) (loop_four_started.timers 2) = true ∧
    ((timer_less_than (loop_four_started.timers 1) (loop_four_started.timers 2) = true ∧
        timer_less_than (loop_four_started.timers 2) (loop_four_started.timers 1) = false) ∨
      (timer_less_than (loop_four_started.timers 1) (loop_four_started.timers 2) = false ∧
        timer_less_than (loop_four_started.timers 2) (loop_four_started.timers 1) = true)) :=
  ⟨by decide, by decide,
    (timer_less_than_lexicographic (loop_four_started.timers 1)
      (loop_four_started.timers 2) (loop_four_started.timers 2)).2.2.2.2.2.2 (by decide)⟩

/-! ## The thread pool: a second cancellation -/

/-- C25. For an item that sits once in the completion queue of the loop with `work` set to
`uv__cancelled` and its link in place (it was cancelled and not yet drained), a second
`uv__work_cancel` returns 0, not `UV_EBUSY`; the item is moved to the tail of the completion
queue and is there once; `work` stays `uv__cancelled`; and `uv__work_done` on the loop calls
its `done` exactly once, with `UV_ECANCELED`. -/
theorem work_cancel_twice (p : threadpool) (loop w : Nat)
    (hl : (p.works w).wq_empty = false) (hw : (p.works w).work = work_fn.uv__cancelled)
    (hc : (p.loop_wq loop).count w = 1) :
    (uv__work_cancel p loop w).1 = 0 ∧
    (uv__work_cancel p loop w).1 ≠ UV_EBUSY ∧
    (uv__work_cancel p loop w).2.loop_wq loop = (p.loop_wq loop).erase w ++ [w] ∧
    ((uv__work_cancel p loop w).2.loop_wq loop).getLast? = some w ∧
    ((uv__work_cancel p loop w).2.loop_wq loop).count w = 1 ∧
    ((uv__work_cancel p loop w).2.works w).work = work_fn.uv__cancelled ∧
    (uv__work_cancel p loop w).2.wq = p.wq.erase (qnode.work_req w) ∧
    (uv__work_done idle_done_cbs (uv__work_cancel p loop w).2 loop).2.filter
      (fun c => decide (c.1 = w)) = [(w, UV_ECANCELED)] := by
  have hcan : work_cancellable p w = true := by
    rw [work_cancellable_iff]
    exact ⟨hl, by rw [hw]; simp⟩
  obtain ⟨e0, e1, _, e3, _, e5, _, _⟩ := uv__work_cancel_ok p loop w hcan
  have hcount : ((uv__work_cancel p loop w).2.loop_wq loop).count w = 1 := by
    rw [e3, List.count_append, List.count_erase_self, hc]
    simp
  have hwork : ((uv__work_cancel p loop w).2.works w).work = work_fn.uv__cancelled := by
    rw [e5]
  refine ⟨e0, by rw [e0]; decide, e3, by rw [e3]; simp, hcount, hwork, e1, ?_⟩
  rw [uv__work_done_calls idle_done_cbs (fun _ _ _ _ => rfl),
    filter_fst_map_of_count_one _ w _ hcount, if_pos hwork]

theorem work_cancel_twice_witness :
    (uv__work_cancel pool_three_items 0 1).1 = 0 ∧
    (uv__work_cancel (uv__work_cancel pool_three_items 0 1).2 0 1).1 = 0 ∧
    (uv__work_cancel (uv__work_cancel pool_three_items 0 1).2 0 1).2.loop_wq 0 = [1] ∧
    (uv__work_done idle_done_cbs
      (uv__work_cancel (uv__work_cancel pool_three_items 0 1).2 0 1).2 0).2 =
        [(1, UV_ECANCELED)] := by
  have h := work_cancel_twice (uv__work_cancel pool_three_items 0 1).2 0 1 (by decide)
    (by decide) (by decide)
  exact ⟨by decide, h.1, by decide, by decide⟩

/-! ## The thread pool: the marker at the threshold -/

theorem worker_take_wait_iff (p : threadpool) :
    (worker_take p).1 = worker_next.wait ↔ worker_must_wait p = true := by
  constructor
  · intro h
    by_contra h1
    unfold worker_take at h
    rw [if_neg h1] at h
    cases hq : QUEUE_HEAD p.wq with
    | none =>
      apply h1
      unfold QUEUE_HEAD at hq
      have : p.wq = [] := List.head?_eq_none_iff.1 hq
      simp [worker_must_wait, QUEUE_EMPTY, this]
    | some q =>
      cases q with
      | exit_message => simp [hq] at h
      | work_req v => simp [hq] at h
      | run_slow_work_message =>
        simp only [hq] at h
        by_cases h2 : p.slow_io_work_running ≥ slow_work_thread_threshold
            { p with
              wq := QUEUE_REMOVE p.wq qnode.run_slow_work_message
              run_slow_work_message_empty := true }
        · rw [if_pos h2] at h; simp at h
        · rw [if_neg h2] at h
          by_cases h3 : QUEUE_EMPTY p.slow_io_pending_wq = true
          · rw [if_pos h3] at h; simp at h
          · rw [if_neg h3] at h
            cases hs : QUEUE_HEAD p.slow_io_pending_wq with
            | none => simp [hs] at h
            | some v =>
              simp only [hs] at h
              cases v <;> split_ifs at h <;> simp [worker_run] at h
  · intro h
    unfold worker_take
    rw [if_pos h]

theorem worker_must_wait_iff (p : threadpool) :
    worker_must_wait p = true ↔
      (p.wq = [] ∨ (p.wq = [qnode.run_slow_work_message] ∧
        slow_work_thread_threshold p ≤ p.slow_io_work_running)) := by
  unfold worker_must_wait QUEUE_EMPTY QUEUE_HEAD
  cases hq : p.wq with
  | nil => simp
  | cons q rest =>
    cases q with
    | exit_message => simp
    | work_req w => simp
    | run_slow_work_message =>
      cases rest with
      | nil => simp
      | cons r rest => simp

/-- C22. With `slow_io_work_running` at the threshold and `wq` holding the marker, then a
work item `x`, then `rest`, a worker does not wait: its pass through the critical section
takes the marker from the head and puts it back at the tail, runs nothing and leaves
`slow_io_pending_wq` and the counter as they are; its next pass takes `x` to run and leaves
`rest` followed by the marker in `wq`. A worker waits exactly when `wq` is empty, or holds
the marker alone while the counter is at the threshold. -/
theorem worker_defers_marker (p : threadpool) (x : Nat) (rest : List qnode)
    (hq : p.wq = qnode.run_slow_work_message :: qnode.work_req x :: rest)
    (hs : slow_work_thread_threshold p ≤ p.slow_io_work_running) :
    worker_must_wait p = false ∧
    worker_take p = (worker_next.again,
      { p with
        wq := qnode.work_req x :: rest ++ [qnode.run_slow_work_message]
        run_slow_work_message_empty := false }) ∧
    (worker_take p).2.slow_io_pending_wq = p.slow_io_pending_wq ∧
    (worker_take p).2.slow_io_work_running = p.slow_io_work_running ∧
    (worker_take (worker_take p).2).1 = worker_next.run x false ∧
    (worker_take (worker_take p).2).2.wq = rest ++ [qnode.run_slow_work_message] ∧
    (worker_take (worker_take p).2).2.slow_io_pending_wq = p.slow_io_pending_wq ∧
    (worker_take (worker_take p).2).2.slow_io_work_running = p.slow_io_work_running ∧
    (∀ q : threadpool, (worker_take q).1 = worker_next.wait ↔
      (q.wq = [] ∨ (q.wq = [qnode.run_slow_work_message] ∧
        slow_work_thread_threshold q ≤ q.slow_io_work_running))) := by
  have hw : worker_must_wait p = false := by
    cases h : worker_must_wait p
    · rfl
    · rw [worker_must_wait_iff, hq] at h
      simp at h
  have e1 : worker_take p = (worker_next.again,
      { p with
        wq := qnode.work_req x :: rest ++ [qnode.run_slow_work_message]
        run_slow_work_message_empty := false }) := by
    unfold worker_take
    rw [if_neg (by rw [hw]; simp)]
    simp only [slow_work_thread_threshold] at hs
    simp only [QUEUE_HEAD, QUEUE_REMOVE, QUEUE_INSERT_TAIL, hq, List.head?_cons,
      List.erase_cons_head, slow_work_thread_threshold, ge_iff_le]
    rw [if_pos hs]
  have hw2 : worker_must_wait
      { p with
        wq := qnode.work_req x :: rest ++ [qnode.run_slow_work_message]
        run_slow_work_message_empty := false } = false := by
    cases h : worker_must_wait _
    · rfl
    · rw [worker_must_wait_iff] at h
      simp at h
  have e2 : worker_take
      { p with
        wq := qnode.work_req x :: rest ++ [qnode.run_slow_work_message]
        run_slow_work_message_empty := false } =
      (worker_next.run x false,
        set_work
          { p with
            wq := rest ++ [qnode.run_slow_work_message]
            run_slow_work_message_empty := false } x { p.works x with wq_empty := true }) := by
    unfold worker_take
    rw [if_neg (by rw [hw2]; simp)]
    simp only [QUEUE_HEAD, QUEUE_REMOVE, List.cons_append, List.head?_cons,
      List.erase_cons_head]
  refine ⟨hw, e1, by rw [e1], by rw [e1], by rw [e1, e2], by rw [e1, e2]; rfl,
    by rw [e1, e2]; rfl, by rw [e1, e2]; rfl, ?_⟩
  intro q
  rw [worker_take_wait_iff, worker_must_wait_iff]

theorem worker_defers_marker_witness :
    (worker_take pool_at_threshold).1 = worker_next.again ∧
    (worker_take pool_at_threshold).2.wq =
      [qnode.work_req 1, qnode.work_req 2, qnode.run_slow_work_message] ∧
    (worker_take (worker_take pool_at_threshold).2).1 = worker_next.run 1 false ∧
    (worker_take (worker_take pool_at_threshold).2).2.wq =
      [qnode.work_req 2, qnode.run_slow_work_message] := by
  have h := worker_defers_marker pool_at_threshold 1 [qnode.work_req 2] rfl (by decide)
  exact ⟨by rw [h.2.1], by rw [h.2.1]; rfl, h.2.2.2.2.1, h.2.2.2.2.2.1⟩


/-! ## The thread pool: the exit message -/

theorem worker_take_exit (p : threadpool) (rest : List qnode)
    (hq : p.wq = qnode.exit_message :: rest) : worker_take p = (worker_next.exit, p) := by
  have hw : ¬ worker_must_wait p = true := by
    rw [worker_must_wait_iff, hq]; simp
  unfold worker_take
  rw [if_neg hw]
  simp only [QUEUE_HEAD, hq, List.head?_cons]

theorem worker_take_exit_iterate (p : threadpool) (rest : List qnode)
    (hq : p.wq = qnode.exit_message :: rest) (n : Nat) :
    (fun q => (worker_take q).2)^[n] p = p := by
  induction n with
  | zero => rfl
  | succ n ih =>
    rw [Function.iterate_succ_apply', ih, worker_take_exit p rest hq]

theorem takeWhile_append_of_mem (q r : List qnode) (h : qnode.exit_message ∈ q) :
    (q ++ r).takeWhile (fun n => n != qnode.exit_message) =
      q.takeWhile (fun n => n != qnode.exit_message) := by
  induction q with
  | nil => cases h
  | cons a q ih =>
    by_cases e : a = qnode.exit_message
    · subst e
      simp [List.takeWhile_cons]
    · have hm : qnode.exit_message ∈ q := by
        rcases List.mem_cons.1 h with c | c
        · exact absurd c.symm e
        · exact c
      simp only [List.cons_append, List.takeWhile_cons, bne_iff_ne, ne_eq, e, not_false_eq_true,
        decide_True, if_true, ih hm]

theorem behind_exit_append (q r : List qnode) (w : Nat) (h : behind_exit q w) :
    behind_exit (q ++ r) w := by
  refine ⟨List.mem_append_left _ h.1, ?_⟩
  rw [takeWhile_append_of_mem q r h.1]
  exact h.2

theorem behind_exit_tail (a : qnode) (q : List qnode) (w : Nat) (ha : a ≠ qnode.exit_message)
    (h : behind_exit (a :: q) w) : behind_exit q w := by
  obtain ⟨h1, h2⟩ := h
  refine ⟨?_, ?_⟩
  · rcases List.mem_cons.1 h1 with c | c
    · exact absurd c.symm ha
    · exact c
  · intro hm
    apply h2
    rw [List.takeWhile_cons]
    simp only [bne_iff_ne, ne_eq, ha, not_false_eq_true, decide_True, if_true]
    exact List.mem_cons_of_mem _ hm

theorem mem_takeWhile_erase (q : List qnode) (v : Nat) (n : qnode)
    (h : n ∈ (q.erase (qnode.work_req v)).takeWhile (fun n => n != qnode.exit_message)) :
    n ∈ q.takeWhile (fun n => n != qnode.exit_message) := by
  induction q with
  | nil => simp at h
  | cons b q ih =>
    by_cases e : b = qnode.work_req v
    · subst e
      rw [List.erase_cons_head] at h
      rw [List.takeWhile_cons]
      simp only [bne_iff_ne, ne_eq, reduceCtorEq, not_false_eq_true, decide_True, if_true]
      exact List.mem_cons_of_mem _ h
    · rw [List.erase_cons_tail (by simpa using e)] at h
      rw [List.takeWhile_cons] at h ⊢
      by_cases e2 : b = qnode.exit_message
      · simp [e2] at h
      · simp only [bne_iff_ne, ne_eq, e2, not_false_eq_true, decide_True, if_true] at h ⊢
        rcases List.mem_cons.1 h with c | c
        · rw [c]; exact List.mem_cons_self _ _
        · exact List.mem_cons_of_mem _ (ih c)

theorem behind_exit_erase (q : List qnode) (v w : Nat) (h : behind_exit q w) :
    behind_exit (q.erase (qnode.work_req v)) w :=
  ⟨(List.mem_erase_of_ne (by simp)).2 h.1, fun hm => h.2 (mem_takeWhile_erase q v _ hm)⟩

theorem queue_init_wq (p : threadpool) (q : qnode) : (queue_init p q).wq = p.wq := by
  cases q <;> rfl

/-- What `worker_take` does to `wq`: nothing, or the head (not the exit message) is taken
out, and the marker may be put at the tail. -/
theorem worker_take_wq (p : threadpool) :
    (worker_take p).2.wq = p.wq ∨
    ∃ a rest, p.wq = a :: rest ∧ a ≠ qnode.exit_message ∧
      ((worker_take p).2.wq = rest ∨
        (worker_take p).2.wq = rest ++ [qnode.run_slow_work_message]) := by
  by_cases h1 : worker_must_wait p = true
  · left; unfold worker_take; rw [if_pos h1]
  · cases hq : p.wq with
    | nil =>
      left; unfold worker_take; rw [if_neg h1]
      simp only [QUEUE_HEAD, hq, List.head?_nil]
    | cons q rest =>
      cases q with
      | exit_message =>
        left; unfold worker_take; rw [if_neg h1]
        simp only [QUEUE_HEAD, hq, List.head?_cons]
      | work_req w =>
        right
        refine ⟨_, rest, rfl, by simp, Or.inl ?_⟩
        unfold worker_take
        rw [if_neg h1]
        simp only [QUEUE_HEAD, QUEUE_REMOVE, hq, List.head?_cons, List.erase_cons_head,
          set_work]
      | run_slow_work_message =>
        right
        refine ⟨_, rest, rfl, by simp, ?_⟩
        unfold worker_take
        rw [if_neg h1]
        simp only [QUEUE_HEAD, QUEUE_REMOVE, QUEUE_INSERT_TAIL, hq, List.head?_cons,
          List.erase_cons_head]
        split_ifs with h2 h3
        · exact Or.inr rfl
        · exact Or.inl rfl
        · cases hs : p.slow_io_pending_wq with
          | nil => exact Or.inl rfl
          | cons sq srest =>
            simp only [List.head?_cons]
            split_ifs
            · right; simp only [queue_init_wq]
            · left; simp only [queue_init_wq]

theorem worker_take_run_head (p : threadpool) (w : Nat)
    (h : (worker_take p).1 = worker_next.run w false) :
    ∃ rest, p.wq = qnode.work_req w :: rest := by
  unfold worker_take at h
  by_cases h1 : worker_must_wait p = true
  · rw [if_pos h1] at h; cases h
  · rw [if_neg h1] at h
    cases hq : QUEUE_HEAD p.wq with
    | none => simp [hq] at h
    | some q =>
      cases q with
      | exit_message => simp [hq] at h
      | work_req v =>
        simp only [hq, worker_next.run.injEq] at h
        unfold QUEUE_HEAD at hq
        cases hl : p.wq with
        | nil => rw [hl] at hq; cases hq
        | cons a rest =>
          rw [hl] at hq
          simp only [List.head?_cons, Option.some.injEq] at hq
          exact ⟨rest, by rw [hq, h.1]⟩
      | run_slow_work_message =>
        exfalso
        simp only [hq] at h
        by_cases h2 : p.slow_io_work_running ≥ slow_work_thread_threshold
            { p with
              wq := QUEUE_REMOVE p.wq qnode.run_slow_work_message
              run_slow_work_message_empty := true }
        · rw [if_pos h2] at h; simp at h
        · rw [if_neg h2] at h
          by_cases h3 : QUEUE_EMPTY p.slow_io_pending_wq = true
          · rw [if_pos h3] at h; simp at h
          · rw [if_neg h3] at h
            cases hs : QUEUE_HEAD p.slow_io_pending_wq with
            | none => simp [hs] at h
            | some v =>
              simp only [hs] at h
              cases v <;> split_ifs at h <;> simp [worker_run] at h

theorem behind_exit_step (p q : threadpool) (w : Nat) (hs : pool_step p q)
    (h : behind_exit p.wq w) : behind_exit q.wq w := by
  cases hs with
  | submit loop v kind work done =>
    by_cases hk : kind = uv__work_kind.UV__WORK_SLOW_IO
    · subst hk
      cases hf : p.run_slow_work_message_empty
      · rw [uv__work_submit_slow_linked p loop v work done hf]; exact h
      · rw [uv__work_submit_slow_unlinked p loop v work done hf]
        exact behind_exit_append _ _ w h
    · rw [uv__work_submit_fast p loop v kind work done hk]
      exact behind_exit_append _ _ w h
  | take =>
    rcases worker_take_wq p with e | ⟨a, rest, hq, ha, e | e⟩
    · rw [e]; exact h
    · rw [e]
      rw [hq] at h
      exact behind_exit_tail a rest w ha h
    · rw [e]
      rw [hq] at h
      exact behind_exit_append _ _ w (behind_exit_tail a rest w ha h)
  | done v => exact h
  | relock b =>
    rw [(worker_relock_frame p b).2.1]; exact h
  | cancel loop v =>
    cases hc : work_cancellable p v
    · rw [uv__work_cancel_busy p loop v hc]; exact h
    · rw [uv__work_cancel_state p loop v hc]
      exact behind_exit_erase _ v w h
  | drain loop =>
    rw [uv__work_done_idle]; exact h

theorem behind_exit_steps (p q : threadpool) (w : Nat)
    (hs : Relation.ReflTransGen pool_step p q) (h : behind_exit p.wq w) :
    behind_exit q.wq w := by
  induction hs with
  | refl => exact h
  | tail _ hstep ih => exact behind_exit_step _ _ w hstep ih

theorem behind_exit_not_taken (p : threadpool) (w : Nat) (h : behind_exit p.wq w) :
    (worker_take p).1 ≠ worker_next.run w false := by
  intro hr
  obtain ⟨rest, hq⟩ := worker_take_run_head p w hr
  apply h.2
  rw [hq, List.takeWhile_cons]
  simp

theorem behind_exit_cleanup (p : threadpool) (w : Nat) (hn : p.nthreads ≠ 0)
    (hw : qnode.work_req w ∉ p.wq) : behind_exit (cleanup_post p).wq w := by
  have e : (cleanup_post p).wq = p.wq ++ [qnode.exit_message] := by
    unfold cleanup_post
    rw [if_neg hn]
    simp [post, queue_linked, QUEUE_INSERT_TAIL]
  rw [e]
  refine ⟨by simp, ?_⟩
  intro hm
  have hsub := (List.takeWhile_sublist (fun n => n != qnode.exit_message)
    (l := p.wq ++ [qnode.exit_message])).subset hm
  rcases List.mem_append.1 hsub with c | c
  · exact hw c
  · simp at c

/-- C23. With the exit message at the head of `wq`, a worker that looks at the head
terminates and leaves the pool as it is, the exit message still at the head; so does every
worker after it. After `cleanup` has posted the exit message, a work item that was not in
`wq` before, and more generally one whose places in `wq` are all behind the exit message,
stays behind it whatever steps the pool takes, and no worker takes it from `wq`. -/
theorem exit_message_stops_workers (p : threadpool) (rest : List qnode)
    (hq : p.wq = qnode.exit_message :: rest) :
    worker_take p = (worker_next.exit, p) ∧
    (∀ n, (fun q => (worker_take q).2)^[n] p = p ∧
      (worker_take ((fun q => (worker_take q).2)^[n] p)).1 = worker_next.exit) ∧
    (∀ w s, (worker_take p).1 ≠ worker_next.run w s) ∧
    (∀ (p0 : threadpool) (w : Nat), p0.nthreads ≠ 0 → qnode.work_req w ∉ p0.wq →
      behind_exit (cleanup_post p0).wq w) ∧
    (∀ (p1 p2 : threadpool) (w : Nat), behind_exit p1.wq w →
      Relation.ReflTransGen pool_step p1 p2 →
      behind_exit p2.wq w ∧ (worker_take p2).1 ≠ worker_next.run w false) := by
  have e := worker_take_exit p rest hq
  refine ⟨e, ?_, ?_, behind_exit_cleanup, ?_⟩
  · intro n
    rw [worker_take_exit_iterate p rest hq n, e]
    exact ⟨rfl, rfl⟩
  · intro w s h
    rw [e] at h
    cases h
  · intro p1 p2 w h hs
    have h2 := behind_exit_steps p1 p2 w hs h
    exact ⟨h2, behind_exit_not_taken p2 w h2⟩

theorem exit_message_stops_workers_witness :
    worker_take pool_exiting = (worker_next.exit, pool_exiting) ∧
    behind_exit pool_exiting.wq 1 ∧
    (worker_take (uv__work_cancel (uv__work_submit pool_exiting 0 2
      uv__work_kind.UV__WORK_CPU (work_fn.fn 12) (some 20)) 0 2).2).1 ≠
        worker_next.run 1 false := by
  have h := exit_message_stops_workers pool_exiting [qnode.work_req 1] rfl
  refine ⟨h.1, by decide, ?_⟩
  exact (h.2.2.2.2 pool_exiting _ 1 (by decide)
    ((Relation.ReflTransGen.single (pool_step.submit pool_exiting 0 2
      uv__work_kind.UV__WORK_CPU (work_fn.fn 12) (some 20))).tail
      (pool_step.cancel _ 0 2))).2


/-! ## Passes of `uv__run_timers` over repeating and non-repeating timers -/

theorem mem_due_timers (loop : uv_loop_t) (h : Nat) :
    h ∈ due_timers loop ↔ (h ∈ loop.timer_heap ∧ (loop.timers h).timeout ≤ loop.time) := by
  unfold due_timers
  rw [Finset.mem_filter, List.mem_toFinset]

theorem due_timers_card_le (loop : uv_loop_t) :
    (due_timers loop).card ≤ loop.timer_heap.length := by
  unfold due_timers
  exact le_trans (Finset.card_filter_le _ _) (List.toFinset_card_le _)

/-- Firing the earliest timer, which is due, takes it out of the timers that are due: it is
stopped, or started again with a deadline after the loop time. -/
theorem due_timers_fire (loop : uv_loop_t) (m : Nat) (hi : timer_inv loop)
    (hm : heap_min loop.timer_heap = some m) (hexp : (loop.timers m).timeout ≤ loop.time)
    (ht : loop.time < 2 ^ 64 - 1) :
    m ∈ due_timers loop ∧ due_timers (timer_fire loop m) = (due_timers loop).erase m := by
  have hmm := heap_min_mem _ _ hm
  have hma : (loop.timers m).active = true := (hi.mem_iff m).1 hmm
  refine ⟨(mem_due_timers loop m).2 ⟨hmm, hexp⟩, ?_⟩
  ext h
  rw [Finset.mem_erase, mem_due_timers, mem_due_timers]
  by_cases hr : (loop.timers m).repeat_ms = 0
  · obtain ⟨g1, _, g3, g4, g5⟩ := timer_fire_spec_once loop m hi hma hr
    rw [g1, g5]
    by_cases e : h = m
    · subst e; simp
    · rw [g4 h e]; simp [e]
  · obtain ⟨g1, g2, g4, g5⟩ := timer_fire_spec_repeat loop m hi hma hr
    rw [g1, g5]
    by_cases e : h = m
    · subst e
      rw [g2]
      have := clamped_timeout_gt loop.time (loop.timers h).repeat_ms ht hr
      simp only [ne_eq, not_true_eq_false, false_and, iff_false, not_and, not_le]
      intro _; exact this
    · rw [g4 h e]; simp [e]

/-- Below the loop time `2^64 - 1`, a pass of `uv__run_timers` with callbacks that make no
timer call ends, fires exactly the timers that are due at the start, each once, and leaves
no timer due. -/
theorem uv__run_timers_mixed (cbs : timer_cbs) (hcb : ∀ c h l, cbs c h l = []) (fuel : Nat) :
    ∀ (loop : uv_loop_t), timer_inv loop → loop.time < 2 ^ 64 - 1 →
    (due_timers loop).card < fuel →
    ∃ r, uv__run_timers cbs fuel loop = some r ∧
      r.2.Nodup ∧
      (∀ h, h ∈ r.2 ↔ h ∈ due_timers loop) ∧
      due_timers r.1 = ∅ ∧
      r.1.time = loop.time ∧ timer_inv r.1 ∧
      (∀ h, h ∈ r.1.timer_heap ↔
        (h ∈ loop.timer_heap ∧
          (loop.time < (loop.timers h).timeout ∨ (loop.timers h).repeat_ms ≠ 0))) ∧
      (∀ h, h ∉ r.2 → r.1.timers h = loop.timers h) := by
  induction fuel with
  | zero => intro loop _ _ h; omega
  | succ fuel ih =>
    intro loop hi ht hlen
    cases hm : heap_min loop.timer_heap with
    | none =>
      refine ⟨(loop, []), uv__run_timers_empty cbs fuel loop hm, ?_⟩
      rw [heap_min_none] at hm
      have hd : due_timers loop = ∅ := by
        ext h; rw [mem_due_timers, hm]; simp
      refine ⟨List.nodup_nil, ?_, hd, rfl, hi, ?_, fun _ _ => rfl⟩
      · intro h; rw [hd]; simp
      · intro h; simp [hm]
    | some m =>
      have hmm := heap_min_mem _ _ hm
      have hma : (loop.timers m).active = true := (hi.mem_iff m).1 hmm
      by_cases hexp : loop.time < (loop.timers m).timeout
      · refine ⟨(loop, []), uv__run_timers_not_due cbs fuel loop m hm hexp, ?_⟩
        have hall : ∀ h, h ∈ loop.timer_heap → loop.time < (loop.timers h).timeout := by
          intro h hin
          have := heap_min_timeout_le loop hi m hm h ((hi.mem_iff h).1 hin)
          omega
        have hd : due_timers loop = ∅ := by
          ext h
          rw [mem_due_timers]
          simp only [Finset.not_mem_empty, iff_false, not_and, not_le]
          exact hall h
        refine ⟨List.nodup_nil, ?_, hd, rfl, hi, ?_, fun _ _ => rfl⟩
        · intro h; rw [hd]; simp
        · intro h
          simp only
          constructor
          · intro hin; exact ⟨hin, Or.inl (hall h hin)⟩
          · intro hin; exact hin.1
      · have hexp' : (loop.timers m).timeout ≤ loop.time := by omega
        obtain ⟨f1, f2, f3⟩ := timer_fire_cb loop m hi hma
        obtain ⟨c, hc⟩ := Option.ne_none_iff_exists'.1 f3
        rw [uv__run_timers_idle cbs hcb fuel loop m hm hexp' c (by rw [f1, hc])]
        obtain ⟨d1, d2⟩ := due_timers_fire loop m hi hm hexp' ht
        have hi2 := timer_inv_fire loop m hi
        have htime : (timer_fire loop m).time = loop.time := by
          by_cases hr : (loop.timers m).repeat_ms = 0
          · exact (timer_fire_spec_once loop m hi hma hr).2.2.2.2
          · exact (timer_fire_spec_repeat loop m hi hma hr).2.2.2
        have hother : ∀ h, h ≠ m → (timer_fire loop m).timers h = loop.timers h := by
          intro h e
          by_cases hr : (loop.timers m).repeat_ms = 0
          · exact (timer_fire_spec_once loop m hi hma hr).2.2.2.1 h e
          · exact (timer_fire_spec_repeat loop m hi hma hr).2.2.1 h e
        have hcard : (due_timers (timer_fire loop m)).card < fuel := by
          rw [d2, Finset.card_erase_of_mem d1]
          have := Finset.card_pos.2 ⟨m, d1⟩
          omega
        obtain ⟨r', e', n1, n2, n3, n4, n5, n6, n7⟩ :=
          ih (timer_fire loop m) hi2 (by rw [htime]; exact ht) hcard
        have hnot : m ∉ r'.2 := by
          intro hin
          have := (n2 m).1 hin
          rw [d2] at this
          exact (Finset.mem_erase.1 this).1 rfl
        refine ⟨(r'.1, m :: r'.2), by rw [e']; rfl, List.nodup_cons.2 ⟨hnot, n1⟩, ?_, n3,
          by rw [n4, htime], n5, ?_, ?_⟩
        · intro h
          simp only [List.mem_cons]
          rw [n2 h, d2, Finset.mem_erase]
          by_cases e : h = m
          · subst e; simp [d1]
          · simp [e]
        · intro h
          simp only
          rw [n6 h, htime]
          by_cases e : h = m
          · subst e
            by_cases hr : (loop.timers h).repeat_ms = 0
            · obtain ⟨g1, _, g3, _, _⟩ := timer_fire_spec_once loop h hi hma hr
              rw [g1]
              simp only [ne_eq, not_true_eq_false, and_false, false_and, false_iff, not_and,
                not_or, not_lt, not_not]
              intro _; exact ⟨hexp', hr⟩
            · obtain ⟨g1, g2, _, _⟩ := timer_fire_spec_repeat loop h hi hma hr
              rw [g1, g2]
              have := clamped_timeout_gt loop.time (loop.timers h).repeat_ms ht hr
              simp only [this, true_or, and_true, ne_eq, hr, not_false_eq_true, or_true]
          · rw [hother h e]
            by_cases hr : (loop.timers m).repeat_ms = 0
            · rw [(timer_fire_spec_once loop m hi hma hr).1]
              simp [e]
            · rw [(timer_fire_spec_repeat loop m hi hma hr).1]
        · intro h hin
          simp only [List.mem_cons, not_or] at hin
          simp only
          rw [n7 h hin.2, hother h hin.1]

theorem loop_mixed_timers_inv : timer_inv loop_mixed_timers := by
  unfold loop_mixed_timers
  apply timer_inv_update_time
  apply timer_inv_start
  apply timer_inv_start
  apply timer_inv_start
  apply timer_inv_timer_init _ _ _ (by decide)
  apply timer_inv_timer_init _ _ _ (by decide)
  apply timer_inv_timer_init _ _ _ (by decide)
  exact timer_inv_init 0

/-- C24. For a loop whose timers (repeating or not) satisfy the invariant of the heap, with
callbacks that make no timer call: at a loop time below `2^64 - 1` the pass of
`uv__run_timers` ends for every bound above the number of due timers; it invokes each timer
that is due at the start exactly once and no other timer; afterwards no timer in the heap
has a deadline at or before the loop time, and `uv__next_timeout` is not 0. At the loop time
`2^64 - 1` with a repeating timer that is due the pass does not end, for no bound. -/
theorem run_timers_mixed_terminates (cbs : timer_cbs) (hcb : ∀ c h l, cbs c h l = [])
    (loop : uv_loop_t) (hi : timer_inv loop) :
    (loop.time < 2 ^ 64 - 1 → ∀ fuel, (due_timers loop).card < fuel →
      ∃ r, uv__run_timers cbs fuel loop = some r ∧
        (∀ h, r.2.count h =
          if h ∈ loop.timer_heap ∧ (loop.timers h).timeout ≤ loop.time then 1 else 0) ∧
        (∀ h, h ∈ r.1.timer_heap → r.1.time < (r.1.timers h).timeout) ∧
        r.1.time = loop.time ∧
        uv__next_timeout r.1 ≠ 0 ∧
        (∀ h, h ∈ r.1.timer_heap ↔
          (h ∈ loop.timer_heap ∧
            (loop.time < (loop.timers h).timeout ∨ (loop.timers h).repeat_ms ≠ 0)))) ∧
    (due_timers loop).card ≤ loop.timer_heap.length ∧
    (2 ^ 64 - 1 ≤ loop.time →
      (∃ h, (loop.timers h).active = true ∧ (loop.timers h).repeat_ms ≠ 0 ∧
        (loop.timers h).timeout ≤ loop.time) →
      ∀ fuel, uv__run_timers cbs fuel loop = none) := by
  refine ⟨?_, due_timers_card_le loop, ?_⟩
  · intro ht fuel hfuel
    obtain ⟨r, e, n1, n2, n3, n4, n5, n6, _⟩ :=
      uv__run_timers_mixed cbs hcb fuel loop hi ht hfuel
    have hnone : ∀ h, h ∈ r.1.timer_heap → r.1.time < (r.1.timers h).timeout := by
      intro h hin
      by_contra hc
      have : h ∈ due_timers r.1 := (mem_due_timers r.1 h).2 ⟨hin, by omega⟩
      rw [n3] at this
      simp at this
    refine ⟨r, e, ?_, hnone, n4, ?_, n6⟩
    · intro h
      by_cases hc : h ∈ loop.timer_heap ∧ (loop.timers h).timeout ≤ loop.time
      · rw [if_pos hc]
        exact List.count_eq_one_of_mem n1 ((n2 h).2 ((mem_due_timers loop h).2 hc))
      · rw [if_neg hc]
        exact List.count_eq_zero_of_not_mem
          (fun hin => hc ((mem_due_timers loop h).1 ((n2 h).1 hin)))
    · rw [Ne, next_timeout_zero_iff]
      rintro ⟨m, hm, hexp⟩
      have := hnone m (heap_min_mem _ _ hm)
      omega
  · intro ht hex fuel
    exact uv__run_timers_none cbs hcb fuel loop hi ht hex

theorem run_timers_mixed_terminates_witness :
    (∃ r, uv__run_timers idle_cbs 3 loop_mixed_timers = some r ∧
      (∀ h, r.2.count h =
        if h ∈ loop_mixed_timers.timer_heap ∧
          (loop_mixed_timers.timers h).timeout ≤ loop_mixed_timers.time then 1 else 0) ∧
      (∀ h, h ∈ r.1.timer_heap → r.1.time < (r.1.timers h).timeout) ∧
      r.1.time = loop_mixed_timers.time ∧
      uv__next_timeout r.1 ≠ 0 ∧
      (∀ h, h ∈ r.1.timer_heap ↔
        (h ∈ loop_mixed_timers.timer_heap ∧
          (loop_mixed_timers.time < (loop_mixed_timers.timers h).timeout ∨
            (loop_mixed_timers.timers h).repeat_ms ≠ 0)))) ∧
    timers_fired idle_cbs 3 loop_mixed_timers = some [1, 2] ∧
    (∀ fuel, uv__run_timers idle_cbs fuel
      (uv__update_time loop_mixed_timers (2 ^ 64 - 1)) = none) :=
  ⟨(run_timers_mixed_terminates idle_cbs (fun _ _ _ => rfl) loop_mixed_timers
      loop_mixed_timers_inv).1 (by decide) 3 (by decide),
    by decide,
    (run_timers_mixed_terminates idle_cbs (fun _ _ _ => rfl)
      (uv__update_time loop_mixed_timers (2 ^ 64 - 1))
      (timer_inv_update_time _ _ loop_mixed_timers_inv)).2.2 (by decide)
      ⟨2, by decide, by decide, by decide⟩⟩

/-! ## The thread pool: slow items and the exit message -/

/-- An item of slow I/O is not in `wq`; it is served through the marker. When the marker
stands in front of the exit message, a slow item that was submitted after `cleanup` posted
the exit message is still taken by a worker: here item 1 is submitted, the exit message is
posted, item 2 is submitted, item 1 is cancelled, and the worker takes item 2. -/
theorem slow_item_after_exit_taken :
    (cleanup_post (uv__work_submit run_boot.pool 0 1 uv__work_kind.UV__WORK_SLOW_IO
      (work_fn.fn 10) (some 20))).wq = [qnode.run_slow_work_message, qnode.exit_message] ∧
    (worker_take (uv__work_cancel (uv__work_submit
      (cleanup_post (uv__work_submit run_boot.pool 0 1 uv__work_kind.UV__WORK_SLOW_IO
        (work_fn.fn 10) (some 20)))
      0 2 uv__work_kind.UV__WORK_SLOW_IO (work_fn.fn 11) (some 21)) 0 1).2).1 =
        worker_next.run 2 true := by
  refine ⟨by decide, by decide⟩


end Libuv
